import Mathlib

/-!
# lua-gumbo: projection of a Gumbo parse tree onto Lua tables

A shallow embedding of `gumbo.c` (the Lua binding of the Gumbo HTML5 parser)
and theorems about it.

* The Gumbo tree (`GumboNode`, `GumboOutput`, ...) is declared in `gumbo.h`; the
  types below carry exactly the fields `gumbo.c` reads.
* The Lua C API (`lua_createtable`, `lua_setfield`, ...) is modelled after the
  Lua reference manual as operations on an explicit `lua_State`: a value stack
  (top first), the number of slots the running C function may use (`ci_top`),
  and the fixed limit of `lua_checkstack` (`maxstack`).
* A Lua error (`luaL_error`, a `longjmp` in C) is the result `Result.error`:
  everything after it in the C function is skipped.
* Tables are modelled by their contents.  In `gumbo.c` a table is never written
  to after it has been stored in another table, so sharing is not observable.
* The C strings of the tree are modelled by `String`: Gumbo leaves none of
  them null.
* The vectors of children and attributes are taken to be shorter than 2^31
  elements, so that the index `i + 1` handed to `lua_rawseti` does not wrap.
* `index_within_parent` is a `size_t` (64 bits); the sum
  `index_within_parent + 1` is computed in that type and converted to the
  `int` (32 bits, two's complement) that `lua_rawgeti` takes.
-/

namespace LuaGumbo

/-! ## Lua values and tables -/

/-- Keys of a Lua table that `gumbo.c` uses: integers (`lua_rawseti`) and
strings (`lua_setfield`). -/
inductive Key where
  | int (n : Nat)
  | str (s : String)
  deriving DecidableEq, Repr

/-- Lua values that `gumbo.c` creates. A table is the list of its (key, value)
entries in order of first insertion; keys are distinct and no value is nil. -/
inductive TValue where
  | nil
  | boolean (b : Bool)
  | string (s : String)
  | table (fields : List (Key × TValue))

/-- Contents of a table. -/
abbrev Table := List (Key × TValue)

/-- Test for the nil value. -/
def TValue.isNil : TValue → Bool
  | .nil => true
  | _ => false

/-- Raw read `t[k]`: nil when the key is absent. -/
def Table.get : Table → Key → TValue
  | [], _ => .nil
  | (k', v) :: t, k => if k' = k then v else Table.get t k

/-- Raw read `t[n]` at a C `int`. The integer keys of the tables of this model
are natural numbers (`gumbo.c` stores under the indices `i + 1` only), so a
negative key is absent. -/
def Table.geti (t : Table) (n : Int) : TValue :=
  if n < 0 then .nil else Table.get t (.int n.toNat)

/-- Removal of key `k`. -/
def Table.erase : Table → Key → Table
  | [], _ => []
  | (k', v) :: t, k => if k' = k then t else (k', v) :: Table.erase t k

/-- Insertion of a non-nil value: an existing key keeps its place and gets the
new value, a new key goes to the end. -/
def Table.insert : Table → Key → TValue → Table
  | [], k, v => [(k, v)]
  | (k', v') :: t, k, v => if k' = k then (k, v) :: t else (k', v') :: Table.insert t k v

/-- Raw write `t[k] = v`; writing nil removes the key. -/
def Table.set (t : Table) (k : Key) (v : TValue) : Table :=
  if v.isNil then Table.erase t k else Table.insert t k v

/-- The keys of a table, in order. -/
def Table.keys (t : Table) : List Key := t.map Prod.fst

/-- The array part of a table: its entries under integer keys, in order. -/
def Table.sequence (t : Table) : Table :=
  t.filter (fun e => match e.1 with | .int _ => true | .str _ => false)

/-! ## The Gumbo parse tree (`gumbo.h`) -/

/-- Modelled from the spec: `GumboNodeType` of `gumbo.h`, the six node kinds
named in `node_type_to_string`; `other` stands for any other value of the C
enum's integer type. -/
inductive GumboNodeType where
  | GUMBO_NODE_DOCUMENT
  | GUMBO_NODE_ELEMENT
  | GUMBO_NODE_TEXT
  | GUMBO_NODE_CDATA
  | GUMBO_NODE_COMMENT
  | GUMBO_NODE_WHITESPACE
  | other (value : Nat)
  deriving DecidableEq, Repr

/-- Modelled from the spec: `GumboQuirksModeEnum` of `gumbo.h`, the three
enumerators that index `qmode_map`. -/
inductive GumboQuirksModeEnum where
  | GUMBO_DOCTYPE_NO_QUIRKS
  | GUMBO_DOCTYPE_QUIRKS
  | GUMBO_DOCTYPE_LIMITED_QUIRKS
  deriving DecidableEq, Repr

/-- Modelled from the spec: `GumboTag` of `gumbo.h`: a known tag, or the
sentinel `GUMBO_TAG_UNKNOWN`. -/
inductive GumboTag where
  | known (id : Nat)
  | GUMBO_TAG_UNKNOWN
  deriving DecidableEq, Repr

/-- A `GumboStringPiece`: the `length` bytes starting at `data`. -/
abbrev GumboStringPiece := String

/-- The fields of `GumboAttribute` that are read. -/
structure GumboAttribute where
  name : String
  value : String
  deriving DecidableEq, Repr

/-- A `GumboNode`: the tag `type` together with the member of the union `v`
that belongs to it. `document` and `element` carry the fields of
`GumboDocument` and `GumboElement` that are read; the four text kinds carry
`v.text.text`; `other` is a node whose `type` is none of the six kinds. -/
inductive GumboNode where
  | document (name public_identifier system_identifier : String) (has_doctype : Bool)
      (doc_type_quirks_mode : GumboQuirksModeEnum) (children : List GumboNode)
  | element (tag : GumboTag) (original_tag : GumboStringPiece)
      (attributes : List GumboAttribute) (children : List GumboNode)
  | text (text : String)
  | cdata (text : String)
  | comment (text : String)
  | whitespace (text : String)
  | other (value : Nat)

/-- The field `node->type`. -/
def GumboNode.type : GumboNode → GumboNodeType
  | .document .. => .GUMBO_NODE_DOCUMENT
  | .element .. => .GUMBO_NODE_ELEMENT
  | .text _ => .GUMBO_NODE_TEXT
  | .cdata _ => .GUMBO_NODE_CDATA
  | .comment _ => .GUMBO_NODE_COMMENT
  | .whitespace _ => .GUMBO_NODE_WHITESPACE
  | .other value => .other value

/-- Sum of two `size_t`: unsigned arithmetic on 64 bits. -/
def size_t_add (a b : Nat) : Nat := (a + b) % 2 ^ 64

/-- Conversion of a `size_t` to `int`, as it happens where a `size_t` is
passed for an `int` parameter: the low 32 bits, read in two's complement. -/
def int_of_size_t (x : Nat) : Int :=
  if x % 2 ^ 32 < 2 ^ 31 then ((x % 2 ^ 32 : Nat) : Int)
  else ((x % 2 ^ 32 : Nat) : Int) - 2 ^ 32

/-- The node `output->root` points to; only `index_within_parent`, a `size_t`,
is read. -/
structure GumboRoot where
  index_within_parent : Nat

/-- A `GumboOutput`. -/
structure GumboOutput where
  document : GumboNode
  root : GumboRoot

/-- The functions of the Gumbo library that `gumbo.c` calls. They are not part
of the binding and are taken as parameters. `gumbo_parse_with_options` is
applied to `kGumboDefaultOptions` and the input; `none` is the null pointer.
`gumbo_tag_from_original_text` maps the piece it is given to the piece it
leaves in its place. -/
structure GumboLibrary where
  gumbo_parse_with_options : String → Option GumboOutput
  gumbo_normalized_tagname : GumboTag → String
  gumbo_tag_from_original_text : GumboStringPiece → GumboStringPiece

/-! ## The Lua state and the C API -/

/-- The state a C function sees. `stack` is the function's stack frame, top
first. `ci_top` is the number of slots of the frame the function may use
(`L->ci->top - L->base`), `maxstack` the size `lua_checkstack` refuses to
exceed. Three fields only record what happened: `peak` is the greatest height
the stack has had, `ntables` counts the tables created so far, and
`gumbo_destroyed` lists the outputs handed to `gumbo_destroy_output`.
Running out of memory is not modelled. -/
structure lua_State where
  stack : List TValue
  ci_top : Nat
  maxstack : Nat
  peak : Nat
  ntables : Nat
  gumbo_destroyed : List GumboOutput

/-- Outcome of a piece of C code run on a `lua_State`: normal completion with a
value, a raised Lua error carrying its message and the state at the time of
the raise, or a violation of a precondition of the C API. -/
inductive Result (α : Type) where
  | ok (a : α) (L : lua_State)
  | error (msg : String) (L : lua_State)
  | undefined

/-- C code operating on a `lua_State`. -/
def LuaM (α : Type) : Type := lua_State → Result α

/-- Sequencing: a raised error or an API violation ends the computation. -/
def LuaM.bind {α β : Type} (x : LuaM α) (f : α → LuaM β) : LuaM β := fun L =>
  match x L with
  | .ok a L1 => f a L1
  | .error msg L1 => .error msg L1
  | .undefined => .undefined

instance : Monad LuaM where
  pure a := fun L => .ok a L
  bind := LuaM.bind

/-- `LUA_MINSTACK`: free slots a C function has on entry. -/
def LUA_MINSTACK : Nat := 20

/-- Push of a value; a push beyond the slots the function may use violates
the API. -/
def lua_push (v : TValue) : LuaM Unit := fun L =>
  if L.stack.length < L.ci_top then
    .ok () { L with stack := v :: L.stack, peak := max L.peak (L.stack.length + 1) }
  else .undefined

/-- Position, counted from the top, of the stack slot an index refers to:
positive indices count from the bottom, negative ones from the top. -/
def index2adr (L : lua_State) (idx : Int) : Option Nat :=
  if 0 < idx then
    if idx.toNat ≤ L.stack.length then some (L.stack.length - idx.toNat) else none
  else if idx < 0 ∧ (-idx).toNat ≤ L.stack.length then some ((-idx).toNat - 1)
  else none

/-- The table at a stack index, with its position. -/
def table_at (L : lua_State) (idx : Int) : Option (Nat × Table) :=
  match index2adr L idx with
  | some p =>
    match L.stack.get? p with
    | some (.table t) => some (p, t)
    | _ => none
  | none => none

/-- `lua_createtable`: pushes a new empty table; `narr` and `nrec` only
preallocate. -/
def lua_createtable (_narr _nrec : Nat) : LuaM Unit := fun L =>
  lua_push (.table []) { L with ntables := L.ntables + 1 }

/-- `lua_pushstring`. -/
def lua_pushstring (s : String) : LuaM Unit := lua_push (.string s)

/-- `lua_pushlstring` on the bytes of a string piece. -/
def lua_pushlstring (s : GumboStringPiece) : LuaM Unit := lua_push (.string s)

/-- `lua_pushliteral`. -/
def lua_pushliteral (s : String) : LuaM Unit := lua_push (.string s)

/-- `lua_pushboolean`. -/
def lua_pushboolean (b : Bool) : LuaM Unit := lua_push (.boolean b)

/-- `lua_pushnil`. -/
def lua_pushnil : LuaM Unit := lua_push .nil

/-- Store of the top value under key `k` in the table at `idx`, then pop. -/
def store_pop (idx : Int) (k : Key) : LuaM Unit := fun L =>
  match L.stack with
  | [] => .undefined
  | v :: _ =>
    match table_at L idx with
    | some (p, t) => .ok () { L with stack := (L.stack.set p (.table (Table.set t k v))).tail }
    | none => .undefined

/-- `lua_setfield`: `t[k] = v` for the table `t` at `idx` and the value `v` on
top, which is popped. The tables of `gumbo.c` have no metatable. A value at
`idx` that is no table is outside the model. -/
def lua_setfield (idx : Int) (k : String) : LuaM Unit := store_pop idx (.str k)

/-- `lua_rawseti`: `t[n] = v` for the table `t` at `idx` and the value `v` on
top, which is popped. -/
def lua_rawseti (idx : Int) (n : Nat) : LuaM Unit := store_pop idx (.int n)

/-- `lua_rawgeti`: pushes `t[n]` for the table `t` at `idx`; `n` is an
`int`. -/
def lua_rawgeti (idx : Int) (n : Int) : LuaM Unit := fun L =>
  match table_at L idx with
  | some (_, t) => lua_push (Table.geti t n) L
  | none => .undefined

/-- `lua_checkstack`: makes room for `n` more slots, unless the frame would
exceed `maxstack`. -/
def lua_checkstack (n : Nat) : LuaM Bool := fun L =>
  if L.stack.length + n ≤ L.maxstack then
    .ok true { L with ci_top := max L.ci_top (L.stack.length + n) }
  else .ok false L

/-- `luaL_error`: raises a Lua error. Called from a C function, the message
gets no position prefix. -/
def luaL_error {α : Type} (msg : String) : LuaM α := fun L => .error msg L

/-- `luaL_checkstack`: raises `stack overflow (mes)` when `lua_checkstack`
fails. -/
def luaL_checkstack (space : Nat) (mes : String) : LuaM Unit := do
  if !(← lua_checkstack space) then
    luaL_error ("stack overflow (" ++ mes ++ ")")

/-- `gumbo_destroy_output`: releases a parse tree. -/
def gumbo_destroy_output (output : GumboOutput) : LuaM Unit := fun L =>
  .ok () { L with gumbo_destroyed := output :: L.gumbo_destroyed }

/-! ## `gumbo.c` -/

/-- The macro `add_field(L, T, K, V)`: `lua_pushT(L, V)`, then
`lua_setfield(L, -2, K)`. -/
def add_field {α : Type} (lua_pushT : α → LuaM Unit) (K : String) (V : α) : LuaM Unit := do
  lua_pushT V
  lua_setfield (-2) K

/-- The array `node_type_to_string`. It has no entry for other values of the
enum; `build_node` reads it for the four text kinds only. -/
def node_type_to_string : GumboNodeType → String
  | .GUMBO_NODE_DOCUMENT => "document"
  | .GUMBO_NODE_ELEMENT => "element"
  | .GUMBO_NODE_TEXT => "text"
  | .GUMBO_NODE_CDATA => "cdata"
  | .GUMBO_NODE_COMMENT => "comment"
  | .GUMBO_NODE_WHITESPACE => "whitespace"
  | .other _ => ""

/-- The array `qmode_map`. -/
def qmode_map : GumboQuirksModeEnum → String
  | .GUMBO_DOCTYPE_NO_QUIRKS => "no-quirks"
  | .GUMBO_DOCTYPE_QUIRKS => "quirks"
  | .GUMBO_DOCTYPE_LIMITED_QUIRKS => "limited-quirks"

/-- The attribute loop of `build_element`: one `add_field` per attribute. -/
def add_attributes : List GumboAttribute → LuaM Unit
  | [] => pure ()
  | attr :: rest => do
    add_field lua_pushstring attr.name attr.value
    add_attributes rest

/-- The body of `build_element` up to its last statement, the call of
`add_children`. -/
def build_element_head (G : GumboLibrary) (tag : GumboTag) (original_tag : GumboStringPiece)
    (attributes : List GumboAttribute) (children : List GumboNode) : LuaM Unit := do
  let nattrs := attributes.length
  lua_createtable children.length (if nattrs ≠ 0 then 3 else 2)
  add_field lua_pushstring "type" "element"
  if tag = .GUMBO_TAG_UNKNOWN then
    let original_tag := G.gumbo_tag_from_original_text original_tag
    lua_pushlstring original_tag
  else
    lua_pushstring (G.gumbo_normalized_tagname tag)
  lua_setfield (-2) "tag"
  if nattrs ≠ 0 then
    lua_createtable 0 nattrs
    add_attributes attributes
    lua_setfield (-2) "attr"

mutual
/-- The function `build_node`. The call of `build_element` (a `static inline`
function) is expanded in place: its body is `build_element_head` followed by
`add_children`. -/
def build_node (G : GumboLibrary) (node : GumboNode) : LuaM Unit := do
  luaL_checkstack 10 "element nesting too deep"
  match node with
  | .document name public_identifier system_identifier has_doctype
      doc_type_quirks_mode children =>
    let quirks_mode := qmode_map doc_type_quirks_mode
    lua_createtable children.length 6
    add_field lua_pushstring "type" "document"
    add_field lua_pushstring "name" name
    add_field lua_pushstring "public_identifier" public_identifier
    add_field lua_pushstring "system_identifier" system_identifier
    add_field lua_pushboolean "has_doctype" has_doctype
    add_field lua_pushstring "quirks_mode" quirks_mode
    add_children G children 0
  | .element tag original_tag attributes children =>
    build_element_head G tag original_tag attributes children
    add_children G children 0
  | .text text | .comment text | .cdata text | .whitespace text =>
    lua_createtable 0 2
    add_field lua_pushstring "type" (node_type_to_string node.type)
    add_field lua_pushstring "text" text
  | .other _ =>
    luaL_error "Invalid node type"
termination_by structural node
/-- The loop of `add_children` from index `i` on, over the children not yet
visited; the C function is `add_children G children 0`. -/
def add_children (G : GumboLibrary) (children : List GumboNode) (i : Nat) : LuaM Unit :=
  match children with
  | [] => pure ()
  | child :: rest => do
    build_node G child
    lua_rawseti (-2) (i + 1)
    add_children G rest (i + 1)
termination_by structural children
end

/-- The function `build_element`, applied to the fields of the element. -/
def build_element (G : GumboLibrary) (tag : GumboTag) (original_tag : GumboStringPiece)
    (attributes : List GumboAttribute) (children : List GumboNode) : LuaM Unit := do
  build_element_head G tag original_tag attributes children
  add_children G children 0

/-- The function `parse`; its value is the number of results it returns,
which are the topmost values of the stack. -/
def parse (G : GumboLibrary) (input : String) : LuaM Nat :=
  match G.gumbo_parse_with_options input with
  | some output => do
    build_node G output.document
    lua_rawgeti (-1) (int_of_size_t (size_t_add output.root.index_within_parent 1))
    lua_setfield (-2) "root"
    gumbo_destroy_output output
    return 1
  | none => do
    lua_pushnil
    lua_pushliteral "Failed to parse"
    return 2


/-! ## The value a node denotes

The definitions from here on are not part of `gumbo.c`: they describe trees
and tables, and are used to state and prove what the functions above do. -/

mutual
/-- Whether every node of a tree has one of the six kinds. -/
def GumboNode.valid : GumboNode → Bool
  | .document _ _ _ _ _ children => valid_children children
  | .element _ _ _ children => valid_children children
  | .text _ | .cdata _ | .comment _ | .whitespace _ => true
  | .other _ => false
/-- Whether every node of a list of trees has one of the six kinds. -/
def valid_children : List GumboNode → Bool
  | [] => true
  | child :: rest => child.valid && valid_children rest
end

mutual
/-- Nesting depth of a tree: the number of levels below its root. -/
def GumboNode.depth : GumboNode → Nat
  | .document _ _ _ _ _ children => depth_children children
  | .element _ _ _ children => depth_children children
  | _ => 0
/-- Number of levels a list of children adds below their parent. -/
def depth_children : List GumboNode → Nat
  | [] => 0
  | child :: rest => max (child.depth + 1) (depth_children rest)
end

mutual
/-- Number of stack slots `build_node` uses above the height at which it is
entered, for a tree whose nodes all have one of the six kinds. -/
def GumboNode.slots : GumboNode → Nat
  | .document _ _ _ _ _ children => max 2 (slots_children children)
  | .element _ _ attributes children =>
    max (if attributes.length ≠ 0 then 3 else 2) (slots_children children)
  | .text _ | .cdata _ | .comment _ | .whitespace _ => 2
  | .other _ => 0
/-- Number of stack slots used above the height at which the parent was
entered while its children are built. -/
def slots_children : List GumboNode → Nat
  | [] => 0
  | child :: rest => max (child.slots + 1) (slots_children rest)
end

mutual
/-- Number of tables `build_node` creates for a tree: one per node and one per
element that has attributes. -/
def GumboNode.tables : GumboNode → Nat
  | .document _ _ _ _ _ children => 1 + tables_children children
  | .element _ _ attributes children =>
    1 + (if attributes.length ≠ 0 then 1 else 0) + tables_children children
  | .text _ | .cdata _ | .comment _ | .whitespace _ => 1
  | .other _ => 0
/-- Number of tables created for a list of trees. -/
def tables_children : List GumboNode → Nat
  | [] => 0
  | child :: rest => child.tables + tables_children rest
end

/-- The table of the attributes: each attribute stored under its name, in
source order. -/
def attr_table : List GumboAttribute → Table → Table
  | [], t => t
  | attr :: rest, t => attr_table rest (Table.set t (.str attr.name) (.string attr.value))

/-- The string stored under `tag`. -/
def tag_name (G : GumboLibrary) (tag : GumboTag) (original_tag : GumboStringPiece) : String :=
  if tag = .GUMBO_TAG_UNKNOWN then G.gumbo_tag_from_original_text original_tag
  else G.gumbo_normalized_tagname tag

/-- The table of an element before its children are added. -/
def element_head (G : GumboLibrary) (tag : GumboTag) (original_tag : GumboStringPiece)
    (attributes : List GumboAttribute) : Table :=
  let t := Table.set (Table.set [] (.str "type") (.string "element")) (.str "tag")
    (.string (tag_name G tag original_tag))
  if attributes.length ≠ 0 then Table.set t (.str "attr") (.table (attr_table attributes []))
  else t

/-- The table of a document before its children are added. -/
def document_head (name public_identifier system_identifier : String) (has_doctype : Bool)
    (doc_type_quirks_mode : GumboQuirksModeEnum) : Table :=
  Table.set (Table.set (Table.set (Table.set (Table.set (Table.set []
    (.str "type") (.string "document"))
    (.str "name") (.string name))
    (.str "public_identifier") (.string public_identifier))
    (.str "system_identifier") (.string system_identifier))
    (.str "has_doctype") (.boolean has_doctype))
    (.str "quirks_mode") (.string (qmode_map doc_type_quirks_mode))

mutual
/-- The Lua value `build_node` leaves on the stack for a tree whose nodes all
have one of the six kinds; for a node of another kind nothing is built. -/
def GumboNode.value (G : GumboLibrary) (node : GumboNode) : TValue :=
  match node with
  | .document name public_identifier system_identifier has_doctype
      doc_type_quirks_mode children =>
    .table (children_table G children 0 (document_head name public_identifier
      system_identifier has_doctype doc_type_quirks_mode))
  | .element tag original_tag attributes children =>
    .table (children_table G children 0 (element_head G tag original_tag attributes))
  | .text text | .comment text | .cdata text | .whitespace text =>
    .table (Table.set (Table.set [] (.str "type") (.string (node_type_to_string node.type)))
      (.str "text") (.string text))
  | .other _ => .nil
/-- The table `t` after the values of `children` are stored under the indices
`i + 1`, `i + 2`, ... -/
def children_table (G : GumboLibrary) (children : List GumboNode) (i : Nat) (t : Table) : Table :=
  match children with
  | [] => t
  | child :: rest => children_table G rest (i + 1) (Table.set t (.int (i + 1)) (child.value G))
end

/-- The entries of the values of `children` under the indices `i + 1`,
`i + 2`, ... -/
def child_entries (G : GumboLibrary) : List GumboNode → Nat → Table
  | [], _ => []
  | child :: rest, i => (.int (i + 1), child.value G) :: child_entries G rest (i + 1)

/-- The children of a document or an element; other nodes have none. -/
def GumboNode.children : GumboNode → List GumboNode
  | .document _ _ _ _ _ children => children
  | .element _ _ _ children => children
  | _ => []

/-! ## Sample inputs -/

/-- `LUAI_MAXCSTACK` of Lua 5.1: the limit of `lua_checkstack`. -/
def LUAI_MAXCSTACK : Nat := 8000

/-- The state in which Lua enters a C function called with one argument: the
argument is the only value of the frame and `LUA_MINSTACK` slots are free. -/
def entry_state (arg : TValue) : lua_State :=
  ⟨[arg], 1 + LUA_MINSTACK, LUAI_MAXCSTACK, 1, 0, []⟩

/-- A Gumbo library whose parser returns `output` for every input. -/
def sample_library (output : Option GumboOutput) : GumboLibrary where
  gumbo_parse_with_options := fun _ => output
  gumbo_normalized_tagname := fun tag =>
    match tag with
    | .known 0 => "html"
    | .known 1 => "p"
    | .known 2 => "div"
    | _ => ""
  gumbo_tag_from_original_text := fun piece => (piece.drop 1).dropRight 1

/-- The tree of `<html><p>hi</p></html>`. -/
def sample_p : GumboNode :=
  .document "" "" "" false .GUMBO_DOCTYPE_QUIRKS
    [.element (.known 0) "<html>" [] [.element (.known 1) "<p>" [] [.text "hi"]]]

/-- The tree of `<!DOCTYPE html><div class="a">x</div>`. -/
def sample_div : GumboNode :=
  .document "html" "" "" true .GUMBO_DOCTYPE_NO_QUIRKS
    [.element (.known 2) "<div class=\"a\">" [⟨"class", "a"⟩] [.text "x"]]

/-- The tree of `<!-- c --><html>a<p>b</p></html>`: a document with two
children, a comment and an element that itself has two children. -/
def sample_comment : GumboNode :=
  .document "" "" "" false .GUMBO_DOCTYPE_QUIRKS
    [.comment " c ",
     .element (.known 0) "<html>" [] [.text "a", .element (.known 1) "<p>" [] [.text "b"]]]

/-- A tree with a node of a kind that is none of the six. -/
def sample_other : GumboNode :=
  .document "html" "" "" true .GUMBO_DOCTYPE_NO_QUIRKS
    [.element (.known 0) "<html>" [] [.other 6]]

/-! ## Tables occurring in a value -/

/-- The six kind strings. -/
def kind_strings : List String :=
  ["document", "element", "text", "comment", "cdata", "whitespace"]

/-- Whether a table has a `type` field that holds one of the six kind
strings. -/
def Table.has_kind (t : Table) : Bool :=
  match Table.get t (.str "type") with
  | .string s => decide (s ∈ kind_strings)
  | _ => false

/-- The table `t` occurs in the value `v`: it is `v` itself, or it occurs in the
value of a field of `v` whose key is not skipped. -/
inductive Occurs (skip : Key → Bool) : Table → TValue → Prop where
  | here (t : Table) : Occurs skip t (.table t)
  | inside (k : Key) (v : TValue) (fields t : Table) :
      (k, v) ∈ fields → skip k = false → Occurs skip t v → Occurs skip t (.table fields)

/-- No key is skipped. -/
def skip_none (_k : Key) : Bool := false

/-- The key `attr` is skipped. -/
def skip_attr (k : Key) : Bool := decide (k = .str "attr")

/-- The table built for the element of `<div class="a">x</div>`. -/
def sample_div_element : Table :=
  [(.str "type", .string "element"), (.str "tag", .string "div"),
   (.str "attr", .table [(.str "class", .string "a")]),
   (.int 1, .table [(.str "type", .string "text"), (.str "text", .string "x")])]

/-- The table `parse` returns for the tree of
`<!DOCTYPE html><div class="a">x</div>` with root index 0. -/
def sample_div_table : Table :=
  [(.str "type", .string "document"), (.str "name", .string "html"),
   (.str "public_identifier", .string ""), (.str "system_identifier", .string ""),
   (.str "has_doctype", .boolean true), (.str "quirks_mode", .string "no-quirks"),
   (.int 1, .table sample_div_element), (.str "root", .table sample_div_element)]

/-- The node `inner` wrapped in `n` nested `div` elements. -/
def nest : Nat → GumboNode → GumboNode
  | 0, inner => inner
  | n + 1, inner => .element (.known 2) "<div>" [] [nest n inner]

/-- A document whose only child is `inner` wrapped in `n` nested `div`
elements. -/
def nested_document (n : Nat) (inner : GumboNode) : GumboNode :=
  .document "html" "" "" true .GUMBO_DOCTYPE_NO_QUIRKS [nest n inner]

/-- The state in which Lua 5.1 enters a C function called with the arguments
`args` (the last argument first): the arguments are the values of the frame
and `LUA_MINSTACK` slots are free. -/
def entry_state_args (args : List TValue) : lua_State :=
  ⟨args, args.length + LUA_MINSTACK, LUAI_MAXCSTACK, args.length, 0, []⟩

/-! ## The calls of `build_node` within a run -/

/-- The part of `build_node` that is run for a node itself: for a document or
an element, everything before the call of `add_children` (the check of the
stack, the creation of the table, the fields other than the children); for
any other node, the whole of `build_node`. -/
def node_head (G : GumboLibrary) (node : GumboNode) : LuaM Unit :=
  match node with
  | .document name public_identifier system_identifier has_doctype
      doc_type_quirks_mode children => do
    luaL_checkstack 10 "element nesting too deep"
    let quirks_mode := qmode_map doc_type_quirks_mode
    lua_createtable children.length 6
    add_field lua_pushstring "type" "document"
    add_field lua_pushstring "name" name
    add_field lua_pushstring "public_identifier" public_identifier
    add_field lua_pushstring "system_identifier" system_identifier
    add_field lua_pushboolean "has_doctype" has_doctype
    add_field lua_pushstring "quirks_mode" quirks_mode
  | .element tag original_tag attributes children => do
    luaL_checkstack 10 "element nesting too deep"
    build_element_head G tag original_tag attributes children
  | _ => build_node G node

/-- The descendant of `node` reached by the child indices `path`, and the
state in which `build_node` is entered for it when `build_node` is run on
`node` from the state `L`: at each level the state after the head of the
parent and the children before the one followed. -/
def entered (G : GumboLibrary) : List Nat → GumboNode → lua_State → Option (GumboNode × lua_State)
  | [], node, L => some (node, L)
  | i :: path, node, L =>
    match node.children[i]? with
    | none => none
    | some child =>
      match (do node_head G node; add_children G (node.children.take i) 0 : LuaM Unit) L with
      | .ok _ L1 => entered G path child L1
      | _ => none

/-- The descendant of `node` reached by the child indices `path`. -/
def descendant : List Nat → GumboNode → Option GumboNode
  | [], node => some node
  | i :: path, node =>
    match node.children[i]? with
    | none => none
    | some child => descendant path child

/-! ## Single steps of the C API -/

theorem bind_apply {α β : Type} (x : LuaM α) (f : α → LuaM β) (L : lua_State) :
    (x >>= f) L =
      match x L with
      | .ok a L1 => f a L1
      | .error msg L1 => .error msg L1
      | .undefined => .undefined := rfl

theorem pure_apply {α : Type} (a : α) (L : lua_State) : (pure a : LuaM α) L = .ok a L := rfl

theorem lua_push_apply (v : TValue) (s : List TValue) (c m p n : Nat) (g : List GumboOutput)
    (h : s.length < c) :
    lua_push v ⟨s, c, m, p, n, g⟩ = .ok () ⟨v :: s, c, m, max p (s.length + 1), n, g⟩ := by
  simp [lua_push, h]

theorem lua_createtable_apply (narr nrec : Nat) (s : List TValue) (c m p n : Nat)
    (g : List GumboOutput) (h : s.length < c) :
    lua_createtable narr nrec ⟨s, c, m, p, n, g⟩
      = .ok () ⟨.table [] :: s, c, m, max p (s.length + 1), n + 1, g⟩ := by
  simp [lua_createtable, lua_push, h]

theorem store_pop_apply (k : Key) (v : TValue) (t : Table) (s : List TValue) (c m p n : Nat)
    (g : List GumboOutput) :
    store_pop (-2) k ⟨v :: .table t :: s, c, m, p, n, g⟩
      = .ok () ⟨.table (Table.set t k v) :: s, c, m, p, n, g⟩ := by
  simp [store_pop, table_at, index2adr]

theorem add_field_apply {α : Type} (lua_pushT : α → LuaM Unit) (mk : α → TValue)
    (hpush : ∀ V, lua_pushT V = lua_push (mk V)) (K : String) (V : α) (t : Table)
    (s : List TValue) (c m p n : Nat) (g : List GumboOutput) (h : s.length + 1 < c) :
    add_field lua_pushT K V ⟨.table t :: s, c, m, p, n, g⟩
      = .ok () ⟨.table (Table.set t (.str K) (mk V)) :: s, c, m, max p (s.length + 2), n, g⟩ := by
  have h1 : (TValue.table t :: s).length < c := by simpa using h
  simp only [add_field, bind_apply, hpush, lua_push_apply _ _ _ _ _ _ _ h1, lua_setfield,
    store_pop_apply, List.length_cons]

theorem add_field_string (K V : String) (t : Table) (s : List TValue) (c m p n : Nat)
    (g : List GumboOutput) (h : s.length + 1 < c) :
    add_field lua_pushstring K V ⟨.table t :: s, c, m, p, n, g⟩
      = .ok () ⟨.table (Table.set t (.str K) (.string V)) :: s, c, m, max p (s.length + 2),
          n, g⟩ :=
  add_field_apply lua_pushstring TValue.string (fun _ => rfl) K V t s c m p n g h

theorem add_field_boolean (K : String) (V : Bool) (t : Table) (s : List TValue) (c m p n : Nat)
    (g : List GumboOutput) (h : s.length + 1 < c) :
    add_field lua_pushboolean K V ⟨.table t :: s, c, m, p, n, g⟩
      = .ok () ⟨.table (Table.set t (.str K) (.boolean V)) :: s, c, m, max p (s.length + 2),
          n, g⟩ :=
  add_field_apply lua_pushboolean TValue.boolean (fun _ => rfl) K V t s c m p n g h

theorem luaL_checkstack_ok (space : Nat) (mes : String) (s : List TValue) (c m p n : Nat)
    (g : List GumboOutput) (h : s.length + space ≤ m) :
    luaL_checkstack space mes ⟨s, c, m, p, n, g⟩
      = .ok () ⟨s, max c (s.length + space), m, p, n, g⟩ := by
  simp [luaL_checkstack, bind_apply, lua_checkstack, h, pure_apply]

theorem luaL_checkstack_error (space : Nat) (mes : String) (s : List TValue) (c m p n : Nat)
    (g : List GumboOutput) (h : ¬ s.length + space ≤ m) :
    luaL_checkstack space mes ⟨s, c, m, p, n, g⟩
      = .error ("stack overflow (" ++ mes ++ ")") ⟨s, c, m, p, n, g⟩ := by
  simp [luaL_checkstack, bind_apply, lua_checkstack, h, luaL_error]

theorem add_attributes_apply (attributes : List GumboAttribute) (t : Table) (s : List TValue)
    (c m p n : Nat) (g : List GumboOutput) (h : s.length + 1 < c) :
    add_attributes attributes ⟨.table t :: s, c, m, p, n, g⟩
      = .ok () ⟨.table (attr_table attributes t) :: s, c, m,
          (if attributes.length ≠ 0 then max p (s.length + 2) else p), n, g⟩ := by
  induction attributes generalizing t p with
  | nil => rfl
  | cons a rest ih =>
    simp only [add_attributes, bind_apply, add_field_string _ _ _ _ _ _ _ _ _ h, attr_table, ih]
    congr 2
    by_cases hr : rest.length = 0 <;> simp [hr]

theorem build_element_head_apply (G : GumboLibrary) (tag : GumboTag)
    (original_tag : GumboStringPiece) (attributes : List GumboAttribute)
    (children : List GumboNode) (s : List TValue) (c m p n : Nat) (g : List GumboOutput)
    (h : s.length + 3 ≤ c) :
    build_element_head G tag original_tag attributes children ⟨s, c, m, p, n, g⟩
      = .ok () ⟨.table (element_head G tag original_tag attributes) :: s, c, m,
          max p (s.length + (if attributes.length ≠ 0 then 3 else 2)),
          n + 1 + (if attributes.length ≠ 0 then 1 else 0), g⟩ := by
  have h0 : s.length < c := by omega
  have h1 : s.length + 1 < c := by omega
  have h2 : ∀ x : TValue, (x :: s).length < c := by
    intro x; simp; omega
  have h3 : ∀ x : TValue, (x :: s).length + 1 < c := by
    intro x; simp; omega
  unfold build_element_head
  by_cases ht : tag = .GUMBO_TAG_UNKNOWN <;> by_cases ha : attributes.length = 0 <;>
    simp only [bind_apply, lua_createtable_apply _ _ _ _ _ _ _ _ h0,
      lua_createtable_apply _ _ _ _ _ _ _ _ (h2 _), add_field_string _ _ _ _ _ _ _ _ _ h1,
      lua_pushlstring, lua_pushstring, lua_push_apply _ _ _ _ _ _ _ (h2 _), lua_setfield,
      store_pop_apply, ht, ha, if_true, if_false, ne_eq, not_true_eq_false, not_false_eq_true,
      pure_apply, add_attributes_apply _ _ _ _ _ _ _ _ (h3 _), element_head, tag_name,
      List.length_cons] <;>
    (congr 2; omega)

/-! ## The successful run -/

theorem build_node_unfold (G : GumboLibrary) (node : GumboNode) :
    build_node G node = (do
      luaL_checkstack 10 "element nesting too deep"
      match node with
      | .document name public_identifier system_identifier has_doctype
          doc_type_quirks_mode children =>
        let quirks_mode := qmode_map doc_type_quirks_mode
        lua_createtable children.length 6
        add_field lua_pushstring "type" "document"
        add_field lua_pushstring "name" name
        add_field lua_pushstring "public_identifier" public_identifier
        add_field lua_pushstring "system_identifier" system_identifier
        add_field lua_pushboolean "has_doctype" has_doctype
        add_field lua_pushstring "quirks_mode" quirks_mode
        add_children G children 0
      | .element tag original_tag attributes children =>
        build_element_head G tag original_tag attributes children
        add_children G children 0
      | .text text | .comment text | .cdata text | .whitespace text =>
        lua_createtable 0 2
        add_field lua_pushstring "type" (node_type_to_string node.type)
        add_field lua_pushstring "text" text
      | .other _ =>
        luaL_error "Invalid node type") := by
  cases node <;> rfl

theorem peak_step (p a : Nat) : max (max p (a + 1)) (a + 2) = max p (a + 2) := by omega

theorem peak_same (p a : Nat) : max (max p (a + 2)) (a + 2) = max p (a + 2) := by omega

theorem build_node_leaf_ok (G : GumboLibrary) (node : GumboNode) (text : String)
    (hnode : node = .text text ∨ node = .comment text ∨ node = .cdata text ∨
      node = .whitespace text)
    (s : List TValue) (c m p n : Nat) (g : List GumboOutput) (hfit : s.length + 10 ≤ m) :
    build_node G node ⟨s, c, m, p, n, g⟩
      = .ok () ⟨.table [(.str "type", .string (node_type_to_string node.type)),
          (.str "text", .string text)] :: s, max c (s.length + 10), m, max p (s.length + 2),
          n + 1, g⟩ := by
  have h0 : s.length < max c (s.length + 10) := by omega
  have h1 : s.length + 1 < max c (s.length + 10) := by omega
  rcases hnode with h | h | h | h <;> subst h <;>
    simp only [build_node_unfold, bind_apply, luaL_checkstack_ok _ _ _ _ _ _ _ _ hfit,
      lua_createtable_apply _ _ _ _ _ _ _ _ h0, add_field_string _ _ _ _ _ _ _ _ _ h1, peak_step, peak_same] <;>
    simp [Table.set, Table.insert, TValue.isNil, GumboNode.type, node_type_to_string]

mutual
theorem build_node_ok (G : GumboLibrary) (node : GumboNode) (s : List TValue) (c m p n : Nat)
    (g : List GumboOutput) (hv : node.valid = true) (hfit : s.length + node.depth + 10 ≤ m) :
    build_node G node ⟨s, c, m, p, n, g⟩
      = .ok () ⟨node.value G :: s, max c (s.length + node.depth + 10), m,
          max p (s.length + node.slots), n + node.tables, g⟩ := by
  match node with
  | .document name public_identifier system_identifier has_doctype
      doc_type_quirks_mode children =>
    simp only [GumboNode.valid, GumboNode.depth] at hv hfit
    have hfit0 : s.length + 10 ≤ m := by omega
    have h0 : s.length < max c (s.length + 10) := by omega
    have h1 : s.length + 1 < max c (s.length + 10) := by omega
    have hroom : s.length + 10 ≤ max c (s.length + 10) := by omega
    have hpeak : s.length + 1 ≤ max p (s.length + 2) := by omega
    simp only [build_node_unfold, bind_apply, luaL_checkstack_ok _ _ _ _ _ _ _ _ hfit0,
      lua_createtable_apply _ _ _ _ _ _ _ _ h0, add_field_string _ _ _ _ _ _ _ _ _ h1,
      add_field_boolean _ _ _ _ _ _ _ _ _ h1, peak_step, peak_same,
      add_children_ok G children 0 _ s _ m _ _ g hv hroom hpeak hfit]
    simp only [GumboNode.value, GumboNode.depth, GumboNode.tables, GumboNode.slots,
      document_head]
    congr 2
    · omega
    · omega
    · omega
  | .element tag original_tag attributes children =>
    simp only [GumboNode.valid, GumboNode.depth] at hv hfit
    have hfit0 : s.length + 10 ≤ m := by omega
    have h3 : s.length + 3 ≤ max c (s.length + 10) := by omega
    have hroom : s.length + 10 ≤ max c (s.length + 10) := by omega
    have hpeak : s.length + 1 ≤ max p (s.length + (if attributes.length ≠ 0 then 3 else 2)) := by
      split <;> omega
    simp only [build_node_unfold, bind_apply, luaL_checkstack_ok _ _ _ _ _ _ _ _ hfit0,
      build_element_head_apply _ _ _ _ _ _ _ _ _ _ _ h3,
      add_children_ok G children 0 _ s _ m _ _ g hv hroom hpeak hfit]
    simp only [GumboNode.value, GumboNode.depth, GumboNode.tables, GumboNode.slots]
    congr 2
    · omega
    · split <;> omega
    · omega
  | .text text =>
    rw [build_node_leaf_ok G _ text (Or.inl rfl) s c m p n g
      (by simpa [GumboNode.depth] using hfit)]
    rfl
  | .comment text =>
    rw [build_node_leaf_ok G _ text (Or.inr (Or.inl rfl)) s c m p n g
      (by simpa [GumboNode.depth] using hfit)]
    rfl
  | .cdata text =>
    rw [build_node_leaf_ok G _ text (Or.inr (Or.inr (Or.inl rfl))) s c m p n g
      (by simpa [GumboNode.depth] using hfit)]
    rfl
  | .whitespace text =>
    rw [build_node_leaf_ok G _ text (Or.inr (Or.inr (Or.inr rfl))) s c m p n g
      (by simpa [GumboNode.depth] using hfit)]
    rfl
  | .other _ => simp [GumboNode.valid] at hv
theorem add_children_ok (G : GumboLibrary) (children : List GumboNode) (i : Nat) (t : Table)
    (s : List TValue) (c m p n : Nat) (g : List GumboOutput)
    (hv : valid_children children = true) (hroom : s.length + 10 ≤ c)
    (hpeak : s.length + 1 ≤ p)
    (hfit : s.length + depth_children children + 10 ≤ m) :
    add_children G children i ⟨.table t :: s, c, m, p, n, g⟩
      = .ok () ⟨.table (children_table G children i t) :: s,
          max c (s.length + depth_children children + 10), m,
          max p (s.length + slots_children children), n + tables_children children, g⟩ := by
  match children with
  | [] =>
    have hmax : max c (s.length + 0 + 10) = c := by omega
    have hmaxp : max p (s.length) = p := by omega
    simp only [add_children, pure_apply, children_table, depth_children, tables_children,
      slots_children, hmax, hmaxp, Nat.add_zero]
  | child :: rest =>
    simp only [valid_children, Bool.and_eq_true, depth_children] at hv hfit
    have hfit1 : (TValue.table t :: s).length + child.depth + 10 ≤ m := by
      simp only [List.length_cons]; omega
    have hroom2 : s.length + 10 ≤ max c ((TValue.table t :: s).length + child.depth + 10) := by
      omega
    have hpeak2 : s.length + 1 ≤ max p ((TValue.table t :: s).length + child.slots) := by
      omega
    have hfit2 : s.length + depth_children rest + 10 ≤ m := by omega
    simp only [add_children, bind_apply,
      build_node_ok G child (.table t :: s) c m p n g hv.1 hfit1, lua_rawseti, store_pop_apply,
      add_children_ok G rest (i + 1) _ s _ m _ _ g hv.2 hroom2 hpeak2 hfit2]
    simp only [children_table, depth_children, tables_children, slots_children,
      List.length_cons]
    congr 2
    · omega
    · omega
    · omega
end

/-! ## The failing run -/

theorem overflow_message :
    "stack overflow (" ++ "element nesting too deep" ++ ")"
      = "stack overflow (element nesting too deep)" := by decide

mutual
theorem build_node_fail (G : GumboLibrary) (node : GumboNode) (s : List TValue) (c m p n : Nat)
    (g : List GumboOutput)
    (h : node.valid = false ∨ ¬ s.length + node.depth + 10 ≤ m) :
    ∃ msg L', build_node G node ⟨s, c, m, p, n, g⟩ = .error msg L' ∧ L'.gumbo_destroyed = g ∧
      ((msg = "Invalid node type" ∧ node.valid = false) ∨
        (msg = "stack overflow (element nesting too deep)" ∧ ¬ s.length + node.depth + 10 ≤ m)) := by
  by_cases hfit0 : s.length + 10 ≤ m
  · have h0 : s.length < max c (s.length + 10) := by omega
    have h1 : s.length + 1 < max c (s.length + 10) := by omega
    have h3 : s.length + 3 ≤ max c (s.length + 10) := by omega
    have hroom : s.length + 10 ≤ max c (s.length + 10) := by omega
    match node with
    | .document name public_identifier system_identifier has_doctype
        doc_type_quirks_mode children =>
      simp only [GumboNode.valid, GumboNode.depth] at h ⊢
      obtain ⟨msg, L', hrun, hg, hmsg⟩ :=
        add_children_fail G children 0
          (document_head name public_identifier system_identifier has_doctype
            doc_type_quirks_mode) s (max c (s.length + 10)) m (max p (s.length + 2)) (n + 1) g
          hroom hfit0 h
      refine ⟨msg, L', ?_, hg, hmsg⟩
      simp only [build_node_unfold, bind_apply, luaL_checkstack_ok _ _ _ _ _ _ _ _ hfit0,
        lua_createtable_apply _ _ _ _ _ _ _ _ h0, add_field_string _ _ _ _ _ _ _ _ _ h1,
        add_field_boolean _ _ _ _ _ _ _ _ _ h1, peak_step, peak_same]
      exact hrun
    | .element tag original_tag attributes children =>
      simp only [GumboNode.valid, GumboNode.depth] at h ⊢
      obtain ⟨msg, L', hrun, hg, hmsg⟩ :=
        add_children_fail G children 0 (element_head G tag original_tag attributes) s
          (max c (s.length + 10)) m
          (max p (s.length + (if attributes.length ≠ 0 then 3 else 2)))
          (n + 1 + (if attributes.length ≠ 0 then 1 else 0)) g hroom hfit0 h
      refine ⟨msg, L', ?_, hg, hmsg⟩
      simp only [build_node_unfold, bind_apply, luaL_checkstack_ok _ _ _ _ _ _ _ _ hfit0,
        build_element_head_apply _ _ _ _ _ _ _ _ _ _ _ h3]
      exact hrun
    | .text _ | .comment _ | .cdata _ | .whitespace _ =>
      simp [GumboNode.valid, GumboNode.depth, hfit0] at h
    | .other _ =>
      refine ⟨"Invalid node type", ⟨s, max c (s.length + 10), m, p, n, g⟩, ?_, rfl,
        Or.inl ⟨rfl, rfl⟩⟩
      simp only [build_node_unfold, bind_apply, luaL_checkstack_ok _ _ _ _ _ _ _ _ hfit0,
        luaL_error]
  · refine ⟨"stack overflow (element nesting too deep)", ⟨s, c, m, p, n, g⟩, ?_, rfl,
      Or.inr ⟨rfl, by omega⟩⟩
    simp only [build_node_unfold, bind_apply, luaL_checkstack_error _ _ _ _ _ _ _ _ hfit0,
      overflow_message]
theorem add_children_fail (G : GumboLibrary) (children : List GumboNode) (i : Nat) (t : Table)
    (s : List TValue) (c m p n : Nat) (g : List GumboOutput)
    (hroom : s.length + 10 ≤ c) (hm : s.length + 10 ≤ m)
    (h : valid_children children = false ∨ ¬ s.length + depth_children children + 10 ≤ m) :
    ∃ msg L', add_children G children i ⟨.table t :: s, c, m, p, n, g⟩ = .error msg L' ∧
      L'.gumbo_destroyed = g ∧
      ((msg = "Invalid node type" ∧ valid_children children = false) ∨
        (msg = "stack overflow (element nesting too deep)" ∧
          ¬ s.length + depth_children children + 10 ≤ m)) := by
  match children with
  | [] =>
    simp [valid_children, depth_children, hm] at h
  | child :: rest =>
    by_cases hc : child.valid = true ∧ (TValue.table t :: s).length + child.depth + 10 ≤ m
    · have hrest : valid_children rest = false ∨ ¬ s.length + depth_children rest + 10 ≤ m := by
        rcases h with h | h
        · left
          simpa [valid_children, hc.1] using h
        · right
          have := hc.2
          simp only [List.length_cons, depth_children] at this h
          omega
      have hroom2 : s.length + 10 ≤ max c ((TValue.table t :: s).length + child.depth + 10) := by
        omega
      obtain ⟨msg, L', hrun, hg, hmsg⟩ :=
        add_children_fail G rest (i + 1) (Table.set t (.int (i + 1)) (child.value G)) s
          (max c ((TValue.table t :: s).length + child.depth + 10)) m
          (max p ((TValue.table t :: s).length + child.slots)) (n + child.tables) g hroom2 hm hrest
      refine ⟨msg, L', ?_, hg, ?_⟩
      · simp only [add_children, bind_apply,
          build_node_ok G child (.table t :: s) c m p n g hc.1 hc.2, lua_rawseti, store_pop_apply]
        exact hrun
      · rcases hmsg with ⟨h1, h2⟩ | ⟨h1, h2⟩
        · exact Or.inl ⟨h1, by simp [valid_children, h2]⟩
        · refine Or.inr ⟨h1, ?_⟩
          simp only [depth_children]
          omega
    · have hchild : child.valid = false ∨ ¬ (TValue.table t :: s).length + child.depth + 10 ≤ m := by
        by_cases hv : child.valid = true
        · exact Or.inr (fun hf => hc ⟨hv, hf⟩)
        · exact Or.inl (by simpa using hv)
      obtain ⟨msg, L', hrun, hg, hmsg⟩ :=
        build_node_fail G child (.table t :: s) c m p n g hchild
      refine ⟨msg, L', ?_, hg, ?_⟩
      · simp only [add_children, bind_apply, hrun]
      · rcases hmsg with ⟨h1, h2⟩ | ⟨h1, h2⟩
        · exact Or.inl ⟨h1, by simp [valid_children, h2]⟩
        · refine Or.inr ⟨h1, ?_⟩
          simp only [List.length_cons, depth_children] at h2 ⊢
          omega
end

/-! ## Tables -/

theorem Table.get_of_not_mem (t : Table) (k : Key) (h : k ∉ Table.keys t) :
    Table.get t k = .nil := by
  induction t with
  | nil => rfl
  | cons e t ih =>
    obtain ⟨k', v⟩ := e
    simp only [Table.keys, List.map_cons, List.mem_cons, not_or] at h
    have h1 : ¬ k' = k := fun hk => h.1 hk.symm
    simp only [Table.get, h1, if_false]
    exact ih h.2

theorem Table.get_insert_self (t : Table) (k : Key) (v : TValue) :
    Table.get (Table.insert t k v) k = v := by
  induction t with
  | nil => simp [Table.insert, Table.get]
  | cons e t ih =>
    obtain ⟨k', v'⟩ := e
    by_cases hk : k' = k <;> simp [Table.insert, Table.get, hk, ih]

theorem Table.get_insert_ne (t : Table) (k k' : Key) (v : TValue) (h : k ≠ k') :
    Table.get (Table.insert t k v) k' = Table.get t k' := by
  induction t with
  | nil => simp [Table.insert, Table.get, h]
  | cons e t ih =>
    obtain ⟨k1, v1⟩ := e
    by_cases hk : k1 = k
    · subst hk
      simp [Table.insert, Table.get, h]
    · by_cases hk' : k1 = k'
      · subst hk'
        simp [Table.insert, Table.get, hk]
      · simp [Table.insert, Table.get, hk, hk', ih]

theorem Table.get_erase_ne (t : Table) (k k' : Key) (h : k ≠ k') :
    Table.get (Table.erase t k) k' = Table.get t k' := by
  induction t with
  | nil => rfl
  | cons e t ih =>
    obtain ⟨k1, v1⟩ := e
    by_cases hk : k1 = k
    · subst hk
      simp [Table.erase, Table.get, h]
    · by_cases hk' : k1 = k'
      · subst hk'
        simp [Table.erase, Table.get, hk]
      · simp [Table.erase, Table.get, hk, hk', ih]

theorem Table.erase_of_not_mem (t : Table) (k : Key) (h : k ∉ Table.keys t) :
    Table.erase t k = t := by
  induction t with
  | nil => rfl
  | cons e t ih =>
    obtain ⟨k', v⟩ := e
    simp only [Table.keys, List.map_cons, List.mem_cons, not_or] at h
    have h1 : ¬ k' = k := fun hk => h.1 hk.symm
    simp only [Table.erase, h1, if_false]
    rw [ih h.2]

theorem Table.insert_of_not_mem (t : Table) (k : Key) (v : TValue) (h : k ∉ Table.keys t) :
    Table.insert t k v = t ++ [(k, v)] := by
  induction t with
  | nil => rfl
  | cons e t ih =>
    obtain ⟨k', v'⟩ := e
    simp only [Table.keys, List.map_cons, List.mem_cons, not_or] at h
    have h1 : ¬ k' = k := fun hk => h.1 hk.symm
    simp only [Table.insert, h1, if_false, List.cons_append]
    rw [ih h.2]

theorem Table.set_of_not_mem (t : Table) (k : Key) (v : TValue) (h : k ∉ Table.keys t)
    (hv : v.isNil = false) : Table.set t k v = t ++ [(k, v)] := by
  simp [Table.set, hv, Table.insert_of_not_mem t k v h]

theorem Table.get_set_ne (t : Table) (k k' : Key) (v : TValue) (h : k ≠ k') :
    Table.get (Table.set t k v) k' = Table.get t k' := by
  unfold Table.set
  split
  · exact Table.get_erase_ne t k k' h
  · exact Table.get_insert_ne t k k' v h

theorem Table.get_set_self (t : Table) (k : Key) (v : TValue) (h : k ∉ Table.keys t) :
    Table.get (Table.set t k v) k = v := by
  unfold Table.set
  split
  · rename_i hv
    rw [Table.erase_of_not_mem t k h, Table.get_of_not_mem t k h]
    cases v <;> simp [TValue.isNil] at hv ⊢
  · exact Table.get_insert_self t k v

theorem Table.mem_keys_insert (t : Table) (k k' : Key) (v : TValue) :
    k' ∈ Table.keys (Table.insert t k v) ↔ k' = k ∨ k' ∈ Table.keys t := by
  induction t with
  | nil => simp [Table.insert, Table.keys]
  | cons e t ih =>
    obtain ⟨k1, v1⟩ := e
    by_cases hk : k1 = k
    · subst hk
      simp [Table.insert, Table.keys]
    · simp only [Table.insert, hk, if_false, Table.keys, List.map_cons, List.mem_cons]
      simp only [Table.keys] at ih
      rw [ih]
      tauto

theorem Table.get_append_left (t u : Table) (k : Key) (h : k ∈ Table.keys t) :
    Table.get (t ++ u) k = Table.get t k := by
  induction t with
  | nil => simp [Table.keys] at h
  | cons e t ih =>
    obtain ⟨k1, v1⟩ := e
    by_cases hk : k1 = k
    · simp [Table.get, hk]
    · simp only [Table.keys, List.map_cons, List.mem_cons] at h
      have h2 : k ∈ Table.keys t := by
        rcases h with h | h
        · exact absurd h.symm hk
        · exact h
      simp [Table.get, hk, ih h2]

theorem Table.get_append_right (t u : Table) (k : Key) (h : k ∉ Table.keys t) :
    Table.get (t ++ u) k = Table.get u k := by
  induction t with
  | nil => rfl
  | cons e t ih =>
    obtain ⟨k1, v1⟩ := e
    simp only [Table.keys, List.map_cons, List.mem_cons, not_or] at h
    have h1 : ¬ k1 = k := fun hk => h.1 hk.symm
    simp only [List.cons_append, Table.get, h1, if_false]
    exact ih h.2

theorem Table.keys_append (t u : Table) : Table.keys (t ++ u) = Table.keys t ++ Table.keys u := by
  simp [Table.keys]

theorem Table.sequence_append (t u : Table) :
    Table.sequence (t ++ u) = Table.sequence t ++ Table.sequence u := by
  simp [Table.sequence]

/-! ## Closed forms of the values -/

theorem value_isNil (G : GumboLibrary) (node : GumboNode) (hv : node.valid = true) :
    (node.value G).isNil = false := by
  cases node <;> simp [GumboNode.valid] at hv <;> simp [GumboNode.value, TValue.isNil]

theorem value_eq_table (G : GumboLibrary) (node : GumboNode) (hv : node.valid = true) :
    ∃ t, node.value G = .table t := by
  cases node <;> simp [GumboNode.valid] at hv <;> simp [GumboNode.value]

theorem keys_child_entries (G : GumboLibrary) (children : List GumboNode) (i : Nat) :
    Table.keys (child_entries G children i)
      = (List.range children.length).map (fun j => Key.int (i + j + 1)) := by
  induction children generalizing i with
  | nil => rfl
  | cons child rest ih =>
    simp only [child_entries, Table.keys, List.map_cons, List.length_cons, List.range_succ_eq_map,
      List.map_map]
    simp only [Table.keys] at ih
    rw [ih]
    simp only [Nat.add_zero, List.cons.injEq, true_and]
    apply List.map_congr_left
    intro j _
    simp only [Function.comp_apply, Key.int.injEq]
    omega

theorem children_table_eq (G : GumboLibrary) (children : List GumboNode) (i : Nat) (t : Table)
    (hv : valid_children children = true) (ht : ∀ j, i < j → Key.int j ∉ Table.keys t) :
    children_table G children i t = t ++ child_entries G children i := by
  induction children generalizing i t with
  | nil => simp [children_table, child_entries]
  | cons child rest ih =>
    simp only [valid_children, Bool.and_eq_true] at hv
    simp only [children_table, child_entries]
    rw [Table.set_of_not_mem t _ _ (ht (i + 1) (by omega)) (value_isNil G child hv.1)]
    rw [ih (i + 1) _ hv.2]
    · simp
    · intro j hj
      rw [Table.keys_append]
      simp only [Table.keys, List.map_cons, List.map_nil, List.mem_append, List.mem_singleton,
        Key.int.injEq, not_or]
      exact ⟨ht j (by omega), by omega⟩

theorem document_head_eq (name public_identifier system_identifier : String)
    (has_doctype : Bool) (doc_type_quirks_mode : GumboQuirksModeEnum) :
    document_head name public_identifier system_identifier has_doctype doc_type_quirks_mode
      = [(.str "type", .string "document"), (.str "name", .string name),
         (.str "public_identifier", .string public_identifier),
         (.str "system_identifier", .string system_identifier),
         (.str "has_doctype", .boolean has_doctype),
         (.str "quirks_mode", .string (qmode_map doc_type_quirks_mode))] := by
  simp [document_head, Table.set, Table.insert, TValue.isNil]

theorem element_head_eq (G : GumboLibrary) (tag : GumboTag) (original_tag : GumboStringPiece)
    (attributes : List GumboAttribute) :
    element_head G tag original_tag attributes
      = [(.str "type", .string "element"), (.str "tag", .string (tag_name G tag original_tag))]
        ++ (if attributes.length ≠ 0 then [(.str "attr", .table (attr_table attributes []))]
            else []) := by
  by_cases h : attributes.length = 0 <;>
    simp [element_head, Table.set, Table.insert, TValue.isNil, h]

theorem value_document (G : GumboLibrary) (name public_identifier system_identifier : String)
    (has_doctype : Bool) (doc_type_quirks_mode : GumboQuirksModeEnum)
    (children : List GumboNode) (hv : valid_children children = true) :
    (GumboNode.document name public_identifier system_identifier has_doctype
        doc_type_quirks_mode children).value G
      = .table ([(.str "type", .string "document"), (.str "name", .string name),
         (.str "public_identifier", .string public_identifier),
         (.str "system_identifier", .string system_identifier),
         (.str "has_doctype", .boolean has_doctype),
         (.str "quirks_mode", .string (qmode_map doc_type_quirks_mode))]
        ++ child_entries G children 0) := by
  simp only [GumboNode.value]
  rw [children_table_eq G children 0 _ hv, document_head_eq]
  intro j _
  simp [document_head_eq, Table.keys]

theorem value_element (G : GumboLibrary) (tag : GumboTag) (original_tag : GumboStringPiece)
    (attributes : List GumboAttribute) (children : List GumboNode)
    (hv : valid_children children = true) :
    (GumboNode.element tag original_tag attributes children).value G
      = .table ([(.str "type", .string "element"),
          (.str "tag", .string (tag_name G tag original_tag))]
        ++ (if attributes.length ≠ 0 then [(.str "attr", .table (attr_table attributes []))]
            else [])
        ++ child_entries G children 0) := by
  simp only [GumboNode.value]
  rw [children_table_eq G children 0 _ hv, element_head_eq]
  intro j _
  rw [element_head_eq]
  split <;> simp [Table.keys]

/-! ## Consequences for `build_node` and `parse` -/

theorem build_node_inv (G : GumboLibrary) (node : GumboNode) (L L' : lua_State)
    (h : build_node G node L = .ok () L') :
    node.valid = true ∧ L.stack.length + node.depth + 10 ≤ L.maxstack ∧
      L' = ⟨node.value G :: L.stack, max L.ci_top (L.stack.length + node.depth + 10), L.maxstack,
        max L.peak (L.stack.length + node.slots), L.ntables + node.tables, L.gumbo_destroyed⟩ := by
  obtain ⟨s, c, m, p, n, g⟩ := L
  by_cases hok : node.valid = true ∧ s.length + node.depth + 10 ≤ m
  · rw [build_node_ok G node s c m p n g hok.1 hok.2] at h
    injection h with _ h2
    exact ⟨hok.1, hok.2, h2.symm⟩
  · have hbad : node.valid = false ∨ ¬ s.length + node.depth + 10 ≤ m := by
      by_cases hv : node.valid = true
      · exact Or.inr (fun hf => hok ⟨hv, hf⟩)
      · exact Or.inl (by simpa using hv)
    obtain ⟨msg, L1, hrun, _, _⟩ := build_node_fail G node s c m p n g hbad
    rw [hrun] at h
    exact Result.noConfusion h

theorem build_node_stack (G : GumboLibrary) (node : GumboNode) (L L' : lua_State)
    (h : build_node G node L = .ok () L') : L'.stack = node.value G :: L.stack := by
  rw [(build_node_inv G node L L' h).2.2]

theorem two_le_slots (node : GumboNode) (hv : node.valid = true) : 2 ≤ node.slots := by
  cases node <;> simp [GumboNode.valid] at hv <;> simp [GumboNode.slots]
  split <;> omega

/-- The index `lua_rawgeti` receives in `parse` is `k + 1` as long as that is
an `int`. -/
theorem int_of_size_t_succ (k : Nat) (h : k + 1 < 2 ^ 31) :
    int_of_size_t (size_t_add k 1) = ((k + 1 : Nat) : Int) := by
  have h1 : (k + 1) % 2 ^ 64 = k + 1 := Nat.mod_eq_of_lt (by omega)
  have h2 : (k + 1) % 2 ^ 32 = k + 1 := Nat.mod_eq_of_lt (by omega)
  simp only [int_of_size_t, size_t_add, h1, h2, h, if_true]

theorem Table.geti_ofNat (t : Table) (j : Nat) :
    Table.geti t ((j : Nat) : Int) = Table.get t (.int j) := by
  have h : ¬ ((j : Nat) : Int) < 0 := by omega
  simp only [Table.geti, h, if_false, Int.toNat_ofNat]

theorem Table.geti_neg (t : Table) (n : Int) (h : n < 0) : Table.geti t n = .nil := by
  simp only [Table.geti, h, if_true]

theorem Table.geti_cases (t : Table) (n : Int) :
    Table.geti t n = .nil ∨ ∃ j : Nat, n = ((j : Nat) : Int) ∧ Table.geti t n = Table.get t (.int j) := by
  by_cases h : n < 0
  · exact Or.inl (Table.geti_neg t n h)
  · right
    refine ⟨n.toNat, by omega, ?_⟩
    simp only [Table.geti, h, if_false]

theorem Table.geti_root (t : Table) (k : Nat) (h : k + 1 < 2 ^ 31) :
    Table.geti t (int_of_size_t (size_t_add k 1)) = Table.get t (.int (k + 1)) := by
  rw [int_of_size_t_succ k h, Table.geti_ofNat]

theorem lua_rawgeti_apply (i : Int) (t : Table) (s : List TValue) (c m p n : Nat)
    (g : List GumboOutput) (h : s.length + 1 < c) :
    lua_rawgeti (-1) i ⟨.table t :: s, c, m, p, n, g⟩
      = .ok () ⟨Table.geti t i :: .table t :: s, c, m, max p (s.length + 2), n, g⟩ := by
  have h1 : (TValue.table t :: s).length < c := by simpa using h
  simp [lua_rawgeti, table_at, index2adr, lua_push_apply _ _ _ _ _ _ _ h1]

theorem parse_ok (G : GumboLibrary) (input : String) (output : GumboOutput) (t : Table)
    (s : List TValue) (c m p n : Nat) (g : List GumboOutput)
    (hparse : G.gumbo_parse_with_options input = some output)
    (hv : output.document.valid = true) (hfit : s.length + output.document.depth + 10 ≤ m)
    (ht : output.document.value G = .table t) :
    parse G input ⟨s, c, m, p, n, g⟩
      = .ok 1 ⟨.table (Table.set t (.str "root")
          (Table.geti t (int_of_size_t (size_t_add output.root.index_within_parent 1)))) :: s,
          max c (s.length + output.document.depth + 10), m,
          max p (s.length + output.document.slots), n + output.document.tables, output :: g⟩ := by
  have h1 : s.length + 1 < max c (s.length + output.document.depth + 10) := by omega
  have h2 := two_le_slots output.document hv
  have hp : max (max p (s.length + output.document.slots)) (s.length + 2)
      = max p (s.length + output.document.slots) := by omega
  simp only [parse, hparse, bind_apply, build_node_ok G _ s c m p n g hv hfit, ht,
    lua_rawgeti_apply _ _ _ _ _ _ _ _ h1, lua_setfield, store_pop_apply, gumbo_destroy_output,
    pure_apply, hp]

theorem parse_fail (G : GumboLibrary) (input : String) (output : GumboOutput)
    (s : List TValue) (c m p n : Nat) (g : List GumboOutput)
    (hparse : G.gumbo_parse_with_options input = some output)
    (h : output.document.valid = false ∨ ¬ s.length + output.document.depth + 10 ≤ m) :
    ∃ msg L', parse G input ⟨s, c, m, p, n, g⟩ = .error msg L' ∧ L'.gumbo_destroyed = g ∧
      ((msg = "Invalid node type" ∧ output.document.valid = false) ∨
        (msg = "stack overflow (element nesting too deep)" ∧
          ¬ s.length + output.document.depth + 10 ≤ m)) := by
  obtain ⟨msg, L', hrun, hg, hmsg⟩ := build_node_fail G output.document s c m p n g h
  refine ⟨msg, L', ?_, hg, hmsg⟩
  simp only [parse, hparse, bind_apply, hrun]

theorem parse_none (G : GumboLibrary) (input : String) (s : List TValue) (c m p n : Nat)
    (g : List GumboOutput) (hparse : G.gumbo_parse_with_options input = none)
    (hroom : s.length + 2 ≤ c) :
    parse G input ⟨s, c, m, p, n, g⟩
      = .ok 2 ⟨.string "Failed to parse" :: .nil :: s, c, m, max p (s.length + 2), n, g⟩ := by
  have h0 : s.length < c := by omega
  have h1 : (TValue.nil :: s).length < c := by simp; omega
  simp only [parse, hparse, bind_apply, lua_pushnil, lua_pushliteral,
    lua_push_apply _ _ _ _ _ _ _ h0, lua_push_apply _ _ _ _ _ _ _ h1, pure_apply,
    List.length_cons, peak_step]

/-! ## Child entries and the array part -/

theorem sequence_child_entries (G : GumboLibrary) (children : List GumboNode) (i : Nat) :
    Table.sequence (child_entries G children i) = child_entries G children i := by
  induction children generalizing i with
  | nil => rfl
  | cons child rest ih =>
    simp only [child_entries, Table.sequence, List.filter_cons, if_true]
    simp only [Table.sequence] at ih
    rw [ih]

theorem get?_child_entries (G : GumboLibrary) (children : List GumboNode) (i j : Nat)
    (child : GumboNode) (h : children.get? j = some child) :
    (child_entries G children i).get? j = some (.int (i + j + 1), child.value G) := by
  induction children generalizing i j with
  | nil => simp at h
  | cons c rest ih =>
    cases j with
    | zero =>
      simp only [List.get?_cons_zero, Option.some.injEq] at h
      subst h
      simp [child_entries]
    | succ j =>
      simp only [List.get?_cons_succ] at h
      simp only [child_entries, List.get?_cons_succ]
      rw [ih (i + 1) j h]
      congr 3
      omega

theorem not_mem_keys_child_entries (G : GumboLibrary) (children : List GumboNode) (i k : Nat)
    (h : k ≤ i) : Key.int k ∉ Table.keys (child_entries G children i) := by
  rw [keys_child_entries]
  simp only [List.mem_map, List.mem_range, Key.int.injEq, not_exists, not_and]
  intro j _
  omega

theorem str_not_mem_keys_child_entries (G : GumboLibrary) (children : List GumboNode) (i : Nat)
    (k : String) : Key.str k ∉ Table.keys (child_entries G children i) := by
  rw [keys_child_entries]
  simp

theorem get_child_entries (G : GumboLibrary) (children : List GumboNode) (i j : Nat)
    (child : GumboNode) (h : children.get? j = some child) :
    Table.get (child_entries G children i) (.int (i + j + 1)) = child.value G := by
  induction children generalizing i j with
  | nil => simp at h
  | cons c rest ih =>
    cases j with
    | zero =>
      simp only [List.get?_cons_zero, Option.some.injEq] at h
      subst h
      simp [child_entries, Table.get]
    | succ j =>
      simp only [List.get?_cons_succ] at h
      have hne : ¬ i + 1 = i + (j + 1) + 1 := by omega
      simp only [child_entries, Table.get, Key.int.injEq, hne, if_false]
      have := ih (i + 1) j h
      rw [← this]
      congr 2
      omega

theorem get_child_entries_none (G : GumboLibrary) (children : List GumboNode) (i j : Nat)
    (h : children.length ≤ j) :
    Table.get (child_entries G children i) (.int (i + j + 1)) = .nil := by
  apply Table.get_of_not_mem
  rw [keys_child_entries]
  simp only [List.mem_map, List.mem_range, Key.int.injEq, not_exists, not_and]
  intro k hk
  omega

theorem valid_children_of_valid (node : GumboNode) (hv : node.valid = true) :
    valid_children node.children = true := by
  cases node <;> simp [GumboNode.valid] at hv <;> simp [GumboNode.children, valid_children, hv]

theorem valid_of_mem (children : List GumboNode) (hv : valid_children children = true)
    (child : GumboNode) (h : child ∈ children) : child.valid = true := by
  induction children with
  | nil => simp at h
  | cons c rest ih =>
    simp only [valid_children, Bool.and_eq_true] at hv
    rcases List.mem_cons.mp h with h | h
    · rw [h]; exact hv.1
    · exact ih hv.2 h

/-- A parent's value: string-keyed entries followed by the child entries. -/
theorem value_parent (G : GumboLibrary) (node : GumboNode)
    (hkind : node.type = .GUMBO_NODE_DOCUMENT ∨ node.type = .GUMBO_NODE_ELEMENT)
    (hv : node.valid = true) :
    ∃ head : Table, node.value G = .table (head ++ child_entries G node.children 0) ∧
      (∀ k ∈ Table.keys head, ∃ s, k = Key.str s) ∧ Table.sequence head = [] ∧
      Key.str "root" ∉ Table.keys head := by
  cases node with
  | document name pid sid hd q children =>
    simp only [GumboNode.valid] at hv
    refine ⟨_, value_document G name pid sid hd q children hv, ?_, ?_, ?_⟩
    · simp [Table.keys]
    · simp [Table.sequence]
    · simp [Table.keys]
  | element tag ot attrs children =>
    simp only [GumboNode.valid] at hv
    refine ⟨_, value_element G tag ot attrs children hv, ?_, ?_, ?_⟩
    · split <;> simp [Table.keys]
    · split <;> simp [Table.sequence]
    · split <;> simp [Table.keys]
  | text _ => simp [GumboNode.type] at hkind
  | cdata _ => simp [GumboNode.type] at hkind
  | comment _ => simp [GumboNode.type] at hkind
  | whitespace _ => simp [GumboNode.type] at hkind
  | other _ => simp [GumboNode.type] at hkind

/-- The table `parse` returns: the document's table with the `root` field. -/
theorem root_table (head entries : Table) (k : Nat) (hroot : Key.str "root" ∉ Table.keys head)
    (hentries : Key.str "root" ∉ Table.keys entries) :
    Table.get (Table.set (head ++ entries) (.str "root") (Table.get (head ++ entries) (.int k)))
        (.str "root") = Table.get (head ++ entries) (.int k) ∧
      Table.get (Table.set (head ++ entries) (.str "root")
        (Table.get (head ++ entries) (.int k))) (.int k) = Table.get (head ++ entries) (.int k) ∧
      Table.sequence (Table.set (head ++ entries) (.str "root")
        (Table.get (head ++ entries) (.int k))) = Table.sequence (head ++ entries) := by
  have hnot : Key.str "root" ∉ Table.keys (head ++ entries) := by
    rw [Table.keys_append]
    simp only [List.mem_append, not_or]
    exact ⟨hroot, hentries⟩
  refine ⟨Table.get_set_self _ _ _ hnot, Table.get_set_ne _ _ _ _ (by simp), ?_⟩
  unfold Table.set
  split
  · rw [Table.erase_of_not_mem _ _ hnot]
  · rw [Table.insert_of_not_mem _ _ _ hnot, Table.sequence_append]
    simp [Table.sequence]

/-! ## `build_element` -/

/-- In `build_node` an element is handed to `build_element` after the check
of the stack. -/
theorem build_node_element (G : GumboLibrary) (tag : GumboTag) (original_tag : GumboStringPiece)
    (attributes : List GumboAttribute) (children : List GumboNode) :
    build_node G (.element tag original_tag attributes children) = (do
      luaL_checkstack 10 "element nesting too deep"
      build_element G tag original_tag attributes children) := rfl

theorem build_element_ok (G : GumboLibrary) (tag : GumboTag) (original_tag : GumboStringPiece)
    (attributes : List GumboAttribute) (children : List GumboNode) (s : List TValue)
    (c m p n : Nat) (g : List GumboOutput) (hv : valid_children children = true)
    (hroom : s.length + 10 ≤ c) (hfit : s.length + depth_children children + 10 ≤ m) :
    build_element G tag original_tag attributes children ⟨s, c, m, p, n, g⟩
      = .ok () ⟨.table ([(.str "type", .string "element"),
            (.str "tag", .string (tag_name G tag original_tag))]
          ++ (if attributes.length ≠ 0 then [(.str "attr", .table (attr_table attributes []))]
              else [])
          ++ child_entries G children 0) :: s,
          max c (s.length + depth_children children + 10), m,
          max (max p (s.length + (if attributes.length ≠ 0 then 3 else 2)))
            (s.length + slots_children children),
          n + 1 + (if attributes.length ≠ 0 then 1 else 0) + tables_children children, g⟩ := by
  have h3 : s.length + 3 ≤ c := by omega
  have hpeak : s.length + 1 ≤ max p (s.length + (if attributes.length ≠ 0 then 3 else 2)) := by
    split <;> omega
  have hval := value_element G tag original_tag attributes children hv
  simp only [GumboNode.value, TValue.table.injEq] at hval
  simp only [build_element, bind_apply, build_element_head_apply _ _ _ _ _ _ _ _ _ _ _ h3,
    add_children_ok G children 0 _ s _ m _ _ g hv hroom hpeak hfit, hval]

/-! ## Sample runs -/

theorem parse_sample_div :
    parse (sample_library (some ⟨sample_div, ⟨0⟩⟩)) "<!DOCTYPE html><div class=\"a\">x</div>"
        (entry_state (.string "<!DOCTYPE html><div class=\"a\">x</div>"))
      = .ok 1 ⟨[.table sample_div_table, .string "<!DOCTYPE html><div class=\"a\">x</div>"],
          21, 8000, 5, 4, [⟨sample_div, ⟨0⟩⟩]⟩ := by
  have h := parse_ok (sample_library (some ⟨sample_div, ⟨0⟩⟩))
    "<!DOCTYPE html><div class=\"a\">x</div>" ⟨sample_div, ⟨0⟩⟩
    (sample_div_table.take 7)
    [.string "<!DOCTYPE html><div class=\"a\">x</div>"] 21 8000 1 0 [] rfl (by decide) (by decide) rfl
  rw [Table.geti_root _ 0 (by decide)] at h
  exact h

/-! ## Tables occurring in a value -/

theorem Table.mem_erase (t : Table) (k : Key) (e : Key × TValue) (h : e ∈ Table.erase t k) :
    e ∈ t := by
  induction t with
  | nil => simp [Table.erase] at h
  | cons e1 t ih =>
    obtain ⟨k1, v1⟩ := e1
    by_cases hk : k1 = k
    · simp only [Table.erase, hk, if_true] at h
      exact List.mem_cons_of_mem _ h
    · simp only [Table.erase, hk, if_false, List.mem_cons] at h
      rcases h with h | h
      · rw [h]; exact List.mem_cons_self _ _
      · exact List.mem_cons_of_mem _ (ih h)

theorem Table.mem_insert (t : Table) (k : Key) (v : TValue) (e : Key × TValue)
    (h : e ∈ Table.insert t k v) : e ∈ t ∨ e = (k, v) := by
  induction t with
  | nil =>
    simp only [Table.insert, List.mem_singleton] at h
    exact Or.inr h
  | cons e1 t ih =>
    obtain ⟨k1, v1⟩ := e1
    by_cases hk : k1 = k
    · simp only [Table.insert, hk, if_true, List.mem_cons] at h
      rcases h with h | h
      · exact Or.inr h
      · exact Or.inl (List.mem_cons_of_mem _ h)
    · simp only [Table.insert, hk, if_false, List.mem_cons] at h
      rcases h with h | h
      · rw [h]; exact Or.inl (List.mem_cons_self _ _)
      · rcases ih h with h | h
        · exact Or.inl (List.mem_cons_of_mem _ h)
        · exact Or.inr h

theorem Table.mem_set (t : Table) (k : Key) (v : TValue) (e : Key × TValue)
    (h : e ∈ Table.set t k v) : e ∈ t ∨ e = (k, v) := by
  unfold Table.set at h
  split at h
  · exact Or.inl (Table.mem_erase t k e h)
  · exact Table.mem_insert t k v e h

theorem Table.get_mem (t : Table) (k : Key) : Table.get t k = .nil ∨ (k, Table.get t k) ∈ t := by
  induction t with
  | nil => exact Or.inl rfl
  | cons e t ih =>
    obtain ⟨k1, v1⟩ := e
    by_cases hk : k1 = k
    · subst hk
      simp [Table.get]
    · simp only [Table.get, hk, if_false]
      rcases ih with h | h
      · exact Or.inl h
      · exact Or.inr (List.mem_cons_of_mem _ h)

theorem occurs_table_iff (skip : Key → Bool) (fields : Table) :
    (∀ t, Occurs skip t (.table fields) → t.has_kind = true) ↔
      (fields.has_kind = true ∧
        ∀ k v, (k, v) ∈ fields → skip k = false → ∀ t, Occurs skip t v → t.has_kind = true) := by
  constructor
  · intro h
    exact ⟨h fields (Occurs.here fields),
      fun k v hmem hskip t hocc => h t (Occurs.inside k v fields t hmem hskip hocc)⟩
  · intro h t hocc
    cases hocc with
    | here => exact h.1
    | inside k v _ _ hmem hskip hocc => exact h.2 k v hmem hskip t hocc

theorem occurs_string (skip : Key → Bool) (s : String) (t : Table) :
    ¬ Occurs skip t (.string s) := by
  intro h
  cases h

theorem occurs_boolean (skip : Key → Bool) (b : Bool) (t : Table) :
    ¬ Occurs skip t (.boolean b) := by
  intro h
  cases h

theorem occurs_nil (skip : Key → Bool) (t : Table) : ¬ Occurs skip t .nil := by
  intro h
  cases h

theorem has_kind_of_type (t : Table) (s : String) (h : Table.get t (.str "type") = .string s)
    (hs : s ∈ kind_strings) : t.has_kind = true := by
  simp [Table.has_kind, h, hs]

mutual
theorem value_kinds (G : GumboLibrary) (node : GumboNode) (hv : node.valid = true) :
    ∀ t, Occurs skip_attr t (node.value G) → t.has_kind = true := by
  match node with
  | .document name pid sid hd q children =>
    simp only [GumboNode.valid] at hv
    rw [value_document G name pid sid hd q children hv, occurs_table_iff]
    refine ⟨has_kind_of_type _ "document" (by simp [Table.get]) (by decide), ?_⟩
    intro k v hmem hskip
    rcases List.mem_append.mp hmem with h | h
    · simp only [List.mem_cons, Prod.mk.injEq, List.mem_singleton, List.not_mem_nil,
        or_false] at h
      rcases h with h | h | h | h | h | h <;> obtain ⟨_, rfl⟩ := h <;> intro t hocc <;>
        first
        | exact absurd hocc (occurs_string _ _ _)
        | exact absurd hocc (occurs_boolean _ _ _)
    · exact children_kinds G children hv 0 k v h
  | .element tag ot attrs children =>
    simp only [GumboNode.valid] at hv
    rw [value_element G tag ot attrs children hv, occurs_table_iff]
    refine ⟨has_kind_of_type _ "element" (by simp [Table.get]) (by decide), ?_⟩
    intro k v hmem hskip
    rcases List.mem_append.mp hmem with h | h
    · rcases List.mem_append.mp h with h | h
      · simp only [List.mem_cons, Prod.mk.injEq, List.mem_singleton, List.not_mem_nil,
          or_false] at h
        rcases h with h | h <;> obtain ⟨_, rfl⟩ := h <;> intro t hocc <;>
          exact absurd hocc (occurs_string _ _ _)
      · split at h
        · simp only [List.mem_singleton, Prod.mk.injEq] at h
          obtain ⟨rfl, _⟩ := h
          simp [skip_attr] at hskip
        · simp at h
    · exact children_kinds G children hv 0 k v h
  | .text text | .comment text | .cdata text | .whitespace text =>
    simp only [GumboNode.value, GumboNode.type, node_type_to_string]
    rw [occurs_table_iff]
    refine ⟨by simp [Table.has_kind, Table.set, Table.insert, Table.get, TValue.isNil,
      kind_strings], ?_⟩
    intro k v hmem hskip
    simp only [Table.set, Table.insert, TValue.isNil, Bool.false_eq_true, if_false,
      Key.str.injEq, String.reduceEq, List.mem_cons, Prod.mk.injEq, List.mem_singleton,
      List.not_mem_nil, or_false] at hmem
    rcases hmem with h | h <;> obtain ⟨_, rfl⟩ := h <;> intro t hocc <;>
      exact absurd hocc (occurs_string _ _ _)
  | .other _ => simp [GumboNode.valid] at hv
theorem children_kinds (G : GumboLibrary) (children : List GumboNode)
    (hv : valid_children children = true) (i : Nat) :
    ∀ k v, (k, v) ∈ child_entries G children i →
      ∀ t, Occurs skip_attr t v → t.has_kind = true := by
  match children with
  | [] =>
    intro k v hmem
    simp [child_entries] at hmem
  | child :: rest =>
    simp only [valid_children, Bool.and_eq_true] at hv
    intro k v hmem
    simp only [child_entries, List.mem_cons, Prod.mk.injEq] at hmem
    rcases hmem with ⟨_, rfl⟩ | h
    · exact value_kinds G child hv.1
    · exact children_kinds G rest hv.2 (i + 1) k v h
end

/-! ## What `parse` returns -/

theorem parse_inv (G : GumboLibrary) (input : String) (L L' : lua_State) (k : Nat)
    (h : parse G input L = .ok k L') :
    (G.gumbo_parse_with_options input = none ∧ k = 2 ∧
      L'.stack = .string "Failed to parse" :: .nil :: L.stack ∧
      L'.gumbo_destroyed = L.gumbo_destroyed) ∨
    (∃ output t, G.gumbo_parse_with_options input = some output ∧ k = 1 ∧
      output.document.valid = true ∧
      L.stack.length + output.document.depth + 10 ≤ L.maxstack ∧
      output.document.value G = .table t ∧
      L'.stack = .table (Table.set t (.str "root")
        (Table.geti t (int_of_size_t (size_t_add output.root.index_within_parent 1))))
          :: L.stack ∧
      L'.ntables = L.ntables + output.document.tables ∧
      L'.gumbo_destroyed = output :: L.gumbo_destroyed) := by
  obtain ⟨s, c, m, p, n, g⟩ := L
  cases hG : G.gumbo_parse_with_options input with
  | none =>
    left
    by_cases hroom : s.length + 2 ≤ c
    · rw [parse_none G input s c m p n g hG hroom] at h
      injection h with h1 h2
      subst h1 h2
      exact ⟨rfl, rfl, rfl, rfl⟩
    · exfalso
      simp only [parse, hG, bind_apply, lua_pushnil, lua_pushliteral, lua_push] at h
      by_cases h0 : s.length < c
      · have h1 : ¬ s.length + 1 < c := by omega
        simp [h0, h1] at h
      · simp [h0] at h
  | some output =>
    right
    by_cases hok : output.document.valid = true ∧ s.length + output.document.depth + 10 ≤ m
    · obtain ⟨t, ht⟩ := value_eq_table G output.document hok.1
      rw [parse_ok G input output t s c m p n g hG hok.1 hok.2 ht] at h
      injection h with h1 h2
      subst h1 h2
      exact ⟨output, t, rfl, rfl, hok.1, hok.2, ht, rfl, rfl, rfl⟩
    · exfalso
      have hbad : output.document.valid = false ∨
          ¬ s.length + output.document.depth + 10 ≤ m := by
        by_cases hv : output.document.valid = true
        · exact Or.inr (fun hf => hok ⟨hv, hf⟩)
        · exact Or.inl (by simpa using hv)
      obtain ⟨msg, L1, hrun, _, _⟩ := parse_fail G input output s c m p n g hG hbad
      rw [hrun] at h
      exact Result.noConfusion h

theorem root_kinds (t : Table) (n : Int)
    (h : ∀ t', Occurs skip_attr t' (.table t) → t'.has_kind = true) :
    ∀ t', Occurs skip_attr t' (.table (Table.set t (.str "root") (Table.geti t n))) →
      t'.has_kind = true := by
  rw [occurs_table_iff] at h ⊢
  obtain ⟨hk, hentries⟩ := h
  constructor
  · have hget : Table.get (Table.set t (.str "root") (Table.geti t n)) (.str "type")
        = Table.get t (.str "type") := Table.get_set_ne _ _ _ _ (by simp)
    simpa [Table.has_kind, hget] using hk
  · intro k v hmem hskip
    rcases Table.mem_set _ _ _ _ hmem with h | h
    · exact hentries k v h hskip
    · simp only [Prod.mk.injEq] at h
      obtain ⟨_, rfl⟩ := h
      rcases Table.geti_cases t n with hnil | ⟨j, _, hj⟩
      · rw [hnil]
        intro t' hocc
        exact absurd hocc (occurs_nil _ _)
      · rw [hj]
        rcases Table.get_mem t (.int j) with hnil | hmem'
        · rw [hnil]
          intro t' hocc
          exact absurd hocc (occurs_nil _ _)
        · exact hentries (.int j) _ hmem' (by simp [skip_attr])

/-! ## Deeply nested trees -/

theorem valid_nest (n : Nat) (inner : GumboNode) : (nest n inner).valid = inner.valid := by
  induction n with
  | zero => rfl
  | succ n ih => simp [nest, GumboNode.valid, valid_children, ih]

theorem depth_nest (n : Nat) (inner : GumboNode) : (nest n inner).depth = n + inner.depth := by
  induction n with
  | zero => simp [nest]
  | succ n ih =>
    simp only [nest, GumboNode.depth, depth_children, ih]
    omega

theorem valid_nested_document (n : Nat) (inner : GumboNode) :
    (nested_document n inner).valid = inner.valid := by
  simp [nested_document, GumboNode.valid, valid_children, valid_nest]

theorem depth_nested_document (n : Nat) (inner : GumboNode) :
    (nested_document n inner).depth = n + inner.depth + 1 := by
  simp only [nested_document, GumboNode.depth, depth_children, depth_nest]
  omega

/-- An error raised for the innermost node of a chain of elements is the error
of the whole chain, when the stack has room for the elements around it. -/
theorem build_node_nest_error (G : GumboLibrary) (inner : GumboNode) (msg : String) (m : Nat)
    (g : List GumboOutput) (n : Nat) :
    ∀ (s : List TValue) (c p k : Nat), s.length + n + 9 ≤ m →
      (∀ (s' : List TValue) (c' p' k' : Nat), s'.length = s.length + n →
        ∃ L', build_node G inner ⟨s', c', m, p', k', g⟩ = .error msg L') →
      ∃ L', build_node G (nest n inner) ⟨s, c, m, p, k, g⟩ = .error msg L' := by
  induction n with
  | zero =>
    intro s c p k _ hinner
    exact hinner s c p k rfl
  | succ n ih =>
    intro s c p k hm hinner
    have hfit0 : s.length + 10 ≤ m := by omega
    have h3 : s.length + 3 ≤ max c (s.length + 10) := by omega
    obtain ⟨L', hrun⟩ := ih (.table (element_head G (.known 2) "<div>" []) :: s)
      (max c (s.length + 10)) (max p (s.length + 2)) (k + 1)
      (by simp only [List.length_cons]; omega)
      (fun s' c' p' k' hs' => hinner s' c' p' k' (by simp only [List.length_cons] at hs'; omega))
    refine ⟨L', ?_⟩
    simp only [nest, build_node_element, build_element, bind_apply,
      luaL_checkstack_ok _ _ _ _ _ _ _ _ hfit0,
      build_element_head_apply _ _ _ _ _ _ _ _ _ _ _ h3, add_children]
    simp only [List.length_nil, ne_eq, not_true_eq_false, if_false, Nat.add_zero] at hrun ⊢
    rw [hrun]

theorem build_node_document (G : GumboLibrary) (name public_identifier system_identifier : String)
    (has_doctype : Bool) (doc_type_quirks_mode : GumboQuirksModeEnum)
    (children : List GumboNode) :
    build_node G (.document name public_identifier system_identifier has_doctype
        doc_type_quirks_mode children) = (do
      luaL_checkstack 10 "element nesting too deep"
      lua_createtable children.length 6
      add_field lua_pushstring "type" "document"
      add_field lua_pushstring "name" name
      add_field lua_pushstring "public_identifier" public_identifier
      add_field lua_pushstring "system_identifier" system_identifier
      add_field lua_pushboolean "has_doctype" has_doctype
      add_field lua_pushstring "quirks_mode" (qmode_map doc_type_quirks_mode)
      add_children G children 0) := rfl

theorem build_node_nested_document_error (G : GumboLibrary) (inner : GumboNode) (msg : String)
    (m : Nat) (g : List GumboOutput) (n : Nat) (s : List TValue) (c p k : Nat)
    (hm : s.length + n + 10 ≤ m)
    (hinner : ∀ (s' : List TValue) (c' p' k' : Nat), s'.length = s.length + n + 1 →
      ∃ L', build_node G inner ⟨s', c', m, p', k', g⟩ = .error msg L') :
    ∃ L', build_node G (nested_document n inner) ⟨s, c, m, p, k, g⟩ = .error msg L' := by
  have hfit0 : s.length + 10 ≤ m := by omega
  have h0 : s.length < max c (s.length + 10) := by omega
  have h1 : s.length + 1 < max c (s.length + 10) := by omega
  obtain ⟨L', hrun⟩ := build_node_nest_error G inner msg m g n
    (.table (document_head "html" "" "" true .GUMBO_DOCTYPE_NO_QUIRKS) :: s)
    (max c (s.length + 10)) (max p (s.length + 2)) (k + 1)
    (by simp only [List.length_cons]; omega)
    (fun s' c' p' k' hs' => hinner s' c' p' k' (by simp only [List.length_cons] at hs'; omega))
  refine ⟨L', ?_⟩
  simp only [nested_document, build_node_document, bind_apply,
    luaL_checkstack_ok _ _ _ _ _ _ _ _ hfit0, lua_createtable_apply _ _ _ _ _ _ _ _ h0,
    add_field_string _ _ _ _ _ _ _ _ _ h1, add_field_boolean _ _ _ _ _ _ _ _ _ h1, peak_step,
    peak_same, add_children]
  simp only [document_head] at hrun
  rw [hrun]

theorem build_node_overflow (G : GumboLibrary) (node : GumboNode) (s : List TValue)
    (c m p n : Nat) (g : List GumboOutput) (h : ¬ s.length + 10 ≤ m) :
    build_node G node ⟨s, c, m, p, n, g⟩
      = .error "stack overflow (element nesting too deep)" ⟨s, c, m, p, n, g⟩ := by
  simp only [build_node_unfold, bind_apply, luaL_checkstack_error _ _ _ _ _ _ _ _ h,
    overflow_message]

theorem parse_sample_other :
    ∃ L', parse (sample_library (some ⟨sample_other, ⟨0⟩⟩)) "<html><template>"
        (entry_state (.string "<html><template>")) = .error "Invalid node type" L' ∧
      L'.gumbo_destroyed = [] := by
  obtain ⟨msg, L', hrun, hg, hmsg⟩ := parse_fail (sample_library (some ⟨sample_other, ⟨0⟩⟩))
    "<html><template>" ⟨sample_other, ⟨0⟩⟩ [.string "<html><template>"] 21 8000 1 0 [] rfl
    (Or.inl (by decide))
  rcases hmsg with ⟨h1, _⟩ | ⟨_, h2⟩
  · subst h1
    exact ⟨L', hrun, hg⟩
  · exact absurd (by decide) h2

/-! ## The attribute table -/

theorem attr_table_append (xs ys : List GumboAttribute) (t : Table) :
    attr_table (xs ++ ys) t = attr_table ys (attr_table xs t) := by
  induction xs generalizing t with
  | nil => rfl
  | cons a rest ih => simp [attr_table, ih]

theorem Table.set_string (t : Table) (k : Key) (s : String) :
    Table.set t k (.string s) = Table.insert t k (.string s) := by
  simp [Table.set, TValue.isNil]

theorem get_attr_table_of_ne (attributes : List GumboAttribute) (t : Table) (name : String)
    (h : ∀ b ∈ attributes, b.name ≠ name) :
    Table.get (attr_table attributes t) (.str name) = Table.get t (.str name) := by
  induction attributes generalizing t with
  | nil => rfl
  | cons a rest ih =>
    simp only [attr_table]
    rw [ih _ (fun b hb => h b (List.mem_cons_of_mem _ hb))]
    exact Table.get_set_ne _ _ _ _ (by simpa using h a (List.mem_cons_self _ _))

theorem mem_keys_attr_table (attributes : List GumboAttribute) (t : Table) (k : Key) :
    k ∈ Table.keys (attr_table attributes t) ↔
      k ∈ Table.keys t ∨ ∃ a ∈ attributes, k = .str a.name := by
  induction attributes generalizing t with
  | nil => simp [attr_table]
  | cons a rest ih =>
    simp only [attr_table]
    rw [ih, Table.set_string, Table.mem_keys_insert]
    simp only [List.mem_cons, exists_eq_or_imp]
    tauto

theorem Table.keys_insert_of_mem (t : Table) (k : Key) (v : TValue) (h : k ∈ Table.keys t) :
    Table.keys (Table.insert t k v) = Table.keys t := by
  induction t with
  | nil => simp [Table.keys] at h
  | cons e t ih =>
    obtain ⟨k1, v1⟩ := e
    by_cases hk : k1 = k
    · simp [Table.insert, Table.keys, hk]
    · simp only [Table.keys, List.map_cons, List.mem_cons] at h
      have h2 : k ∈ Table.keys t := by
        rcases h with h | h
        · exact absurd h.symm hk
        · exact h
      simp only [Table.insert, hk, if_false, Table.keys, List.map_cons, List.cons.injEq, true_and]
      exact ih h2

theorem Table.nodup_keys_insert (t : Table) (k : Key) (v : TValue) (h : (Table.keys t).Nodup) :
    (Table.keys (Table.insert t k v)).Nodup := by
  by_cases hk : k ∈ Table.keys t
  · rw [Table.keys_insert_of_mem t k v hk]
    exact h
  · rw [Table.insert_of_not_mem t k v hk, Table.keys_append]
    simp only [Table.keys, List.map_cons, List.map_nil]
    rw [List.nodup_append]
    refine ⟨h, List.nodup_singleton _, ?_⟩
    intro x hx hx'
    simp only [List.mem_singleton] at hx'
    subst hx'
    exact hk hx

theorem nodup_keys_attr_table (attributes : List GumboAttribute) (t : Table)
    (h : (Table.keys t).Nodup) : (Table.keys (attr_table attributes t)).Nodup := by
  induction attributes generalizing t with
  | nil => exact h
  | cons a rest ih =>
    simp only [attr_table]
    apply ih
    rw [Table.set_string]
    exact Table.nodup_keys_insert t _ _ h

theorem get_attr_table_last (pre post : List GumboAttribute) (attr : GumboAttribute)
    (h : ∀ b ∈ post, b.name ≠ attr.name) :
    Table.get (attr_table (pre ++ attr :: post) []) (.str attr.name) = .string attr.value := by
  rw [attr_table_append]
  simp only [attr_table]
  rw [get_attr_table_of_ne post _ attr.name h, Table.set_string, Table.get_insert_self]

theorem sample_library_parse (output : Option GumboOutput) (input : String) :
    (sample_library output).gumbo_parse_with_options input = output := rfl

/-- A tree of valid kinds that is too deep for the stack: `parse` ends by the
stack overflow error and no tree has been released. -/
theorem parse_too_deep (G : GumboLibrary) (input : String) (node : GumboNode) (root : GumboRoot)
    (s : List TValue) (c m p n : Nat) (g : List GumboOutput)
    (hparse : G.gumbo_parse_with_options input = some ⟨node, root⟩)
    (hv : node.valid = true) (hfit : ¬ s.length + node.depth + 10 ≤ m) :
    ∃ L', parse G input ⟨s, c, m, p, n, g⟩
        = .error "stack overflow (element nesting too deep)" L' ∧ L'.gumbo_destroyed = g := by
  obtain ⟨msg, L', hrun, hg, hmsg⟩ :=
    parse_fail G input ⟨node, root⟩ s c m p n g hparse (Or.inr hfit)
  rcases hmsg with ⟨_, h2⟩ | ⟨h1, _⟩
  · simp only [hv] at h2
    exact Bool.noConfusion h2
  · subst h1
    exact ⟨L', hrun, hg⟩

/-! ## The `attr` field of an element's table -/

theorem build_node_element_inv (G : GumboLibrary) (tag : GumboTag)
    (original_tag : GumboStringPiece) (attributes : List GumboAttribute)
    (children : List GumboNode) (L L' : lua_State)
    (h : build_node G (.element tag original_tag attributes children) L = .ok () L') :
    L'.stack = .table ([(.str "type", .string "element"),
          (.str "tag", .string (tag_name G tag original_tag))]
        ++ (if attributes.length ≠ 0 then [(.str "attr", .table (attr_table attributes []))]
            else [])
        ++ child_entries G children 0) :: L.stack := by
  obtain ⟨hv, _, hL'⟩ := build_node_inv G _ L L' h
  simp only [GumboNode.valid] at hv
  rw [hL', value_element G tag original_tag attributes children hv]

theorem element_attr_presence (G : GumboLibrary) (name : String)
    (attributes : List GumboAttribute) (children : List GumboNode) (t : Table)
    (ht : t = [(.str "type", .string "element"), (.str "tag", .string name)]
        ++ (if attributes.length ≠ 0 then [(.str "attr", .table (attr_table attributes []))]
            else [])
        ++ child_entries G children 0) :
    (Key.str "attr" ∈ Table.keys t ↔ attributes ≠ []) ∧
      (attributes = [] → Table.get t (.str "attr") = .nil) ∧
      (attributes ≠ [] → Table.get t (.str "attr") = .table (attr_table attributes [])) := by
  subst ht
  have hce := str_not_mem_keys_child_entries G children 0 "attr"
  refine ⟨?_, ?_, ?_⟩
  · cases attributes with
    | nil => simpa [Table.keys_append, Table.keys] using hce
    | cons a rest => simp [Table.keys_append, Table.keys]
  · intro hnil
    subst hnil
    apply Table.get_of_not_mem
    simpa [Table.keys_append, Table.keys] using hce
  · intro hne
    have hlen : attributes.length ≠ 0 := fun h0 => hne (List.length_eq_zero.mp h0)
    rw [Table.get_append_left]
    · simp [hlen, Table.get]
    · simp [hlen, Table.keys]

theorem attr_table_content (attributes : List GumboAttribute) :
    (∀ k, k ∈ Table.keys (attr_table attributes []) ↔ ∃ attr ∈ attributes, k = .str attr.name) ∧
      (Table.keys (attr_table attributes [])).Nodup ∧
      (∀ pre attr post, attributes = pre ++ attr :: post →
        (∀ b ∈ post, b.name ≠ attr.name) →
        Table.get (attr_table attributes []) (.str attr.name) = .string attr.value) ∧
      (attributes = [⟨"class", "a"⟩] →
        attr_table attributes [] = [(.str "class", .string "a")]) := by
  refine ⟨?_, ?_, ?_, ?_⟩
  · intro k
    rw [mem_keys_attr_table]
    simp [Table.keys]
  · exact nodup_keys_attr_table attributes [] (by simp [Table.keys])
  · intro pre attr post hsplit hlast
    rw [hsplit]
    exact get_attr_table_last pre post attr hlast
  · intro h
    subst h
    rfl

/-! ## The `tag` field of an element's table -/

theorem element_tag_field (name : String) (rest : Table) :
    Table.get ([(.str "type", .string "element"), (.str "tag", .string name)] ++ rest)
      (.str "tag") = .string name := by
  simp [Table.get]

theorem tag_name_unknown (G : GumboLibrary) (original_tag : GumboStringPiece) :
    tag_name G .GUMBO_TAG_UNKNOWN original_tag = G.gumbo_tag_from_original_text original_tag := by
  simp [tag_name]

theorem tag_name_known (G : GumboLibrary) (tag : GumboTag) (original_tag : GumboStringPiece)
    (h : tag ≠ .GUMBO_TAG_UNKNOWN) :
    tag_name G tag original_tag = G.gumbo_normalized_tagname tag := by
  simp [tag_name, h]

/-! ## The run of `parse` without a tree -/

theorem parse_none_program (G : GumboLibrary) (input : String)
    (hparse : G.gumbo_parse_with_options input = none) :
    parse G input = (do
      lua_pushnil
      lua_pushliteral "Failed to parse"
      return 2) := by
  simp only [parse, hparse]

theorem parse_none_inv (G : GumboLibrary) (input : String) (L L' : lua_State) (k : Nat)
    (hparse : G.gumbo_parse_with_options input = none) (h : parse G input L = .ok k L') :
    k = 2 ∧ L.stack.length + 2 ≤ L.ci_top ∧
      L' = ⟨.string "Failed to parse" :: .nil :: L.stack, L.ci_top, L.maxstack,
        max L.peak (L.stack.length + 2), L.ntables, L.gumbo_destroyed⟩ := by
  obtain ⟨s, c, m, p, n, g⟩ := L
  by_cases hroom : s.length + 2 ≤ c
  · rw [parse_none G input s c m p n g hparse hroom] at h
    injection h with h1 h2
    exact ⟨h1.symm, hroom, h2.symm⟩
  · exfalso
    simp only [parse, hparse, bind_apply, lua_pushnil, lua_pushliteral, lua_push] at h
    by_cases h0 : s.length < c
    · have h1 : ¬ s.length + 1 < c := by omega
      simp [h0, h1] at h
    · simp [h0] at h

/-! ## The field `root` -/

theorem Table.set_new_cases (t : Table) (k : Key) (v : TValue) (h : k ∉ Table.keys t) :
    (v = .nil ∧ Table.set t k v = t) ∨ (v ≠ .nil ∧ Table.set t k v = t ++ [(k, v)]) := by
  cases v with
  | nil =>
    left
    exact ⟨rfl, by simp [Table.set, TValue.isNil, Table.erase_of_not_mem t k h]⟩
  | boolean b =>
    right
    exact ⟨by simp, Table.set_of_not_mem t k _ h rfl⟩
  | string s =>
    right
    exact ⟨by simp, Table.set_of_not_mem t k _ h rfl⟩
  | table f =>
    right
    exact ⟨by simp, Table.set_of_not_mem t k _ h rfl⟩

/-- The table of a document of valid kinds, and the entry of child `k`. -/
theorem document_table (G : GumboLibrary) (node : GumboNode)
    (hdoc : node.type = .GUMBO_NODE_DOCUMENT) (hv : node.valid = true) :
    ∃ t : Table, node.value G = .table t ∧ Key.str "root" ∉ Table.keys t ∧
      (∀ k, node.children.length ≤ k → Table.get t (.int (k + 1)) = .nil) ∧
      (∀ k child, node.children.get? k = some child →
        Table.get t (.int (k + 1)) = child.value G) := by
  obtain ⟨head, hval, hkeys, _, hroot⟩ := value_parent G node (Or.inl hdoc) hv
  have hint : ∀ j, Key.int j ∉ Table.keys head := by
    intro j hmem
    obtain ⟨str, hstr⟩ := hkeys _ hmem
    exact Key.noConfusion hstr
  refine ⟨_, hval, ?_, ?_, ?_⟩
  · rw [Table.keys_append]
    simp only [List.mem_append, not_or]
    exact ⟨hroot, str_not_mem_keys_child_entries _ _ _ _⟩
  · intro k hk
    rw [Table.get_append_right _ _ _ (hint _)]
    have := get_child_entries_none G node.children 0 k hk
    simpa using this
  · intro k child hchild
    rw [Table.get_append_right _ _ _ (hint _)]
    have := get_child_entries G node.children 0 k child hchild
    simpa using this

/-! ## Stack balance -/

theorem build_node_returns_iff (G : GumboLibrary) (node : GumboNode) (L : lua_State) :
    (∃ L', build_node G node L = .ok () L') ↔
      (node.valid = true ∧ L.stack.length + node.depth + 10 ≤ L.maxstack) := by
  constructor
  · rintro ⟨L', h⟩
    obtain ⟨h1, h2, _⟩ := build_node_inv G node L L' h
    exact ⟨h1, h2⟩
  · rintro ⟨h1, h2⟩
    obtain ⟨s, c, m, p, n, g⟩ := L
    exact ⟨_, build_node_ok G node s c m p n g h1 h2⟩

theorem add_children_stack (G : GumboLibrary) (children : List GumboNode) :
    ∀ (i : Nat) (t : Table) (s : List TValue) (c m p n : Nat) (g : List GumboOutput),
      valid_children children = true → s.length + depth_children children + 10 ≤ m →
      ∃ c' p' n', add_children G children i ⟨.table t :: s, c, m, p, n, g⟩
        = .ok () ⟨.table (children_table G children i t) :: s, c', m, p', n', g⟩ := by
  induction children with
  | nil =>
    intro i t s c m p n g _ _
    exact ⟨c, p, n, rfl⟩
  | cons child rest ih =>
    intro i t s c m p n g hv hfit
    simp only [valid_children, Bool.and_eq_true, depth_children] at hv hfit
    have hfit1 : (TValue.table t :: s).length + child.depth + 10 ≤ m := by
      simp only [List.length_cons]; omega
    obtain ⟨c', p', n', hrest⟩ := ih (i + 1) (Table.set t (.int (i + 1)) (child.value G)) s
      (max c ((TValue.table t :: s).length + child.depth + 10)) m
      (max p ((TValue.table t :: s).length + child.slots)) (n + child.tables) g hv.2 (by omega)
    refine ⟨c', p', n', ?_⟩
    simp only [add_children, bind_apply,
      build_node_ok G child (.table t :: s) c m p n g hv.1 hfit1, lua_rawseti, store_pop_apply,
      children_table]
    exact hrest

theorem lua_rawseti_apply (i : Nat) (v : TValue) (t : Table) (L : lua_State) (s : List TValue)
    (h : L.stack = v :: .table t :: s) :
    ∃ L2, lua_rawseti (-2) i L = .ok () L2 ∧ L2.stack = .table (Table.set t (.int i) v) :: s := by
  obtain ⟨st, c, m, p, n, g⟩ := L
  simp only at h
  subst h
  exact ⟨_, store_pop_apply (.int i) v t s c m p n g, rfl⟩

/-! ## The calls of `build_node` within a run -/

theorem bind_assoc_apply {α β γ : Type} (x : LuaM α) (f : α → LuaM β) (g : β → LuaM γ) :
    (x >>= f) >>= g = x >>= fun a => f a >>= g := by
  funext L
  simp only [bind_apply]
  cases x L <;> rfl

theorem bind_pure_unit (x : LuaM Unit) : (x >>= fun _ => pure ()) = x := by
  funext L
  simp only [bind_apply]
  cases x L <;> rfl

theorem pure_bind_apply {α β : Type} (a : α) (f : α → LuaM β) : (pure a >>= f) = f a := by
  funext L
  rfl

/-- `build_node` is the head of the node followed by the loop over its
children. -/
theorem build_node_head_children (G : GumboLibrary) (node : GumboNode) :
    build_node G node = (do
      node_head G node
      add_children G node.children 0) := by
  cases node with
  | document name pid sid hd q children =>
    simp only [build_node_document, node_head, GumboNode.children, bind_assoc_apply]
  | element tag ot attrs children =>
    simp only [build_node_element, build_element, node_head, GumboNode.children,
      bind_assoc_apply]
  | text t => simp only [node_head, GumboNode.children, add_children, bind_pure_unit]
  | cdata t => simp only [node_head, GumboNode.children, add_children, bind_pure_unit]
  | comment t => simp only [node_head, GumboNode.children, add_children, bind_pure_unit]
  | whitespace t => simp only [node_head, GumboNode.children, add_children, bind_pure_unit]
  | other v => simp only [node_head, GumboNode.children, add_children, bind_pure_unit]

theorem add_children_append (G : GumboLibrary) (xs ys : List GumboNode) (i : Nat) :
    add_children G (xs ++ ys) i = (do
      add_children G xs i
      add_children G ys (i + xs.length)) := by
  induction xs generalizing i with
  | nil => simp only [List.nil_append, add_children, List.length_nil, Nat.add_zero,
      pure_bind_apply]
  | cons x xs ih =>
    have h1 : add_children G (x :: xs ++ ys) i = (do
        build_node G x
        lua_rawseti (-2) (i + 1)
        add_children G (xs ++ ys) (i + 1)) := rfl
    have h : i + 1 + xs.length = i + (xs.length + 1) := by omega
    rw [h1, ih, h]
    simp only [add_children, bind_assoc_apply, List.length_cons]

/-- The run of `build_node` on a node with a child number `i`: the head of
the node, the children before, then `build_node` on that child, the store of
its value under the index `i + 1`, and the children after. -/
theorem build_node_child (G : GumboLibrary) (node child : GumboNode) (i : Nat)
    (h : node.children[i]? = some child) :
    build_node G node = (do
      node_head G node
      add_children G (node.children.take i) 0
      build_node G child
      lua_rawseti (-2) (i + 1)
      add_children G (node.children.drop (i + 1)) (i + 1)) := by
  obtain ⟨hlt, hget⟩ := List.getElem?_eq_some.mp h
  have hsplit : node.children = node.children.take i ++ child :: node.children.drop (i + 1) := by
    rw [← hget]
    simp
  have hlen : (node.children.take i).length = i := by
    rw [List.length_take]
    omega
  rw [build_node_head_children]
  conv_lhs => rw [hsplit]
  rw [add_children_append]
  simp only [add_children, hlen, Nat.zero_add]

theorem valid_children_iff (children : List GumboNode) :
    valid_children children = true ↔ ∀ child ∈ children, child.valid = true := by
  induction children with
  | nil => simp [valid_children]
  | cons c rest ih => simp [valid_children, ih]

theorem depth_children_le_iff (children : List GumboNode) (d : Nat) :
    depth_children children ≤ d ↔ ∀ child ∈ children, child.depth + 1 ≤ d := by
  induction children with
  | nil => simp [depth_children]
  | cons c rest ih =>
    simp only [depth_children, List.mem_cons, forall_eq_or_imp, ← ih]
    omega

theorem children_of_getElem (node child : GumboNode) (i : Nat)
    (h : node.children[i]? = some child) :
    (node.type = .GUMBO_NODE_DOCUMENT ∨ node.type = .GUMBO_NODE_ELEMENT) ∧
      node.depth = depth_children node.children ∧
      node.valid = valid_children node.children := by
  cases node <;> simp [GumboNode.children] at h <;>
    simp [GumboNode.type, GumboNode.depth, GumboNode.valid, GumboNode.children]

theorem node_head_apply (G : GumboLibrary) (node : GumboNode)
    (hkind : node.type = .GUMBO_NODE_DOCUMENT ∨ node.type = .GUMBO_NODE_ELEMENT)
    (s : List TValue) (c m p n : Nat) (g : List GumboOutput) (hfit : s.length + 10 ≤ m) :
    ∃ t k j, node_head G node ⟨s, c, m, p, n, g⟩
        = .ok () ⟨.table t :: s, max c (s.length + 10), m, max p (s.length + k), n + j, g⟩ ∧
      2 ≤ k ∧ k ≤ 3 := by
  have h0 : s.length < max c (s.length + 10) := by omega
  have h1 : s.length + 1 < max c (s.length + 10) := by omega
  have h3 : s.length + 3 ≤ max c (s.length + 10) := by omega
  cases node with
  | document name pid sid hd q children =>
    refine ⟨document_head name pid sid hd q, 2, 1, ?_, by omega, by omega⟩
    simp only [node_head, bind_apply, luaL_checkstack_ok _ _ _ _ _ _ _ _ hfit,
      lua_createtable_apply _ _ _ _ _ _ _ _ h0, add_field_string _ _ _ _ _ _ _ _ _ h1,
      add_field_boolean _ _ _ _ _ _ _ _ _ h1, peak_step, peak_same, document_head]
  | element tag ot attrs children =>
    refine ⟨element_head G tag ot attrs, (if attrs.length ≠ 0 then 3 else 2),
      1 + (if attrs.length ≠ 0 then 1 else 0), ?_, by split <;> omega, by split <;> omega⟩
    simp only [node_head, bind_apply, luaL_checkstack_ok _ _ _ _ _ _ _ _ hfit,
      build_element_head_apply _ _ _ _ _ _ _ _ _ _ _ h3, Nat.add_assoc]
  | text _ => simp [GumboNode.type] at hkind
  | cdata _ => simp [GumboNode.type] at hkind
  | comment _ => simp [GumboNode.type] at hkind
  | whitespace _ => simp [GumboNode.type] at hkind
  | other _ => simp [GumboNode.type] at hkind

theorem node_head_overflow (G : GumboLibrary) (node : GumboNode) (s : List TValue)
    (c m p n : Nat) (g : List GumboOutput) (h : ¬ s.length + 10 ≤ m) :
    node_head G node ⟨s, c, m, p, n, g⟩
      = .error "stack overflow (element nesting too deep)" ⟨s, c, m, p, n, g⟩ := by
  cases node <;>
    first
    | exact build_node_overflow G _ s c m p n g h
    | simp only [node_head, bind_apply, luaL_checkstack_error _ _ _ _ _ _ _ _ h,
        overflow_message]

/-- What the head of a node does to the state when it returns. -/
theorem node_head_inv (G : GumboLibrary) (node : GumboNode) (L L0 : lua_State)
    (h : node_head G node L = .ok () L0) :
    L.stack.length + 10 ≤ L.maxstack ∧
      (∃ t, L0.stack = .table t :: L.stack) ∧
      L0.ci_top = max L.ci_top (L.stack.length + 10) ∧ L0.maxstack = L.maxstack ∧
      L0.peak ≤ max L.peak (L.stack.length + 3) ∧ L.stack.length + 1 ≤ L0.peak ∧
      L0.gumbo_destroyed = L.gumbo_destroyed := by
  obtain ⟨s, c, m, p, n, g⟩ := L
  by_cases hfit : s.length + 10 ≤ m
  · by_cases hkind : node.type = .GUMBO_NODE_DOCUMENT ∨ node.type = .GUMBO_NODE_ELEMENT
    · obtain ⟨t, k, j, hrun, hk2, hk3⟩ := node_head_apply G node hkind s c m p n g hfit
      rw [hrun] at h
      injection h with _ h
      subst h
      exact ⟨hfit, ⟨t, rfl⟩, rfl, rfl, by simp only; omega, by simp only; omega, rfl⟩
    · have hb : node_head G node = build_node G node := by
        cases node <;> first | rfl | exact absurd (by simp [GumboNode.type]) hkind
      rw [hb] at h
      obtain ⟨hv, _, hL⟩ := build_node_inv G node _ L0 h
      obtain ⟨t, ht⟩ := value_eq_table G node hv
      have hd : node.depth = 0 ∧ node.slots = 2 := by
        cases node with
        | document _ _ _ _ _ _ => exact absurd (by simp [GumboNode.type]) hkind
        | element _ _ _ _ => exact absurd (by simp [GumboNode.type]) hkind
        | text _ => exact ⟨rfl, rfl⟩
        | cdata _ => exact ⟨rfl, rfl⟩
        | comment _ => exact ⟨rfl, rfl⟩
        | whitespace _ => exact ⟨rfl, rfl⟩
        | other _ => simp [GumboNode.valid] at hv
      rw [hL, hd.1, hd.2, ht]
      exact ⟨hfit, ⟨t, rfl⟩, rfl, rfl, by simp only; omega, by simp only; omega, rfl⟩
  · rw [node_head_overflow G node s c m p n g hfit] at h
    exact Result.noConfusion h

theorem add_children_inv (G : GumboLibrary) (children : List GumboNode) (i : Nat) (t : Table)
    (s : List TValue) (c m p n : Nat) (g : List GumboOutput) (L1 : lua_State)
    (hroom : s.length + 10 ≤ c) (hm : s.length + 10 ≤ m)
    (h : add_children G children i ⟨.table t :: s, c, m, p, n, g⟩ = .ok () L1) :
    valid_children children = true ∧ s.length + depth_children children + 10 ≤ m ∧
      L1.stack = .table (children_table G children i t) :: s ∧ L1.maxstack = m ∧
      L1.gumbo_destroyed = g := by
  by_cases hok : valid_children children = true ∧ s.length + depth_children children + 10 ≤ m
  · obtain ⟨c', p', n', hrun⟩ := add_children_stack G children i t s c m p n g hok.1 hok.2
    rw [hrun] at h
    injection h with _ h
    subst h
    exact ⟨hok.1, hok.2, rfl, rfl, rfl⟩
  · exfalso
    have hbad : valid_children children = false ∨
        ¬ s.length + depth_children children + 10 ≤ m := by
      by_cases hv : valid_children children = true
      · exact Or.inr (fun hf => hok ⟨hv, hf⟩)
      · exact Or.inl (by simpa using hv)
    obtain ⟨msg, L2, hrun, _, _⟩ := add_children_fail G children i t s c m p n g hroom hm hbad
    rw [hrun] at h
    exact Result.noConfusion h

/-- The state after the head of a parent and its children before number `i`:
the stack is the initial one with the parent's table on top. -/
theorem head_children_inv (G : GumboLibrary) (node : GumboNode) (pre : List GumboNode)
    (i : Nat) (L L1 : lua_State)
    (h : (do node_head G node; add_children G pre i : LuaM Unit) L = .ok () L1) :
    L.stack.length + 10 ≤ L.maxstack ∧ (∃ t, L1.stack = .table t :: L.stack) ∧
      L1.maxstack = L.maxstack ∧ L1.gumbo_destroyed = L.gumbo_destroyed ∧
      valid_children pre = true ∧ L.stack.length + depth_children pre + 10 ≤ L.maxstack := by
  simp only [bind_apply] at h
  cases hh : node_head G node L with
  | ok a L0 =>
    rw [hh] at h
    obtain ⟨hfit, ⟨t, ht⟩, hc, hm, _, _, hg⟩ := node_head_inv G node L L0 hh
    obtain ⟨s0, c0, m0, p0, n0, g0⟩ := L0
    simp only at ht hc hm hg h
    subst ht hm
    obtain ⟨hv, hd, hs, hm1, hg1⟩ := add_children_inv G pre i t L.stack c0 L.maxstack p0 n0 g0 L1
      (by omega) hfit h
    exact ⟨hfit, ⟨_, hs⟩, hm1, by rw [hg1, hg], hv, hd⟩
  | error msg L0 =>
    rw [hh] at h
    exact Result.noConfusion h
  | undefined =>
    rw [hh] at h
    exact Result.noConfusion h

theorem entered_height (G : GumboLibrary) (path : List Nat) :
    ∀ (node : GumboNode) (L : lua_State) (x : GumboNode) (Lx : lua_State),
      entered G path node L = some (x, Lx) →
      Lx.stack.length = L.stack.length + path.length ∧ Lx.maxstack = L.maxstack ∧
      descendant path node = some x := by
  induction path with
  | nil =>
    intro node L x Lx h
    simp only [entered, Option.some.injEq, Prod.mk.injEq] at h
    obtain ⟨rfl, rfl⟩ := h
    exact ⟨rfl, rfl, rfl⟩
  | cons i path ih =>
    intro node L x Lx h
    simp only [entered] at h
    cases hc : node.children[i]? with
    | none => simp [hc] at h
    | some child =>
      simp only [hc] at h
      cases hr : (do node_head G node; add_children G (node.children.take i) 0 : LuaM Unit) L with
      | ok a L1 =>
        simp only [hr] at h
        obtain ⟨h1, h2, h3⟩ := ih child L1 x Lx h
        obtain ⟨_, ⟨t, ht⟩, hm, _⟩ := head_children_inv G node _ 0 L L1 hr
        refine ⟨?_, by rw [h2, hm], by simp only [descendant, hc, h3]⟩
        rw [h1, ht]
        simp only [List.length_cons]
        omega
      | error msg L1 => simp [hr] at h
      | undefined => simp [hr] at h

theorem entered_exists (G : GumboLibrary) (path : List Nat) :
    ∀ (node : GumboNode) (L : lua_State) (x : GumboNode),
      node.valid = true → L.stack.length + node.depth + 10 ≤ L.maxstack →
      descendant path node = some x → ∃ Lx, entered G path node L = some (x, Lx) := by
  induction path with
  | nil =>
    intro node L x _ _ h
    simp only [descendant, Option.some.injEq] at h
    subst h
    exact ⟨L, rfl⟩
  | cons i path ih =>
    intro node L x hv hfit h
    simp only [descendant] at h
    cases hc : node.children[i]? with
    | none => simp [hc] at h
    | some child =>
      simp only [hc] at h
      obtain ⟨hkind, hdepth, hvalid⟩ := children_of_getElem node child i hc
      rw [hvalid] at hv
      rw [hdepth] at hfit
      obtain ⟨s, c, m, p, n, g⟩ := L
      simp only at hfit
      have hmem : child ∈ node.children := List.getElem?_mem hc
      have hcv : child.valid = true := (valid_children_iff _).1 hv child hmem
      have hcd : child.depth + 1 ≤ depth_children node.children :=
        (depth_children_le_iff _ _).1 (Nat.le_refl _) child hmem
      have hpv : valid_children (node.children.take i) = true :=
        (valid_children_iff _).2 (fun c hc' => (valid_children_iff _).1 hv c
          (List.mem_of_mem_take hc'))
      have hpd : depth_children (node.children.take i) ≤ depth_children node.children :=
        (depth_children_le_iff _ _).2 (fun c hc' =>
          (depth_children_le_iff _ _).1 (Nat.le_refl _) c (List.mem_of_mem_take hc'))
      obtain ⟨t, k, j, hhead, _, _⟩ := node_head_apply G node hkind s c m p n g (by omega)
      obtain ⟨c', p', n', hpre⟩ := add_children_stack G (node.children.take i) 0 t s
        (max c (s.length + 10)) m (max p (s.length + k)) (n + j) g hpv (by omega)
      have hrun : (do node_head G node; add_children G (node.children.take i) 0 : LuaM Unit)
          ⟨s, c, m, p, n, g⟩ = .ok () ⟨.table (children_table G (node.children.take i) 0 t) :: s,
            c', m, p', n', g⟩ := by
        simp only [bind_apply, hhead, hpre]
      obtain ⟨Lx, hLx⟩ := ih child ⟨.table (children_table G (node.children.take i) 0 t) :: s,
        c', m, p', n', g⟩ x hcv (by simp only [List.length_cons]; omega) h
      exact ⟨Lx, by simp only [entered, hc, hrun, hLx]⟩

/-! ## Depth and stack use -/

mutual
theorem slots_le (node : GumboNode) : node.slots ≤ node.depth + 3 := by
  match node with
  | .document _ _ _ _ _ children =>
    have := slots_children_le children
    simp only [GumboNode.slots, GumboNode.depth]
    omega
  | .element _ _ attributes children =>
    have := slots_children_le children
    simp only [GumboNode.slots, GumboNode.depth]
    split <;> omega
  | .text _ => simp [GumboNode.slots]
  | .cdata _ => simp [GumboNode.slots]
  | .comment _ => simp [GumboNode.slots]
  | .whitespace _ => simp [GumboNode.slots]
  | .other _ => simp [GumboNode.slots]
theorem slots_children_le (children : List GumboNode) :
    slots_children children ≤ depth_children children + 3 := by
  match children with
  | [] => simp [slots_children]
  | child :: rest =>
    have h1 := slots_le child
    have h2 := slots_children_le rest
    simp only [slots_children, depth_children]
    omega
end

theorem descendant_depth (path : List Nat) :
    ∀ (node x : GumboNode), descendant path node = some x →
      path.length + x.depth ≤ node.depth := by
  induction path with
  | nil =>
    intro node x h
    simp only [descendant, Option.some.injEq] at h
    subst h
    simp
  | cons i path ih =>
    intro node x h
    simp only [descendant] at h
    cases hc : node.children[i]? with
    | none => simp [hc] at h
    | some child =>
      simp only [hc] at h
      obtain ⟨_, hdepth, _⟩ := children_of_getElem node child i hc
      have h1 := ih child x h
      have h2 : child.depth + 1 ≤ depth_children node.children :=
        (depth_children_le_iff _ _).1 (Nat.le_refl _) child (List.getElem?_mem hc)
      simp only [List.length_cons]
      omega

mutual
theorem exists_deepest (node : GumboNode) :
    ∃ path x, descendant path node = some x ∧ path.length = node.depth := by
  match node with
  | .document a b c d e children =>
    obtain ⟨path, x, h1, h2⟩ := exists_deepest_children children
    rcases h2 with ⟨hnil, hd⟩ | ⟨i, rest, child, hp, hc, hx, hd⟩
    · exact ⟨[], _, rfl, by simp [GumboNode.depth, hd]⟩
    · exact ⟨i :: rest, x, by simp [descendant, GumboNode.children, hc, hx],
        by simp [GumboNode.depth, hd]⟩
  | .element a b c children =>
    obtain ⟨path, x, h1, h2⟩ := exists_deepest_children children
    rcases h2 with ⟨hnil, hd⟩ | ⟨i, rest, child, hp, hc, hx, hd⟩
    · exact ⟨[], _, rfl, by simp [GumboNode.depth, hd]⟩
    · exact ⟨i :: rest, x, by simp [descendant, GumboNode.children, hc, hx],
        by simp [GumboNode.depth, hd]⟩
  | .text _ => exact ⟨[], _, rfl, rfl⟩
  | .cdata _ => exact ⟨[], _, rfl, rfl⟩
  | .comment _ => exact ⟨[], _, rfl, rfl⟩
  | .whitespace _ => exact ⟨[], _, rfl, rfl⟩
  | .other _ => exact ⟨[], _, rfl, rfl⟩
theorem exists_deepest_children (children : List GumboNode) :
    ∃ (path : List Nat) (x : GumboNode), True ∧
      ((children = [] ∧ depth_children children = 0) ∨
        ∃ i rest child, path = i :: rest ∧ children[i]? = some child ∧
          descendant rest child = some x ∧ depth_children children = rest.length + 1) := by
  match children with
  | [] => exact ⟨[], .other 0, trivial, Or.inl ⟨rfl, rfl⟩⟩
  | c :: cs =>
    by_cases hmax : depth_children cs ≤ c.depth + 1
    · obtain ⟨path, x, h1, h2⟩ := exists_deepest c
      exact ⟨0 :: path, x, trivial, Or.inr ⟨0, path, c, rfl, by simp, h1,
        by simp only [depth_children]; omega⟩⟩
    · obtain ⟨path, x, _, h2⟩ := exists_deepest_children cs
      rcases h2 with ⟨hnil, hd⟩ | ⟨i, rest, child, hp, hc, hx, hd⟩
      · omega
      · exact ⟨(i + 1) :: rest, x, trivial, Or.inr ⟨i + 1, rest, child, rfl, by simpa using hc, hx,
          by simp only [depth_children]; omega⟩⟩
end

theorem build_node_defined (G : GumboLibrary) (node : GumboNode) (L : lua_State) :
    build_node G node L ≠ .undefined := by
  obtain ⟨s, c, m, p, n, g⟩ := L
  by_cases hok : node.valid = true ∧ s.length + node.depth + 10 ≤ m
  · rw [build_node_ok G node s c m p n g hok.1 hok.2]
    exact fun h => Result.noConfusion h
  · have hbad : node.valid = false ∨ ¬ s.length + node.depth + 10 ≤ m := by
      by_cases hv : node.valid = true
      · exact Or.inr (fun hf => hok ⟨hv, hf⟩)
      · exact Or.inl (by simpa using hv)
    obtain ⟨msg, L1, hrun, _, _⟩ := build_node_fail G node s c m p n g hbad
    rw [hrun]
    exact fun h => Result.noConfusion h

theorem node_head_defined (G : GumboLibrary) (node : GumboNode) (L : lua_State) :
    node_head G node L ≠ .undefined := by
  obtain ⟨s, c, m, p, n, g⟩ := L
  by_cases hfit : s.length + 10 ≤ m
  · by_cases hkind : node.type = .GUMBO_NODE_DOCUMENT ∨ node.type = .GUMBO_NODE_ELEMENT
    · obtain ⟨t, k, j, hrun, _, _⟩ := node_head_apply G node hkind s c m p n g hfit
      rw [hrun]
      exact fun h => Result.noConfusion h
    · have hb : node_head G node = build_node G node := by
        cases node <;> first | rfl | exact absurd (by simp [GumboNode.type]) hkind
      rw [hb]
      exact build_node_defined G node _
  · rw [node_head_overflow G node s c m p n g hfit]
    exact fun h => Result.noConfusion h

theorem parse_defined (G : GumboLibrary) (input : String) (output : GumboOutput)
    (L : lua_State) (hparse : G.gumbo_parse_with_options input = some output) :
    parse G input L ≠ .undefined := by
  obtain ⟨s, c, m, p, n, g⟩ := L
  by_cases hok : output.document.valid = true ∧ s.length + output.document.depth + 10 ≤ m
  · obtain ⟨t, ht⟩ := value_eq_table G output.document hok.1
    rw [parse_ok G input output t s c m p n g hparse hok.1 hok.2 ht]
    exact fun h => Result.noConfusion h
  · have hbad : output.document.valid = false ∨
        ¬ s.length + output.document.depth + 10 ≤ m := by
      by_cases hv : output.document.valid = true
      · exact Or.inr (fun hf => hok ⟨hv, hf⟩)
      · exact Or.inl (by simpa using hv)
    obtain ⟨msg, L1, hrun, _, _⟩ := parse_fail G input output s c m p n g hparse hbad
    rw [hrun]
    exact fun h => Result.noConfusion h

theorem parse_peak (G : GumboLibrary) (input : String) (output : GumboOutput)
    (L L1 L' : lua_State) (k : Nat)
    (hparse : G.gumbo_parse_with_options input = some output)
    (hbuild : build_node G output.document L = .ok () L1)
    (hrun : parse G input L = .ok k L') :
    L'.peak = L1.peak ∧ L'.ci_top = L1.ci_top ∧ L.stack.length + 2 ≤ L1.peak ∧
      L.stack.length + 10 ≤ L1.ci_top := by
  obtain ⟨hv, hfit, hL1⟩ := build_node_inv G _ L L1 hbuild
  obtain ⟨s, c, m, p, n, g⟩ := L
  obtain ⟨t, ht⟩ := value_eq_table G output.document hv
  rw [parse_ok G input output t s c m p n g hparse hv hfit ht] at hrun
  injection hrun with _ hrun
  have h2 := two_le_slots output.document hv
  rw [← hrun, hL1]
  refine ⟨?_, ?_, ?_, ?_⟩
  · simp only
  · simp only
  · simp only [List.length]
    omega
  · simp only [List.length]
    omega

theorem add_children_defined (G : GumboLibrary) (children : List GumboNode) :
    ∀ (i : Nat) (L : lua_State) (t : Table) (s : List TValue), L.stack = .table t :: s →
      add_children G children i L ≠ .undefined := by
  induction children with
  | nil =>
    intro i L t s _ h
    simp only [add_children, pure_apply] at h
    exact Result.noConfusion h
  | cons child rest ih =>
    intro i L t s hs h
    simp only [add_children, bind_apply] at h
    cases hb : build_node G child L with
    | ok a L1 =>
      rw [hb] at h
      have hs1 : L1.stack = child.value G :: .table t :: s := by
        rw [build_node_stack G child L L1 hb, hs]
      obtain ⟨L2, h2, hs2⟩ := lua_rawseti_apply (i + 1) _ t L1 s hs1
      simp only [h2] at h
      exact ih (i + 1) L2 _ s hs2 h
    | error msg L1 =>
      rw [hb] at h
      exact Result.noConfusion h
    | undefined => exact build_node_defined G child L hb

theorem build_element_defined (G : GumboLibrary) (tag : GumboTag)
    (original_tag : GumboStringPiece) (attributes : List GumboAttribute)
    (children : List GumboNode) (L : lua_State) (hroom : L.stack.length + 3 ≤ L.ci_top) :
    build_element G tag original_tag attributes children L ≠ .undefined := by
  obtain ⟨s, c, m, p, n, g⟩ := L
  intro h
  simp only [build_element, bind_apply,
    build_element_head_apply G tag original_tag attributes children s c m p n g hroom] at h
  exact add_children_defined G children 0 _ _ s rfl h

theorem luaL_checkstack_inv (space : Nat) (mes : String) (L L0 : lua_State)
    (h : luaL_checkstack space mes L = .ok () L0) :
    L0.stack = L.stack ∧ L0.stack.length + space ≤ L0.ci_top ∧ L0.peak = L.peak := by
  obtain ⟨s, c, m, p, n, g⟩ := L
  by_cases hfit : s.length + space ≤ m
  · rw [luaL_checkstack_ok space mes s c m p n g hfit] at h
    injection h with _ h
    subst h
    exact ⟨rfl, by simp only; omega, rfl⟩
  · rw [luaL_checkstack_error space mes s c m p n g hfit] at h
    exact Result.noConfusion h

/-! ## The stores of `add_children` -/

/-- Counterexample to C2 as stated: the tree of
`<!DOCTYPE html><div class="a">x</div>`, a document with one child, returned
with the root index 2^32. The index `lua_rawgeti` receives is the `int` 1, so
the `root` field of the value `parse` returns is the table of the first child
and not nil, while the table has nothing under the index 2^32 + 1 and its
child sequence has no entry number 2^32. -/
theorem C2_root_linkage_counterexample :
    ∃ L' t, parse (sample_library (some ⟨sample_div, ⟨2 ^ 32⟩⟩))
        "<!DOCTYPE html><div class=\"a\">x</div>"
        (entry_state (.string "<!DOCTYPE html><div class=\"a\">x</div>")) = .ok 1 L' ∧
      L'.stack = [.table t, .string "<!DOCTYPE html><div class=\"a\">x</div>"] ∧
      Table.get t (.str "root") = .table sample_div_element ∧
      Table.get t (.int (2 ^ 32 + 1)) = .nil ∧
      (Table.sequence t).get? (2 ^ 32) = none ∧
      Table.get t (.str "root") ≠ Table.get t (.int (2 ^ 32 + 1)) := by
  have hidx : int_of_size_t (size_t_add (2 ^ 32) 1) = 1 := by decide
  have h := parse_ok (sample_library (some ⟨sample_div, ⟨2 ^ 32⟩⟩))
    "<!DOCTYPE html><div class=\"a\">x</div>" ⟨sample_div, ⟨2 ^ 32⟩⟩
    (sample_div_table.take 7)
    [.string "<!DOCTYPE html><div class=\"a\">x</div>"] 21 8000 1 0 [] rfl (by decide)
    (by decide) rfl
  rw [hidx] at h
  have ht : Table.set (sample_div_table.take 7) (.str "root")
      (Table.geti (sample_div_table.take 7) 1) = sample_div_table := rfl
  rw [ht] at h
  refine ⟨_, sample_div_table, h, rfl, rfl, ?_, ?_, ?_⟩
  · exact Table.get_of_not_mem _ _ (by decide)
  · exact List.get?_eq_none.mpr (by decide)
  · rw [Table.get_of_not_mem sample_div_table (.int (2 ^ 32 + 1)) (by decide)]
    exact fun h => TValue.noConfusion h

/-- C2, amended (root linkage): when the parser returns a tree whose document
node has valid kinds throughout, the stack has headroom for its depth, and
the root's index `k` among the document's children has `k + 1` below 2^31,
so that `lua_rawgeti` receives the index `k + 1`, `parse` returns one value,
a table whose `root` field equals its entry under the index `k + 1`. When the
document has a child number `k`, that field is not nil, it is entry number `k`
of the array part, and it is the value `build_node` pushes for that child. -/
theorem C2_root_linkage (G : GumboLibrary) (input : String) (output : GumboOutput)
    (L : lua_State)
    (hparse : G.gumbo_parse_with_options input = some output)
    (hdoc : output.document.type = .GUMBO_NODE_DOCUMENT)
    (hv : output.document.valid = true)
    (hfit : L.stack.length + output.document.depth + 10 ≤ L.maxstack)
    (hint : output.root.index_within_parent + 1 < 2 ^ 31) :
    ∃ L' t, parse G input L = .ok 1 L' ∧ L'.stack = .table t :: L.stack ∧
      Table.get t (.str "root") = Table.get t (.int (output.root.index_within_parent + 1)) ∧
      ∀ child, output.document.children.get? output.root.index_within_parent = some child →
        Table.get t (.str "root") ≠ .nil ∧
        (Table.sequence t).get? output.root.index_within_parent
          = some (.int (output.root.index_within_parent + 1), Table.get t (.str "root")) ∧
        (∃ Lc Lc', build_node G child Lc = .ok () Lc' ∧
          Lc'.stack = Table.get t (.str "root") :: Lc.stack) ∧
        (∀ Lc Lc', build_node G child Lc = .ok () Lc' →
          Lc'.stack = Table.get t (.str "root") :: Lc.stack) := by
  obtain ⟨s, c, m, p, n, g⟩ := L
  obtain ⟨head, hval, hkeys, hseq, hroot⟩ := value_parent G output.document (Or.inl hdoc) hv
  obtain ⟨h1, h2, h3⟩ := root_table head (child_entries G output.document.children 0)
    (output.root.index_within_parent + 1) hroot (str_not_mem_keys_child_entries _ _ _ _)
  have hrun := parse_ok G input output _ s c m p n g hparse hv hfit hval
  rw [Table.geti_root _ _ hint] at hrun
  refine ⟨_, _, hrun, rfl, ?_, ?_⟩
  · rw [h1, h2]
  · intro child hchild
    have hget : Table.get (head ++ child_entries G output.document.children 0)
        (.int (output.root.index_within_parent + 1)) = child.value G := by
      rw [Table.get_append_right]
      · have := get_child_entries G output.document.children 0 _ child hchild
        simpa using this
      · intro hmem
        obtain ⟨str, hstr⟩ := hkeys _ hmem
        exact Key.noConfusion hstr
    have hcv : child.valid = true :=
      valid_of_mem _ (valid_children_of_valid _ hv) child (List.get?_mem hchild)
    rw [h1, h3, hget]
    refine ⟨?_, ?_, ?_, ?_⟩
    · intro hnil
      have := value_isNil G child hcv
      rw [hnil] at this
      simp [TValue.isNil] at this
    · rw [Table.sequence_append, hseq, sequence_child_entries, List.nil_append,
        get?_child_entries G _ 0 _ child hchild]
      simp
    · exact ⟨⟨[], 0, child.depth + 10, 0, 0, []⟩, _,
        build_node_ok G child [] 0 (child.depth + 10) 0 0 [] hcv (by simp), rfl⟩
    · intro Lc Lc' hrun
      exact build_node_stack G child Lc Lc' hrun

/-- Witness of C2 on the tree of `<!-- c --><html>a<p>b</p></html>` with root
index 1: the document has two children and the `root` field is the second
entry of the array part, the table of the element, not that of the comment. -/
theorem C2_root_linkage_witness :
    (sample_library (some ⟨sample_comment, ⟨1⟩⟩)).gumbo_parse_with_options ""
      = some ⟨sample_comment, ⟨1⟩⟩ ∧
    sample_comment.type = .GUMBO_NODE_DOCUMENT ∧ sample_comment.valid = true ∧
    (entry_state (.string "")).stack.length + sample_comment.depth + 10
      ≤ (entry_state (.string "")).maxstack ∧
    (1 + 1 < 2 ^ 31) ∧
    ∃ L' t, parse (sample_library (some ⟨sample_comment, ⟨1⟩⟩)) ""
        (entry_state (.string "")) = .ok 1 L' ∧
      L'.stack = .table t :: (entry_state (.string "")).stack ∧
      Table.get t (.str "root") = Table.get t (.int 2) ∧
      Table.get t (.str "root") ≠ .nil ∧
      (Table.sequence t).get? 1 = some (.int 2, Table.get t (.str "root")) ∧
      Table.get t (.str "root")
        = .table [(.str "type", .string "element"), (.str "tag", .string "html"),
            (.int 1, .table [(.str "type", .string "text"), (.str "text", .string "a")]),
            (.int 2, .table [(.str "type", .string "element"), (.str "tag", .string "p"),
              (.int 1, .table [(.str "type", .string "text"), (.str "text", .string "b")])])] := by
  refine ⟨rfl, rfl, by decide, by decide, by decide, ?_⟩
  obtain ⟨L', t, h1, h2, h3, h4⟩ := C2_root_linkage (sample_library (some ⟨sample_comment, ⟨1⟩⟩))
    "" ⟨sample_comment, ⟨1⟩⟩ (entry_state (.string "")) rfl rfl (by decide) (by decide)
    (by decide)
  obtain ⟨hn, hs, _, hb⟩ := h4
    (.element (.known 0) "<html>" [] [.text "a", .element (.known 1) "<p>" [] [.text "b"]]) rfl
  have he := hb _ _ (build_node_ok (sample_library (some ⟨sample_comment, ⟨1⟩⟩))
    (.element (.known 0) "<html>" [] [.text "a", .element (.known 1) "<p>" [] [.text "b"]])
    [] 0 12 0 0 [] (by decide) (by decide))
  exact ⟨L', t, h1, h2, h3, hn, hs, (List.cons.inj he).1.symm⟩

/-- C3 (attribute presence): whenever `build_node` returns for an element
node, the table it has pushed has the key `attr` if and only if the element
has at least one attribute; with no attribute the key is absent and reads as
nil, with attributes the field is a table. The same holds of the table
`build_element` pushes, and `build_element` returns when it is run with the
room the check in `build_node` gives it, on an element whose children have
valid kinds and fit the stack. -/
theorem C3_attr_presence (G : GumboLibrary) (tag : GumboTag) (original_tag : GumboStringPiece)
    (attributes : List GumboAttribute) (children : List GumboNode) (L : lua_State) :
    (∀ L', build_node G (.element tag original_tag attributes children) L = .ok () L' →
      ∃ t, L'.stack = .table t :: L.stack ∧
        (Key.str "attr" ∈ Table.keys t ↔ attributes ≠ []) ∧
        (attributes = [] → Table.get t (.str "attr") = .nil) ∧
        (attributes ≠ [] → ∃ a, Table.get t (.str "attr") = .table a)) ∧
    (valid_children children = true → L.stack.length + 10 ≤ L.ci_top →
      L.stack.length + depth_children children + 10 ≤ L.maxstack →
      ∃ L' t, build_element G tag original_tag attributes children L = .ok () L' ∧
        L'.stack = .table t :: L.stack ∧
        (Key.str "attr" ∈ Table.keys t ↔ attributes ≠ []) ∧
        (attributes = [] → Table.get t (.str "attr") = .nil) ∧
        (attributes ≠ [] → ∃ a, Table.get t (.str "attr") = .table a)) := by
  constructor
  · intro L' hrun
    obtain ⟨h1, h2, h3⟩ := element_attr_presence G (tag_name G tag original_tag) attributes
      children _ rfl
    exact ⟨_, build_node_element_inv G tag original_tag attributes children L L' hrun, h1, h2,
      fun hne => ⟨_, h3 hne⟩⟩
  · intro hv hroom hfit
    obtain ⟨s, c, m, p, n, g⟩ := L
    obtain ⟨h1, h2, h3⟩ := element_attr_presence G (tag_name G tag original_tag) attributes
      children _ rfl
    exact ⟨_, _,
      build_element_ok G tag original_tag attributes children s c m p n g hv hroom hfit, rfl,
      h1, h2, fun hne => ⟨_, h3 hne⟩⟩

/-- Witness of C3 on `<div class="a">x</div>`, entered as the child of a
document. -/
theorem C3_attr_presence_witness :
    valid_children [GumboNode.text "x"] = true ∧
    2 + 10 ≤ 12 ∧ 2 + depth_children [GumboNode.text "x"] + 10 ≤ LUAI_MAXCSTACK ∧
    ∃ L' t, build_element (sample_library none) (.known 2) "<div class=\"a\">" [⟨"class", "a"⟩]
        [.text "x"] ⟨[.table [], .string ""], 12, LUAI_MAXCSTACK, 2, 1, []⟩ = .ok () L' ∧
      L'.stack = [.table t, .table [], .string ""] ∧
      (Key.str "attr" ∈ Table.keys t ↔ [GumboAttribute.mk "class" "a"] ≠ []) :=
  ⟨by decide, by decide, by decide,
    match (C3_attr_presence (sample_library none) (.known 2) "<div class=\"a\">"
        [⟨"class", "a"⟩] [.text "x"] ⟨[.table [], .string ""], 12, LUAI_MAXCSTACK, 2, 1, []⟩).2
        (by decide) (by decide) (by decide) with
    | ⟨L', t, h1, h2, h3, _⟩ => ⟨L', t, h1, h2, h3⟩⟩

/-- Counterexample to C4 as stated: for the tree of
`<!DOCTYPE html><div class="a">x</div>`, the value `parse` returns contains the
`attr` table of the `div` element, and that table has no `type` field. -/
theorem C4_type_field_counterexample :
    parse (sample_library (some ⟨sample_div, ⟨0⟩⟩)) "<!DOCTYPE html><div class=\"a\">x</div>"
        (entry_state (.string "<!DOCTYPE html><div class=\"a\">x</div>"))
      = .ok 1 ⟨[.table sample_div_table, .string "<!DOCTYPE html><div class=\"a\">x</div>"],
          21, 8000, 5, 4, [⟨sample_div, ⟨0⟩⟩]⟩ ∧
    Occurs skip_none [(.str "class", .string "a")] (.table sample_div_table) ∧
    Table.get [(.str "class", .string "a")] (.str "type") = .nil ∧
    Table.has_kind [(.str "class", .string "a")] = false := by
  refine ⟨parse_sample_div, ?_, by simp [Table.get], by simp [Table.has_kind, Table.get]⟩
  exact Occurs.inside (.int 1) (.table sample_div_element) _ _ (by simp [sample_div_table]) rfl
    (Occurs.inside (.str "attr") (.table [(.str "class", .string "a")]) _ _
      (by simp [sample_div_element]) rfl (Occurs.here _))

/-- C4, amended (type field): in the value `parse` returns on success, every
table other than the `attr` tables (every table reached from the document's
table without passing through a field `attr`) has a `type` field that holds
one of the six kind strings. -/
theorem C4_type_field (G : GumboLibrary) (input : String) (L L' : lua_State) (v : TValue)
    (rest : List TValue) (hrun : parse G input L = .ok 1 L') (hstack : L'.stack = v :: rest) :
    ∀ t, Occurs skip_attr t v → t.has_kind = true := by
  rcases parse_inv G input L L' 1 hrun with ⟨_, h2, _⟩ | ⟨output, t, _, _, hv, _, ht, hs, _⟩
  · simp at h2
  · rw [hs] at hstack
    injection hstack with h1 _
    subst h1
    apply root_kinds
    rw [← ht]
    exact value_kinds G output.document hv

/-- Witness of C4 on the tree of `<!DOCTYPE html><div class="a">x</div>`: the
table of the `div` element occurs in the returned value and has a kind. -/
theorem C4_type_field_witness :
    parse (sample_library (some ⟨sample_div, ⟨0⟩⟩)) "<!DOCTYPE html><div class=\"a\">x</div>"
        (entry_state (.string "<!DOCTYPE html><div class=\"a\">x</div>"))
      = .ok 1 ⟨[.table sample_div_table, .string "<!DOCTYPE html><div class=\"a\">x</div>"],
          21, 8000, 5, 4, [⟨sample_div, ⟨0⟩⟩]⟩ ∧
    Occurs skip_attr sample_div_element (.table sample_div_table) ∧
    Table.has_kind sample_div_element = true :=
  ⟨parse_sample_div,
    Occurs.inside (.int 1) (.table sample_div_element) _ _ (by simp [sample_div_table]) rfl
      (Occurs.here _),
    C4_type_field (sample_library (some ⟨sample_div, ⟨0⟩⟩))
      "<!DOCTYPE html><div class=\"a\">x</div>"
      (entry_state (.string "<!DOCTYPE html><div class=\"a\">x</div>")) _ _ _
      parse_sample_div rfl _
      (Occurs.inside (.int 1) (.table sample_div_element) _ _ (by simp [sample_div_table]) rfl
        (Occurs.here _))⟩

/-- Counterexample to C5 as stated: for a tree with a node of a kind outside
the six, `parse` raises the error "Invalid node type"; it does not return the
two values (nil, message). -/
theorem C5_failure_propagation_counterexample :
    sample_other.valid = false ∧
    (∃ L', parse (sample_library (some ⟨sample_other, ⟨0⟩⟩)) "<html><template>"
      (entry_state (.string "<html><template>")) = .error "Invalid node type" L') ∧
    ¬ ∃ L', parse (sample_library (some ⟨sample_other, ⟨0⟩⟩)) "<html><template>"
      (entry_state (.string "<html><template>")) = .ok 2 L' := by
  obtain ⟨L', hrun, _⟩ := parse_sample_other
  refine ⟨by decide, ⟨L', hrun⟩, ?_⟩
  rintro ⟨L2, h2⟩
  rw [hrun] at h2
  exact Result.noConfusion h2

/-- C5, amended (failure propagation): when the parser returns no tree, `parse`
returns the two values nil and "Failed to parse". When the tree has a node of
a kind outside the six or the stack lacks headroom for its depth, `parse` does
not return: `build_node` raises a Lua error, and `parse` ends with it. The
error is "Invalid node type" when a kind is outside the six and the headroom
suffices, it is the error of the headroom check,
"stack overflow (element nesting too deep)", when all kinds are among the six,
and it is one of the two in every case. Whenever `parse` returns, it returns
either those two values or one value, the table `build_node` built for the
whole document with the field `root` added: never a partial tree. -/
theorem C5_failure_propagation (G : GumboLibrary) (input : String) (L : lua_State) :
    (G.gumbo_parse_with_options input = none → L.stack.length + 2 ≤ L.ci_top →
      ∃ L', parse G input L = .ok 2 L' ∧
        L'.stack = .string "Failed to parse" :: .nil :: L.stack) ∧
    (∀ output, G.gumbo_parse_with_options input = some output →
      (output.document.valid = false ∨
        ¬ L.stack.length + output.document.depth + 10 ≤ L.maxstack) →
      (∃ msg L', parse G input L = .error msg L' ∧
        build_node G output.document L = .error msg L' ∧
        (msg = "Invalid node type" ∨ msg = "stack overflow (element nesting too deep)") ∧
        (output.document.valid = false →
          L.stack.length + output.document.depth + 10 ≤ L.maxstack →
          msg = "Invalid node type") ∧
        (output.document.valid = true →
          msg = "stack overflow (element nesting too deep)")) ∧
      ¬ ∃ k L', parse G input L = .ok k L') ∧
    (∀ k L', parse G input L = .ok k L' →
      (k = 2 ∧ G.gumbo_parse_with_options input = none ∧
        L'.stack = .string "Failed to parse" :: .nil :: L.stack) ∨
      (k = 1 ∧ ∃ output L1 t, G.gumbo_parse_with_options input = some output ∧
        output.document.valid = true ∧
        L.stack.length + output.document.depth + 10 ≤ L.maxstack ∧
        build_node G output.document L = .ok () L1 ∧ L1.stack = .table t :: L.stack ∧
        L'.stack = .table (Table.set t (.str "root")
          (Table.geti t (int_of_size_t (size_t_add output.root.index_within_parent 1))))
            :: L.stack)) := by
  refine ⟨?_, ?_, ?_⟩
  · intro hnone hroom
    obtain ⟨s, c, m, p, n, g⟩ := L
    exact ⟨_, parse_none G input s c m p n g hnone hroom, rfl⟩
  · intro output hsome hbad
    obtain ⟨s, c, m, p, n, g⟩ := L
    obtain ⟨msg, L', hrun, _, hmsg⟩ := build_node_fail G output.document s c m p n g hbad
    have hparse : parse G input ⟨s, c, m, p, n, g⟩ = .error msg L' := by
      simp only [parse, hsome, bind_apply, hrun]
    refine ⟨⟨msg, L', hparse, hrun, hmsg.imp (fun h => h.1) (fun h => h.1), ?_, ?_⟩, ?_⟩
    · intro _ hfit
      rcases hmsg with ⟨h1, _⟩ | ⟨_, h2⟩
      · exact h1
      · exact absurd hfit h2
    · intro hv
      rcases hmsg with ⟨_, h2⟩ | ⟨h1, _⟩
      · rw [hv] at h2
        exact Bool.noConfusion h2
      · exact h1
    · rintro ⟨k, L2, hk⟩
      rw [hparse] at hk
      exact Result.noConfusion hk
  · intro k L' hrun
    obtain ⟨s, c, m, p, n, g⟩ := L
    rcases parse_inv G input _ L' k hrun with
      ⟨h1, h2, h3, _⟩ | ⟨output, t, h1, h2, hv, hfit, ht, hs, _⟩
    · exact Or.inl ⟨h2, h1, h3⟩
    · exact Or.inr ⟨h2, output, _, t, h1, hv, hfit,
        build_node_ok G output.document s c m p n g hv hfit, by simp [ht], hs⟩

/-- Witness of C5: the three cases on sample inputs. -/
theorem C5_failure_propagation_witness :
    (∃ L', parse (sample_library none) "" (entry_state (.string "")) = .ok 2 L' ∧
      L'.stack = [.string "Failed to parse", .nil, .string ""]) ∧
    (∃ L', parse (sample_library (some ⟨sample_other, ⟨0⟩⟩)) "<html><template>"
        (entry_state (.string "<html><template>")) = .error "Invalid node type" L') ∧
    (∃ output L1 t,
      (sample_library (some ⟨sample_div, ⟨0⟩⟩)).gumbo_parse_with_options
        "<!DOCTYPE html><div class=\"a\">x</div>" = some output ∧
      build_node (sample_library (some ⟨sample_div, ⟨0⟩⟩)) output.document
        (entry_state (.string "<!DOCTYPE html><div class=\"a\">x</div>")) = .ok () L1 ∧
      L1.stack = [.table t, .string "<!DOCTYPE html><div class=\"a\">x</div>"] ∧
      ([.table sample_div_table, .string "<!DOCTYPE html><div class=\"a\">x</div>"] :
          List TValue)
        = [.table (Table.set t (.str "root")
            (Table.geti t (int_of_size_t (size_t_add output.root.index_within_parent 1)))),
           .string "<!DOCTYPE html><div class=\"a\">x</div>"]) :=
  ⟨(C5_failure_propagation (sample_library none) "" (entry_state (.string ""))).1 rfl
      (by decide),
    match ((C5_failure_propagation (sample_library (some ⟨sample_other, ⟨0⟩⟩))
      "<html><template>" (entry_state (.string "<html><template>"))).2.1
      ⟨sample_other, ⟨0⟩⟩ rfl (Or.inl (by decide))).1 with
    | ⟨_, L', h, _, _, hA, _⟩ => ⟨L', (hA (by decide) (by decide)) ▸ h⟩,
    match (C5_failure_propagation (sample_library (some ⟨sample_div, ⟨0⟩⟩))
      "<!DOCTYPE html><div class=\"a\">x</div>"
      (entry_state (.string "<!DOCTYPE html><div class=\"a\">x</div>"))).2.2 1 _
      parse_sample_div with
    | Or.inl h => absurd h.1 (by decide)
    | Or.inr ⟨_, output, L1, t, h1, _, _, h4, h5, h6⟩ => ⟨output, L1, t, h1, h4, h5, h6⟩⟩

/-- Counterexample to C6 as stated: a document with 7989 nested `div` elements
around a node of a kind outside the six, built from the state in which Lua 5.1
enters a C function. The tree has a node of invalid kind, yet `build_node`
fails with the stack overflow error, not with "Invalid node type": the check
of the stack on entry to the innermost node fails first. -/
theorem C6_invalid_node_kind_counterexample :
    (nested_document 7989 (.other 6)).valid = false ∧
    (∃ L', build_node (sample_library none) (nested_document 7989 (.other 6))
      (entry_state (.string "")) = .error "stack overflow (element nesting too deep)" L') ∧
    ¬ ∃ L', build_node (sample_library none) (nested_document 7989 (.other 6))
      (entry_state (.string "")) = .error "Invalid node type" L' := by
  have hrun : ∃ L', build_node (sample_library none) (nested_document 7989 (.other 6))
      (entry_state (.string "")) = .error "stack overflow (element nesting too deep)" L' := by
    apply build_node_nested_document_error (sample_library none) (.other 6) _ 8000 [] 7989
      [.string ""] 21 1 0 (by simp)
    intro s' c' p' k' hs'
    refine ⟨_, build_node_overflow _ _ s' c' 8000 p' k' [] ?_⟩
    simp only [List.length_cons, List.length_nil] at hs'
    omega
  refine ⟨?_, hrun, ?_⟩
  · rw [valid_nested_document]
    rfl
  · rintro ⟨L2, h2⟩
    obtain ⟨L1, h1⟩ := hrun
    rw [h1] at h2
    injection h2 with hmsg _
    exact absurd hmsg (by decide)

/-- C6, amended (invalid node kind): if some node of the tree has a kind
outside the six and the stack has headroom for the nesting depth of the tree,
`build_node` fails with the error "Invalid node type", and so does `parse`.
Without that headroom it still fails, with one of the two errors, so no value
is produced for such a tree. Conversely, when every node has one of the six
kinds, `build_node` never raises "Invalid node type". -/
theorem C6_invalid_node_kind (G : GumboLibrary) (node : GumboNode) (L : lua_State) :
    (node.valid = false → L.stack.length + node.depth + 10 ≤ L.maxstack →
      (∃ L', build_node G node L = .error "Invalid node type" L') ∧
      (∀ input root, G.gumbo_parse_with_options input = some ⟨node, root⟩ →
        ∃ L', parse G input L = .error "Invalid node type" L')) ∧
    (node.valid = false →
      ∃ msg L', build_node G node L = .error msg L' ∧
        (msg = "Invalid node type" ∨ msg = "stack overflow (element nesting too deep)")) ∧
    (node.valid = true → ∀ L', build_node G node L ≠ .error "Invalid node type" L') := by
  obtain ⟨s, c, m, p, n, g⟩ := L
  refine ⟨?_, ?_, ?_⟩
  · intro hv hfit
    constructor
    · obtain ⟨msg, L', hrun, _, hmsg⟩ := build_node_fail G node s c m p n g (Or.inl hv)
      rcases hmsg with ⟨h1, _⟩ | ⟨_, h2⟩
      · exact ⟨L', h1 ▸ hrun⟩
      · exact absurd hfit h2
    · intro input root hparse
      obtain ⟨msg, L', hrun, _, hmsg⟩ :=
        parse_fail G input ⟨node, root⟩ s c m p n g hparse (Or.inl hv)
      rcases hmsg with ⟨h1, _⟩ | ⟨_, h2⟩
      · exact ⟨L', h1 ▸ hrun⟩
      · exact absurd hfit h2
  · intro hv
    obtain ⟨msg, L', hrun, _, hmsg⟩ := build_node_fail G node s c m p n g (Or.inl hv)
    exact ⟨msg, L', hrun, hmsg.imp (fun h => h.1) (fun h => h.1)⟩
  · intro hv L' hrun
    by_cases hfit : s.length + node.depth + 10 ≤ m
    · rw [build_node_ok G node s c m p n g hv hfit] at hrun
      exact Result.noConfusion hrun
    · obtain ⟨msg, L1, hrun1, _, hmsg⟩ := build_node_fail G node s c m p n g (Or.inr hfit)
      rw [hrun1] at hrun
      injection hrun with h1 _
      rcases hmsg with ⟨_, h2⟩ | ⟨h2, _⟩
      · rw [hv] at h2
        exact Bool.noConfusion h2
      · rw [h2] at h1
        exact absurd h1 (by decide)

/-- Witness of C6: a tree with a node of invalid kind, and a tree of valid
kinds, from the state in which a C function is entered. -/
theorem C6_invalid_node_kind_witness :
    sample_other.valid = false ∧
    (entry_state (.string "<html><template>")).stack.length + sample_other.depth + 10
      ≤ (entry_state (.string "<html><template>")).maxstack ∧
    (∃ L', build_node (sample_library none) sample_other
      (entry_state (.string "<html><template>")) = .error "Invalid node type" L') ∧
    sample_p.valid = true ∧
    (∀ L', build_node (sample_library none) sample_p
      (entry_state (.string "<html><p>hi</p></html>")) ≠ .error "Invalid node type" L') :=
  ⟨by decide, by decide,
    ((C6_invalid_node_kind (sample_library none) sample_other
      (entry_state (.string "<html><template>"))).1 (by decide) (by decide)).1,
    by decide,
    (C6_invalid_node_kind (sample_library none) sample_p
      (entry_state (.string "<html><p>hi</p></html>"))).2.2 (by decide)⟩

/-- C7 (resource release), evaluated where the code departs from the claim:
for a document of 7989 nested `div` elements around a text, from the state in
which Lua 5.1 enters a C function, and for a tree with a node of invalid kind,
the parser returns a tree and `parse` ends by a raised error without a call of
`gumbo_destroy_output`. When the projection succeeds, the tree is released
once. -/
theorem C7_tree_not_released_on_error :
    (∃ L', parse (sample_library (some ⟨nested_document 7989 (.text "x"), ⟨0⟩⟩)) ""
        (entry_state (.string "")) = .error "stack overflow (element nesting too deep)" L' ∧
      L'.gumbo_destroyed = []) ∧
    (∃ L', parse (sample_library (some ⟨sample_other, ⟨0⟩⟩)) "<html><template>"
        (entry_state (.string "<html><template>")) = .error "Invalid node type" L' ∧
      L'.gumbo_destroyed = []) ∧
    (∃ L', parse (sample_library (some ⟨sample_div, ⟨0⟩⟩))
        "<!DOCTYPE html><div class=\"a\">x</div>"
        (entry_state (.string "<!DOCTYPE html><div class=\"a\">x</div>")) = .ok 1 L' ∧
      L'.gumbo_destroyed = [⟨sample_div, ⟨0⟩⟩]) := by
  refine ⟨?_, parse_sample_other, ⟨_, parse_sample_div, rfl⟩⟩
  have hvalid : (nested_document 7989 (.text "x")).valid = true := by
    rw [valid_nested_document]
    rfl
  have hdepth : (nested_document 7989 (.text "x")).depth = 7990 := by
    rw [depth_nested_document]
    rfl
  have hfit : ¬ [TValue.string ""].length + (nested_document 7989 (.text "x")).depth + 10
      ≤ 8000 := by
    rw [hdepth]
    decide
  exact parse_too_deep (sample_library (some ⟨nested_document 7989 (.text "x"), ⟨0⟩⟩)) ""
    (nested_document 7989 (.text "x")) ⟨0⟩ [.string ""] 21 8000 1 0 []
    (sample_library_parse _ _) hvalid hfit

/-- C8 (attribute content): whenever `build_node` returns for an element node
with at least one attribute, the table it has pushed holds under `attr` a
table whose keys are exactly the names of the attributes, each once, and which
maps each name to the value of the last attribute of that name in source
order; for the single attribute `class="a"` this table is `{class = "a"}`.
The same holds of the table `build_element` pushes, and `build_element`
returns when it is run with the room the check in `build_node` gives it, on
an element whose children have valid kinds and fit the stack. -/
theorem C8_attr_content (G : GumboLibrary) (tag : GumboTag) (original_tag : GumboStringPiece)
    (attributes : List GumboAttribute) (children : List GumboNode) (L : lua_State)
    (hne : attributes ≠ []) :
    (∀ L', build_node G (.element tag original_tag attributes children) L = .ok () L' →
      ∃ t a, L'.stack = .table t :: L.stack ∧ Table.get t (.str "attr") = .table a ∧
        (∀ k, k ∈ Table.keys a ↔ ∃ attr ∈ attributes, k = .str attr.name) ∧
        (Table.keys a).Nodup ∧
        (∀ pre attr post, attributes = pre ++ attr :: post →
          (∀ b ∈ post, b.name ≠ attr.name) →
          Table.get a (.str attr.name) = .string attr.value) ∧
        (attributes = [⟨"class", "a"⟩] → a = [(.str "class", .string "a")])) ∧
    (valid_children children = true → L.stack.length + 10 ≤ L.ci_top →
      L.stack.length + depth_children children + 10 ≤ L.maxstack →
      ∃ L' t a, build_element G tag original_tag attributes children L = .ok () L' ∧
        L'.stack = .table t :: L.stack ∧ Table.get t (.str "attr") = .table a ∧
        (∀ k, k ∈ Table.keys a ↔ ∃ attr ∈ attributes, k = .str attr.name) ∧
        (Table.keys a).Nodup ∧
        (∀ pre attr post, attributes = pre ++ attr :: post →
          (∀ b ∈ post, b.name ≠ attr.name) →
          Table.get a (.str attr.name) = .string attr.value) ∧
        (attributes = [⟨"class", "a"⟩] → a = [(.str "class", .string "a")])) := by
  obtain ⟨_, _, h3⟩ := element_attr_presence G (tag_name G tag original_tag) attributes
    children _ rfl
  obtain ⟨c1, c2, c3, c4⟩ := attr_table_content attributes
  constructor
  · intro L' hrun
    exact ⟨_, _, build_node_element_inv G tag original_tag attributes children L L' hrun,
      h3 hne, c1, c2, c3, c4⟩
  · intro hv hroom hfit
    obtain ⟨s, c, m, p, n, g⟩ := L
    exact ⟨_, _, _,
      build_element_ok G tag original_tag attributes children s c m p n g hv hroom hfit, rfl,
      h3 hne, c1, c2, c3, c4⟩

/-- Witness of C8 on `<div class="a">x</div>`, entered as the child of a
document. -/
theorem C8_attr_content_witness :
    [GumboAttribute.mk "class" "a"] ≠ [] ∧ valid_children [GumboNode.text "x"] = true ∧
    2 + 10 ≤ 12 ∧ 2 + depth_children [GumboNode.text "x"] + 10 ≤ LUAI_MAXCSTACK ∧
    ∃ L' t a, build_element (sample_library none) (.known 2) "<div class=\"a\">"
        [⟨"class", "a"⟩] [.text "x"] ⟨[.table [], .string ""], 12, LUAI_MAXCSTACK, 2, 1, []⟩
        = .ok () L' ∧
      L'.stack = [.table t, .table [], .string ""] ∧ Table.get t (.str "attr") = .table a ∧
      a = [(.str "class", .string "a")] :=
  ⟨by decide, by decide, by decide, by decide,
    match (C8_attr_content (sample_library none) (.known 2) "<div class=\"a\">"
        [⟨"class", "a"⟩] [.text "x"] ⟨[.table [], .string ""], 12, LUAI_MAXCSTACK, 2, 1, []⟩
        (by decide)).2 (by decide) (by decide) (by decide) with
    | ⟨L', t, a, h1, h2, h3, _, _, _, h7⟩ => ⟨L', t, a, h1, h2, h3, h7 rfl⟩⟩

/-- C9 (leaf projection): for a node of kind Text, Comment, CData or
Whitespace with payload `s`, whenever `build_node` returns it has pushed a
table with exactly the two fields `type`, the name of the kind, and `text`,
equal to `s`; the table has no array part and it is the only table created.
With ten free slots below the limit of the stack, `build_node` returns. -/
theorem C9_leaf_projection (G : GumboLibrary) (node : GumboNode) (kind s : String)
    (L : lua_State)
    (hnode : (node, kind) ∈ [(GumboNode.text s, "text"), (GumboNode.comment s, "comment"),
      (GumboNode.cdata s, "cdata"), (GumboNode.whitespace s, "whitespace")]) :
    (∀ L', build_node G node L = .ok () L' →
      L'.stack = .table [(.str "type", .string kind), (.str "text", .string s)] :: L.stack ∧
      Table.sequence [(.str "type", .string kind), (.str "text", .string s)] = [] ∧
      L'.ntables = L.ntables + 1) ∧
    (L.stack.length + 10 ≤ L.maxstack → ∃ L', build_node G node L = .ok () L') := by
  have hleaf : node.valid = true ∧ node.depth = 0 ∧ node.tables = 1 ∧
      node.value G = .table [(.str "type", .string kind), (.str "text", .string s)] := by
    simp only [List.mem_cons, Prod.mk.injEq, List.mem_singleton, List.not_mem_nil, or_false]
      at hnode
    rcases hnode with ⟨rfl, rfl⟩ | ⟨rfl, rfl⟩ | ⟨rfl, rfl⟩ | ⟨rfl, rfl⟩ <;>
      exact ⟨rfl, rfl, rfl, rfl⟩
  obtain ⟨hv, hd, ht, hval⟩ := hleaf
  constructor
  · intro L' hrun
    obtain ⟨_, _, hL'⟩ := build_node_inv G node L L' hrun
    rw [hL']
    simp [hval, ht, Table.sequence]
  · intro hroom
    obtain ⟨st, c, m, p, n, g⟩ := L
    exact ⟨_, build_node_ok G node st c m p n g hv (by simpa [hd] using hroom)⟩

/-- Witness of C9 on a comment node. -/
theorem C9_leaf_projection_witness :
    (entry_state (.string "<!--c-->")).stack.length + 10
      ≤ (entry_state (.string "<!--c-->")).maxstack ∧
    ∃ L', build_node (sample_library none) (.comment "c") (entry_state (.string "<!--c-->"))
        = .ok () L' ∧
      L'.stack = [.table [(.str "type", .string "comment"), (.str "text", .string "c")],
        .string "<!--c-->"] ∧
      L'.ntables = 1 :=
  ⟨by decide,
    match (C9_leaf_projection (sample_library none) (.comment "c") "comment" "c"
        (entry_state (.string "<!--c-->")) (by simp)).2 (by decide) with
    | ⟨L', h⟩ =>
      ⟨L', h,
        ((C9_leaf_projection (sample_library none) (.comment "c") "comment" "c"
          (entry_state (.string "<!--c-->")) (by simp)).1 L' h).1,
        ((C9_leaf_projection (sample_library none) (.comment "c") "comment" "c"
          (entry_state (.string "<!--c-->")) (by simp)).1 L' h).2.2⟩⟩

/-- C11 (tag name resolution): whenever `build_node` returns for an element
node, the field `tag` of the table it has pushed is, for the unknown
sentinel, the piece `gumbo_tag_from_original_text` makes of the element's
`original_tag`, and for a known tag the name `gumbo_normalized_tagname` gives
it; in the second case an element that differs only in its `original_tag`
gets the same `tag` field. The same two equations hold of the table
`build_element` pushes, and `build_element` returns when it is run with the
room the check in `build_node` gives it, on an element whose children have
valid kinds and fit the stack. -/
theorem C11_tag_name_resolution (G : GumboLibrary) (tag : GumboTag)
    (original_tag : GumboStringPiece) (attributes : List GumboAttribute)
    (children : List GumboNode) (L : lua_State) :
    (∀ L', build_node G (.element tag original_tag attributes children) L = .ok () L' →
      ∃ t, L'.stack = .table t :: L.stack ∧
        (tag = .GUMBO_TAG_UNKNOWN →
          Table.get t (.str "tag") = .string (G.gumbo_tag_from_original_text original_tag)) ∧
        (tag ≠ .GUMBO_TAG_UNKNOWN →
          Table.get t (.str "tag") = .string (G.gumbo_normalized_tagname tag) ∧
          ∀ other_text L2 L2',
            build_node G (.element tag other_text attributes children) L2 = .ok () L2' →
            ∃ t2, L2'.stack = .table t2 :: L2.stack ∧
              Table.get t2 (.str "tag") = Table.get t (.str "tag"))) ∧
    (valid_children children = true → L.stack.length + 10 ≤ L.ci_top →
      L.stack.length + depth_children children + 10 ≤ L.maxstack →
      ∃ L' t, build_element G tag original_tag attributes children L = .ok () L' ∧
        L'.stack = .table t :: L.stack ∧
        (tag = .GUMBO_TAG_UNKNOWN →
          Table.get t (.str "tag") = .string (G.gumbo_tag_from_original_text original_tag)) ∧
        (tag ≠ .GUMBO_TAG_UNKNOWN →
          Table.get t (.str "tag") = .string (G.gumbo_normalized_tagname tag))) := by
  constructor
  · intro L' hrun
    refine ⟨_, build_node_element_inv G tag original_tag attributes children L L' hrun, ?_, ?_⟩
    · intro hu
      rw [List.append_assoc, element_tag_field, hu, tag_name_unknown]
    · intro hk
      refine ⟨by rw [List.append_assoc, element_tag_field, tag_name_known G tag _ hk], ?_⟩
      intro other_text L2 L2' hrun2
      refine ⟨_, build_node_element_inv G tag other_text attributes children L2 L2' hrun2, ?_⟩
      rw [List.append_assoc, element_tag_field, List.append_assoc, element_tag_field,
        tag_name_known G tag _ hk, tag_name_known G tag _ hk]
  · intro hv hroom hfit
    obtain ⟨s, c, m, p, n, g⟩ := L
    refine ⟨_, _,
      build_element_ok G tag original_tag attributes children s c m p n g hv hroom hfit, rfl,
      ?_, ?_⟩
    · intro hu
      rw [List.append_assoc, element_tag_field, hu, tag_name_unknown]
    · intro hk
      rw [List.append_assoc, element_tag_field, tag_name_known G tag _ hk]

/-- Witness of C11 on `<div class="a">x</div>` and on an element of unknown
tag `<foo>`, each entered as the child of a document. -/
theorem C11_tag_name_resolution_witness :
    valid_children [GumboNode.text "x"] = true ∧
    2 + 10 ≤ 12 ∧ 2 + depth_children [GumboNode.text "x"] + 10 ≤ LUAI_MAXCSTACK ∧
    (∃ L' t, build_element (sample_library none) (.known 2) "<div class=\"a\">"
        [⟨"class", "a"⟩] [.text "x"] ⟨[.table [], .string ""], 12, LUAI_MAXCSTACK, 2, 1, []⟩
        = .ok () L' ∧
      L'.stack = [.table t, .table [], .string ""] ∧
      Table.get t (.str "tag") = .string "div") ∧
    (∃ L' t, build_element (sample_library none) .GUMBO_TAG_UNKNOWN "<foo>" [] [.text "x"]
        ⟨[.table [], .string ""], 12, LUAI_MAXCSTACK, 2, 1, []⟩ = .ok () L' ∧
      L'.stack = [.table t, .table [], .string ""] ∧
      Table.get t (.str "tag")
        = .string ((sample_library none).gumbo_tag_from_original_text "<foo>")) :=
  ⟨by decide, by decide, by decide,
    match (C11_tag_name_resolution (sample_library none) (.known 2) "<div class=\"a\">"
        [⟨"class", "a"⟩] [.text "x"] ⟨[.table [], .string ""], 12, LUAI_MAXCSTACK, 2, 1, []⟩).2
        (by decide) (by decide) (by decide) with
    | ⟨L', t, h1, h2, _, h4⟩ => ⟨L', t, h1, h2, h4 (by decide)⟩,
    match (C11_tag_name_resolution (sample_library none) .GUMBO_TAG_UNKNOWN "<foo>" []
        [.text "x"] ⟨[.table [], .string ""], 12, LUAI_MAXCSTACK, 2, 1, []⟩).2
        (by decide) (by decide) (by decide) with
    | ⟨L', t, h1, h2, h3, _⟩ => ⟨L', t, h1, h2, h3 rfl⟩⟩

/-- C12 (parse failure): from a state with two free stack slots, which Lua
guarantees a C function, `parse` returns the two results nil and
"Failed to parse" if and only if the parser returns no tree. In that case the
run of `parse` is the two pushes and the return alone, with no call of
`build_node`, and whenever it returns no table has been created and nothing
has been released. -/
theorem C12_parse_failure (G : GumboLibrary) (input : String) (L : lua_State)
    (hroom : L.stack.length + 2 ≤ L.ci_top) :
    ((∃ L', parse G input L = .ok 2 L' ∧
        L'.stack = .string "Failed to parse" :: .nil :: L.stack) ↔
      G.gumbo_parse_with_options input = none) ∧
    (G.gumbo_parse_with_options input = none →
      parse G input = (do
        lua_pushnil
        lua_pushliteral "Failed to parse"
        return 2) ∧
      ∀ k L', parse G input L = .ok k L' →
        k = 2 ∧ L'.stack = .string "Failed to parse" :: .nil :: L.stack ∧
        L'.ntables = L.ntables ∧ L'.gumbo_destroyed = L.gumbo_destroyed) := by
  refine ⟨⟨?_, ?_⟩, ?_⟩
  · rintro ⟨L', hrun, _⟩
    rcases parse_inv G input L L' 2 hrun with ⟨h1, _⟩ | ⟨_, _, _, h2, _⟩
    · exact h1
    · simp at h2
  · intro hnone
    obtain ⟨s, c, m, p, n, g⟩ := L
    exact ⟨_, parse_none G input s c m p n g hnone hroom, rfl⟩
  · intro hnone
    refine ⟨parse_none_program G input hnone, ?_⟩
    intro k L' hrun
    obtain ⟨h1, _, h3⟩ := parse_none_inv G input L L' k hnone hrun
    rw [h3]
    exact ⟨h1, rfl, rfl, rfl⟩

/-- Witness of C12 from the state in which a C function is entered. -/
theorem C12_parse_failure_witness :
    (entry_state (.string "")).stack.length + 2 ≤ (entry_state (.string "")).ci_top ∧
    (sample_library none).gumbo_parse_with_options "" = none ∧
    ∃ L', parse (sample_library none) "" (entry_state (.string "")) = .ok 2 L' ∧
      L'.stack = [.string "Failed to parse", .nil, .string ""] :=
  ⟨by decide, rfl,
    (C12_parse_failure (sample_library none) "" (entry_state (.string "")) (by decide)).1.2 rfl⟩

/-- C15 (root attachment frame): for a document of valid kinds with headroom,
`build_node` pushes a table without the key `root`, and `parse` returns the
table obtained from it by storing under `root` what `lua_rawgeti` reads in
that table at the index it is given for the root. What is read is nil or the
value of an entry of the built table under an integer key; it is the entry
under `k + 1` when the root's index `k` has `k + 1` below 2^31, the value
`build_node` pushes for the child `k` when there is one. Every other key has
the same value in both tables, the array part is the same, the returned table
is the built one or the built one with the one entry `root` appended, and
`parse` creates no table beyond those of `build_node`. -/
theorem C15_root_attachment_frame (G : GumboLibrary) (input : String) (output : GumboOutput)
    (L : lua_State)
    (hparse : G.gumbo_parse_with_options input = some output)
    (hdoc : output.document.type = .GUMBO_NODE_DOCUMENT)
    (hv : output.document.valid = true)
    (hfit : L.stack.length + output.document.depth + 10 ≤ L.maxstack) :
    ∃ L1 L' t t' v, build_node G output.document L = .ok () L1 ∧
      L1.stack = .table t :: L.stack ∧ Key.str "root" ∉ Table.keys t ∧
      parse G input L = .ok 1 L' ∧ L'.stack = .table t' :: L.stack ∧
      v = Table.geti t (int_of_size_t (size_t_add output.root.index_within_parent 1)) ∧
      t' = Table.set t (.str "root") v ∧
      (v = .nil ∨ ∃ j, (Key.int j, v) ∈ Table.sequence t) ∧
      (output.root.index_within_parent + 1 < 2 ^ 31 →
        v = Table.get t (.int (output.root.index_within_parent + 1)) ∧
        ∀ child, output.document.children.get? output.root.index_within_parent = some child →
          ∀ Lc Lc', build_node G child Lc = .ok () Lc' → Lc'.stack = v :: Lc.stack) ∧
      (t' = t ∨ t' = t ++ [(.str "root", v)]) ∧
      Table.get t' (.str "root") = v ∧
      (∀ k, k ≠ .str "root" → Table.get t' k = Table.get t k) ∧
      Table.sequence t' = Table.sequence t ∧
      L'.ntables = L1.ntables := by
  obtain ⟨s, c, m, p, n, g⟩ := L
  obtain ⟨t, hval, hroot, _, hchild⟩ := document_table G output.document hdoc hv
  refine ⟨_, _, t, _, _, build_node_ok G output.document s c m p n g hv hfit, by simp [hval],
    hroot, parse_ok G input output t s c m p n g hparse hv hfit hval, rfl, rfl, rfl,
    ?_, ?_, ?_, Table.get_set_self _ _ _ hroot, ?_, ?_, rfl⟩
  · rcases Table.geti_cases t
      (int_of_size_t (size_t_add output.root.index_within_parent 1)) with h | ⟨j, _, h⟩
    · exact Or.inl h
    · rw [h]
      rcases Table.get_mem t (.int j) with hnil | hmem
      · exact Or.inl hnil
      · exact Or.inr ⟨j, by simpa [Table.sequence] using hmem⟩
  · intro hint
    rw [Table.geti_root _ _ hint]
    refine ⟨rfl, ?_⟩
    intro child hc Lc Lc' hrun
    rw [hchild _ child hc]
    exact build_node_stack G child Lc Lc' hrun
  · rcases Table.set_new_cases t (.str "root")
      (Table.geti t (int_of_size_t (size_t_add output.root.index_within_parent 1))) hroot
      with ⟨_, h⟩ | ⟨_, h⟩
    · exact Or.inl h
    · exact Or.inr h
  · intro k hk
    exact Table.get_set_ne _ _ _ _ (fun h => hk h.symm)
  · rcases Table.set_new_cases t (.str "root")
      (Table.geti t (int_of_size_t (size_t_add output.root.index_within_parent 1))) hroot
      with ⟨_, h⟩ | ⟨_, h⟩
    · rw [h]
    · rw [h, Table.sequence_append]
      simp [Table.sequence]

/-- Witness of C15 on the tree of `<!-- c --><html>a<p>b</p></html>` with root
index 1: the returned table is the built one with the entry `root` appended,
whose value is the entry of the built table under the index 2. -/
theorem C15_root_attachment_frame_witness :
    (sample_library (some ⟨sample_comment, ⟨1⟩⟩)).gumbo_parse_with_options ""
      = some ⟨sample_comment, ⟨1⟩⟩ ∧
    sample_comment.type = .GUMBO_NODE_DOCUMENT ∧ sample_comment.valid = true ∧
    (entry_state (.string "")).stack.length + sample_comment.depth + 10
      ≤ (entry_state (.string "")).maxstack ∧
    ∃ L1 L' t t', build_node (sample_library (some ⟨sample_comment, ⟨1⟩⟩)) sample_comment
        (entry_state (.string "")) = .ok () L1 ∧
      L1.stack = .table t :: (entry_state (.string "")).stack ∧
      Key.str "root" ∉ Table.keys t ∧
      parse (sample_library (some ⟨sample_comment, ⟨1⟩⟩)) "" (entry_state (.string ""))
        = .ok 1 L' ∧
      L'.stack = .table t' :: (entry_state (.string "")).stack ∧
      t' = Table.set t (.str "root") (Table.get t (.int 2)) ∧
      Table.sequence t' = Table.sequence t ∧ L'.ntables = L1.ntables := by
  refine ⟨rfl, rfl, by decide, by decide, ?_⟩
  obtain ⟨L1, L', t, t', v, h1, h2, h3, h4, h5, _, h7, _, h9, _, _, _, h13, h14⟩ :=
    C15_root_attachment_frame (sample_library (some ⟨sample_comment, ⟨1⟩⟩)) ""
      ⟨sample_comment, ⟨1⟩⟩ (entry_state (.string "")) rfl rfl (by decide) (by decide)
  have hv : v = Table.get t (.int 2) := (h9 (by decide)).1
  exact ⟨L1, L', t, t', h1, h2, h3, h4, h5, hv ▸ h7, h13, h14⟩

/-- Counterexample to C13 as stated: the same tree, that of
`<html><p>hi</p></html>`, converted from two initial stacks of Lua 5.1. When
`parse` is entered with the input as its only argument it returns a value;
when it is entered with 7989 further arguments on the stack it raises the
stack overflow error. The outcome depends on how much is on the stack. -/
theorem C13_determinism_counterexample :
    (∃ L', parse (sample_library (some ⟨sample_p, ⟨0⟩⟩)) "<html><p>hi</p></html>"
      (entry_state_args [.string "<html><p>hi</p></html>"]) = .ok 1 L') ∧
    (∃ L', parse (sample_library (some ⟨sample_p, ⟨0⟩⟩)) "<html><p>hi</p></html>"
      (entry_state_args (List.replicate 7989 .nil ++ [.string "<html><p>hi</p></html>"]))
        = .error "stack overflow (element nesting too deep)" L') ∧
    ¬ ∃ k L', parse (sample_library (some ⟨sample_p, ⟨0⟩⟩)) "<html><p>hi</p></html>"
      (entry_state_args (List.replicate 7989 .nil ++ [.string "<html><p>hi</p></html>"]))
        = .ok k L' := by
  have h2 : ∃ L', parse (sample_library (some ⟨sample_p, ⟨0⟩⟩)) "<html><p>hi</p></html>"
      (entry_state_args (List.replicate 7989 .nil ++ [.string "<html><p>hi</p></html>"]))
        = .error "stack overflow (element nesting too deep)" L' := by
    have hd : sample_p.depth = 3 := by decide
    obtain ⟨L', h, _⟩ := parse_too_deep (sample_library (some ⟨sample_p, ⟨0⟩⟩))
      "<html><p>hi</p></html>" sample_p ⟨0⟩
      (List.replicate 7989 TValue.nil ++ [TValue.string "<html><p>hi</p></html>"])
      ((List.replicate 7989 TValue.nil ++ [TValue.string "<html><p>hi</p></html>"]).length
        + LUA_MINSTACK) LUAI_MAXCSTACK
      (List.replicate 7989 TValue.nil ++ [TValue.string "<html><p>hi</p></html>"]).length 0 []
      (sample_library_parse _ _) (by decide)
      (by
        rw [List.length_append, List.length_replicate, hd]
        simp [LUAI_MAXCSTACK])
    exact ⟨L', h⟩
  refine ⟨?_, h2, ?_⟩
  · obtain ⟨t, ht⟩ := value_eq_table (sample_library (some ⟨sample_p, ⟨0⟩⟩)) sample_p
      (by decide)
    exact ⟨_, parse_ok (sample_library (some ⟨sample_p, ⟨0⟩⟩)) "<html><p>hi</p></html>"
      ⟨sample_p, ⟨0⟩⟩ t [.string "<html><p>hi</p></html>"] _ _ _ _ _ rfl (by decide)
      (by decide) ht⟩
  · rintro ⟨k, L2, hk⟩
    obtain ⟨L1, h1⟩ := h2
    rw [h1] at hk
    exact Result.noConfusion hk

/-- C13, amended (determinism): whenever two runs of `build_node` on the same
tree return, from any two states, they have pushed the same value, and so
have two runs of `parse` whose parser returned the same tree; the value
depends on the tree alone. Whether `build_node` returns depends on the state
only through the height of the stack and its limit: it returns exactly when
all kinds are valid and the stack has headroom for the depth of the tree. -/
theorem C13_determinism (G : GumboLibrary) (node : GumboNode) (L1 L2 : lua_State) :
    (∀ L1' L2', build_node G node L1 = .ok () L1' → build_node G node L2 = .ok () L2' →
      ∃ v, L1'.stack = v :: L1.stack ∧ L2'.stack = v :: L2.stack) ∧
    (∀ input1 input2 root k1 k2 L1' L2',
      G.gumbo_parse_with_options input1 = some ⟨node, root⟩ →
      G.gumbo_parse_with_options input2 = some ⟨node, root⟩ →
      parse G input1 L1 = .ok k1 L1' → parse G input2 L2 = .ok k2 L2' →
      k1 = 1 ∧ k2 = 1 ∧ ∃ v, L1'.stack = v :: L1.stack ∧ L2'.stack = v :: L2.stack) ∧
    ((∃ L1', build_node G node L1 = .ok () L1') ↔
      (node.valid = true ∧ L1.stack.length + node.depth + 10 ≤ L1.maxstack)) ∧
    (L1.stack.length = L2.stack.length → L1.maxstack = L2.maxstack →
      ((∃ L1', build_node G node L1 = .ok () L1') ↔
        (∃ L2', build_node G node L2 = .ok () L2'))) := by
  refine ⟨?_, ?_, build_node_returns_iff G node L1, ?_⟩
  · intro L1' L2' h1 h2
    exact ⟨node.value G, build_node_stack G node L1 L1' h1, build_node_stack G node L2 L2' h2⟩
  · intro input1 input2 root k1 k2 L1' L2' hp1 hp2 h1 h2
    rcases parse_inv G input1 L1 L1' k1 h1 with ⟨hn, _⟩ | ⟨o1, t1, ho1, hk1, _, _, ht1, hs1, _⟩
    · rw [hp1] at hn
      exact Option.noConfusion hn
    rcases parse_inv G input2 L2 L2' k2 h2 with ⟨hn, _⟩ | ⟨o2, t2, ho2, hk2, _, _, ht2, hs2, _⟩
    · rw [hp2] at hn
      exact Option.noConfusion hn
    rw [hp1] at ho1
    rw [hp2] at ho2
    injection ho1 with ho1
    injection ho2 with ho2
    subst ho1 ho2
    simp only at ht1 ht2
    rw [ht1] at ht2
    injection ht2 with ht2
    subst ht2
    exact ⟨hk1, hk2, _, hs1, hs2⟩
  · intro hlen hmax
    rw [build_node_returns_iff, build_node_returns_iff, hlen, hmax]

/-- Witness of C13: the tree of `<html><p>hi</p></html>` built from the state
in which a C function is entered and from a state with a table below. -/
theorem C13_determinism_witness :
    ∃ L1' L2' v,
      build_node (sample_library none) sample_p (entry_state (.string "")) = .ok () L1' ∧
      build_node (sample_library none) sample_p
        ⟨[.table [], .string ""], 12, LUAI_MAXCSTACK, 2, 1, []⟩ = .ok () L2' ∧
      L1'.stack = [v, .string ""] ∧ L2'.stack = [v, .table [], .string ""] :=
  match (C13_determinism (sample_library none) sample_p (entry_state (.string ""))
      (entry_state (.string ""))).2.2.1.2 ⟨by decide, by decide⟩,
    (C13_determinism (sample_library none) sample_p
      ⟨[.table [], .string ""], 12, LUAI_MAXCSTACK, 2, 1, []⟩
      ⟨[.table [], .string ""], 12, LUAI_MAXCSTACK, 2, 1, []⟩).2.2.1.2
      ⟨by decide, by decide⟩ with
  | ⟨L1', h1⟩, ⟨L2', h2⟩ =>
    match (C13_determinism (sample_library none) sample_p (entry_state (.string ""))
        ⟨[.table [], .string ""], 12, LUAI_MAXCSTACK, 2, 1, []⟩).1 L1' L2' h1 h2 with
    | ⟨v, h3, h4⟩ => ⟨L1', L2', v, h1, h2, h3, h4⟩

/-- C14 (depth guard): `build_node` checks the stack for 10 slots before
anything else, at every node, by `luaL_checkstack` with the text
"element nesting too deep": entered without that headroom it raises the error
of that check, whose message is "stack overflow (element nesting too deep)",
and leaves the state as it was, and so does the head of a node, which is all
that runs before the descent to a child (`build_node` of a node is its head,
the earlier children, the call for the child, the store, the later
children). The call of `build_node` for the
node reached by a path of length d is entered with the stack d slots higher
than at the start. A path is no longer than the depth of the tree and some
path is as long. Hence for a tree of valid kinds the conversion raises that
error exactly when the stack has no headroom of 10 slots at the depth of the
tree, raises no other error, and returns otherwise, having entered every
node; whether it returns is the same for two trees of valid kinds of the same
depth, whatever their siblings and attributes. -/
theorem C14_depth_guard (G : GumboLibrary) (node : GumboNode) (L : lua_State) :
    (¬ L.stack.length + 10 ≤ L.maxstack →
      luaL_checkstack 10 "element nesting too deep" L
        = .error "stack overflow (element nesting too deep)" L ∧
      build_node G node L = .error "stack overflow (element nesting too deep)" L ∧
      node_head G node L = .error "stack overflow (element nesting too deep)" L) ∧
    (∀ i child, node.children[i]? = some child →
      build_node G node = (do
        node_head G node
        add_children G (node.children.take i) 0
        build_node G child
        lua_rawseti (-2) (i + 1)
        add_children G (node.children.drop (i + 1)) (i + 1))) ∧
    (∀ path x Lx, entered G path node L = some (x, Lx) →
      descendant path node = some x ∧ Lx.stack.length = L.stack.length + path.length ∧
      Lx.maxstack = L.maxstack) ∧
    (∀ path x, descendant path node = some x → path.length ≤ node.depth) ∧
    (∃ path x, descendant path node = some x ∧ path.length = node.depth) ∧
    (node.valid = true →
      ((∃ L', build_node G node L = .error "stack overflow (element nesting too deep)" L') ↔
        ¬ L.stack.length + node.depth + 10 ≤ L.maxstack) ∧
      (∀ msg L', build_node G node L = .error msg L' →
        msg = "stack overflow (element nesting too deep)" ∧
        msg = "stack overflow (" ++ "element nesting too deep" ++ ")") ∧
      (L.stack.length + node.depth + 10 ≤ L.maxstack →
        (∃ L', build_node G node L = .ok () L') ∧
        ∀ path x, descendant path node = some x →
          ∃ Lx, entered G path node L = some (x, Lx)) ∧
      (∀ other : GumboNode, other.valid = true → other.depth = node.depth →
        ((∃ L', build_node G other L = .ok () L') ↔ ∃ L', build_node G node L = .ok () L'))) := by
  refine ⟨?_, ?_, ?_, ?_, exists_deepest node, ?_⟩
  · intro hfit
    obtain ⟨s, c, m, p, n, g⟩ := L
    exact ⟨luaL_checkstack_error 10 _ s c m p n g hfit,
      build_node_overflow G node s c m p n g hfit, node_head_overflow G node s c m p n g hfit⟩
  · intro i child hc
    exact build_node_child G node child i hc
  · intro path x Lx h
    obtain ⟨h1, h2, h3⟩ := entered_height G path node L x Lx h
    exact ⟨h3, h1, h2⟩
  · intro path x h
    have := descendant_depth path node x h
    omega
  · intro hv
    have hfail : ¬ L.stack.length + node.depth + 10 ≤ L.maxstack →
        ∃ L', build_node G node L = .error "stack overflow (element nesting too deep)" L' := by
      intro hfit
      obtain ⟨s, c, m, p, n, g⟩ := L
      obtain ⟨msg, L', hrun, _, hmsg⟩ := build_node_fail G node s c m p n g (Or.inr hfit)
      rcases hmsg with ⟨_, h2⟩ | ⟨h1, _⟩
      · rw [hv] at h2
        exact Bool.noConfusion h2
      · exact ⟨L', h1 ▸ hrun⟩
    refine ⟨⟨?_, hfail⟩, ?_, ?_, ?_⟩
    · rintro ⟨L', hrun⟩ hfit
      obtain ⟨L1, h1⟩ := (build_node_returns_iff G node L).2 ⟨hv, hfit⟩
      rw [h1] at hrun
      exact Result.noConfusion hrun
    · intro msg L' hrun
      by_cases hfit : L.stack.length + node.depth + 10 ≤ L.maxstack
      · obtain ⟨L1, h1⟩ := (build_node_returns_iff G node L).2 ⟨hv, hfit⟩
        rw [h1] at hrun
        exact Result.noConfusion hrun
      · obtain ⟨L1, h1⟩ := hfail hfit
        rw [h1] at hrun
        injection hrun with hmsg _
        exact ⟨hmsg.symm, hmsg.symm.trans (by decide)⟩
    · intro hfit
      exact ⟨(build_node_returns_iff G node L).2 ⟨hv, hfit⟩,
        fun path x h => entered_exists G path node L x hv hfit h⟩
    · intro other hvo hd
      rw [build_node_returns_iff, build_node_returns_iff, hd]
      simp [hv, hvo]

/-- Witness of C14: the tree of `<html><p>hi</p></html>` from the state in
which a C function is entered has depth 3 and is built, its text being
entered by the path 0, 0, 0 with the stack three slots higher; from a state
with no room for 10 slots its construction raises the error at once; and a
document of 7989 nested `div` elements around a text, of depth 7990, raises
it from the state in which Lua 5.1 enters a C function. -/
theorem C14_depth_guard_witness :
    sample_p.valid = true ∧
    (entry_state (.string "")).stack.length + sample_p.depth + 10
      ≤ (entry_state (.string "")).maxstack ∧
    descendant [0, 0, 0] sample_p = some (.text "hi") ∧
    (∃ L', build_node (sample_library none) sample_p (entry_state (.string "")) = .ok () L') ∧
    (∃ Lx, entered (sample_library none) [0, 0, 0] sample_p (entry_state (.string ""))
      = some (.text "hi", Lx)) ∧
    ¬ (⟨[], 0, 9, 0, 0, []⟩ : lua_State).stack.length + 10
      ≤ (⟨[], 0, 9, 0, 0, []⟩ : lua_State).maxstack ∧
    build_node (sample_library none) sample_p ⟨[], 0, 9, 0, 0, []⟩
      = .error "stack overflow (element nesting too deep)" ⟨[], 0, 9, 0, 0, []⟩ ∧
    (nested_document 7989 (.text "x")).valid = true ∧
    ¬ (entry_state (.string "")).stack.length + (nested_document 7989 (.text "x")).depth + 10
      ≤ (entry_state (.string "")).maxstack ∧
    (∃ L', build_node (sample_library none) (nested_document 7989 (.text "x"))
      (entry_state (.string "")) = .error "stack overflow (element nesting too deep)" L') := by
  have hvalid : (nested_document 7989 (.text "x")).valid = true := by
    rw [valid_nested_document]
    rfl
  have hdepth : (nested_document 7989 (.text "x")).depth = 7990 := by
    rw [depth_nested_document]
    rfl
  have hfit : ¬ (entry_state (.string "")).stack.length
      + (nested_document 7989 (.text "x")).depth + 10 ≤ (entry_state (.string "")).maxstack := by
    rw [hdepth]
    decide
  exact ⟨by decide, by decide, rfl,
    (((C14_depth_guard (sample_library none) sample_p (entry_state (.string ""))).2.2.2.2.2
      (by decide)).2.2.1 (by decide)).1,
    (((C14_depth_guard (sample_library none) sample_p (entry_state (.string ""))).2.2.2.2.2
      (by decide)).2.2.1 (by decide)).2 [0, 0, 0] (.text "hi") rfl,
    by decide,
    ((C14_depth_guard (sample_library none) sample_p ⟨[], 0, 9, 0, 0, []⟩).1 (by decide)).2.1,
    hvalid, hfit,
    (((C14_depth_guard (sample_library none) (nested_document 7989 (.text "x"))
      (entry_state (.string ""))).2.2.2.2.2 hvalid).1).2 hfit⟩

/-- C17 (checked headroom is never exceeded): no run of `build_node`, of
`add_children` on a table, of `build_element` with the room the check gives
it, or of `parse` on a tree the parser returned makes a push beyond the slots
the frame has been granted (the result is never `undefined`). The check of
`build_node` grants 10 slots above the height at which it is made. The part
of `build_node` run for a node itself, from its check to the descent into its
children, raises the stack at most 3 slots above the height at that check
(counting the high-water mark afresh from the check) and ends one slot above
it. A whole run of `build_node` that returns has raised the stack at most 3
slots above the height of the deepest check, where 10 slots were granted, and
the root lookup of `parse` does not raise it further. -/
theorem C17_checked_headroom (G : GumboLibrary) (node : GumboNode) (L : lua_State) :
    build_node G node L ≠ .undefined ∧
    node_head G node L ≠ .undefined ∧
    (∀ children i t s, L.stack = .table t :: s → add_children G children i L ≠ .undefined) ∧
    (∀ tag original_tag attributes children, L.stack.length + 3 ≤ L.ci_top →
      build_element G tag original_tag attributes children L ≠ .undefined) ∧
    (∀ input root, G.gumbo_parse_with_options input = some ⟨node, root⟩ →
      parse G input L ≠ .undefined) ∧
    (∀ L0, luaL_checkstack 10 "element nesting too deep" L = .ok () L0 →
      L0.stack = L.stack ∧ L0.stack.length + 10 ≤ L0.ci_top) ∧
    (∀ L0, node_head G node { L with peak := 0 } = .ok () L0 →
      L0.peak ≤ L.stack.length + 3 ∧ L.stack.length + 10 ≤ L0.ci_top ∧
      L0.stack.length = L.stack.length + 1) ∧
    (∀ L', build_node G node L = .ok () L' →
      L'.peak ≤ max L.peak (L.stack.length + node.depth + 3) ∧
      L.stack.length + node.depth + 10 ≤ L'.ci_top ∧
      L'.stack.length = L.stack.length + 1) ∧
    (∀ input root L1 k L', G.gumbo_parse_with_options input = some ⟨node, root⟩ →
      build_node G node L = .ok () L1 → parse G input L = .ok k L' →
      L'.peak = L1.peak ∧ L'.ci_top = L1.ci_top ∧
      L'.peak ≤ max L.peak (L.stack.length + node.depth + 3) ∧
      L.stack.length + node.depth + 10 ≤ L'.ci_top) := by
  refine ⟨build_node_defined G node L, node_head_defined G node L,
    fun children i t s hs => add_children_defined G children i L t s hs,
    fun tag original_tag attributes children hroom =>
      build_element_defined G tag original_tag attributes children L hroom,
    fun input root hparse => parse_defined G input ⟨node, root⟩ L hparse, ?_, ?_, ?_, ?_⟩
  · intro L0 h
    obtain ⟨h1, h2, _⟩ := luaL_checkstack_inv 10 _ L L0 h
    exact ⟨h1, h2⟩
  · intro L0 h
    obtain ⟨_, ⟨t, ht⟩, hc, _, hp, _, _⟩ := node_head_inv G node _ L0 h
    simp only at ht hc hp
    refine ⟨by omega, by omega, ?_⟩
    rw [ht, List.length_cons]
  · intro L' h
    obtain ⟨_, _, hL'⟩ := build_node_inv G node L L' h
    have hs := slots_le node
    rw [hL']
    refine ⟨?_, ?_, ?_⟩
    · simp only
      omega
    · simp only
      omega
    · simp only [List.length_cons]
  · intro input root L1 k L' hparse hbuild hrun
    obtain ⟨h1, h2, _, _⟩ := parse_peak G input ⟨node, root⟩ L L1 L' k hparse hbuild hrun
    obtain ⟨_, _, hL1⟩ := build_node_inv G node L L1 hbuild
    have hs := slots_le node
    rw [h1, h2, hL1]
    refine ⟨rfl, rfl, ?_, ?_⟩
    · simp only
      omega
    · simp only
      omega

/-- Witness of C17: the tree of `<!DOCTYPE html><div class="a">x</div>`, whose
element has an attribute, from the state in which a C function is entered with
one argument: the document's own part raises the stack from height 1 to at
most 4, and the whole run, of depth 2, to at most 6, with 13 slots granted. -/
theorem C17_checked_headroom_witness :
    (∃ L', build_node (sample_library none) sample_div (entry_state (.string "")) = .ok () L' ∧
      L'.peak ≤ 6 ∧ 13 ≤ L'.ci_top) ∧
    (∃ L0, node_head (sample_library none) sample_div
        { entry_state (.string "") with peak := 0 } = .ok () L0 ∧
      L0.peak ≤ 4 ∧ 11 ≤ L0.ci_top) := by
  have hb : ∃ L', build_node (sample_library none) sample_div (entry_state (.string ""))
      = .ok () L' :=
    ⟨_, build_node_ok (sample_library none) sample_div [.string ""] 21 8000 1 0 []
      (by decide) (by decide)⟩
  have hh : ∃ L0, node_head (sample_library none) sample_div
      { entry_state (.string "") with peak := 0 } = .ok () L0 := by
    obtain ⟨t, k, j, h, _⟩ := node_head_apply (sample_library none) sample_div
      (Or.inl rfl) [.string ""] 21 8000 0 0 [] (by decide)
    exact ⟨_, h⟩
  obtain ⟨L', h⟩ := hb
  obtain ⟨L0, h0⟩ := hh
  have hd : sample_div.depth = 2 := by decide
  have h1 := (C17_checked_headroom (sample_library none) sample_div
    (entry_state (.string ""))).2.2.2.2.2.2.2.1 L' h
  have h2 := (C17_checked_headroom (sample_library none) sample_div
    (entry_state (.string ""))).2.2.2.2.2.2.1 L0 h0
  rw [hd] at h1
  exact ⟨⟨L', h, by simpa [entry_state] using h1.1, by simpa [entry_state] using h1.2.1⟩,
    ⟨L0, h0, by simpa [entry_state] using h2.1, by simpa [entry_state] using h2.2.1⟩⟩

end LuaGumbo
